import Mathlib

/-!
The functional renderer of pt-three-ways (`src/fp/Render.cpp`, `src/math/*.impl.h`).

A shallow embedding of the path tracer's functional renderer.

* C++ `double` is a linearly ordered field `α` (exact arithmetic); the
  transcendental functions the code calls (`sqrt`, `cos`, `sin`, `M_PI`) are
  fields of `Externals`, so every definition below is computable and can be
  run at `α = ℚ`.
* The section on double arithmetic repeats `radiance` and `singleRay` with every
  arithmetic operation rounded to IEEE binary64; without rounding they are the
  exact functions (`radianceRounded_id`).
* C++ `int` is `Int`; signed overflow is undefined behaviour in C++ and has no
  counterpart here.
* `std::mt19937 &rng` is an explicit state of an arbitrary type `G` that is
  passed in and returned.
* Headers that are not part of the sources (`Vec3.h`, `Ray.h`, `Scene.h`,
  `Primitive.h`, `Random2DSampler.h`, `Camera.h`, `ArrayOutput.h`) are either
  fields of `Externals` or modelled from the specification; each such
  definition says so.
-/

namespace fp

/-! ## Vectors -/

/-- Modelled from the spec: `Vec3.h` is not among the sources; a `Vec3` is a
triple of scalars with component-wise arithmetic. -/
structure Vec3 (α : Type) where
  x : α
  y : α
  z : α
deriving DecidableEq, Repr

/-- Unit vector type `Norm3`; its members are defined in `Norm3.impl.h`. -/
structure Norm3 (α : Type) where
  x : α
  y : α
  z : α
deriving DecidableEq, Repr

namespace Vec3
variable {α : Type}

/-- Modelled from the spec: default constructor `Vec3()`, the zero colour. -/
def zero [Zero α] : Vec3 α := ⟨0, 0, 0⟩

/-- Modelled from the spec: `Vec3::operator+`, component-wise. -/
def add [Add α] (a b : Vec3 α) : Vec3 α := ⟨a.x + b.x, a.y + b.y, a.z + b.z⟩

/-- Modelled from the spec: `Vec3::operator-`, component-wise. -/
def sub [Sub α] (a b : Vec3 α) : Vec3 α := ⟨a.x - b.x, a.y - b.y, a.z - b.z⟩

/-- Modelled from the spec: `Vec3::operator*(const Vec3 &)`, component-wise
(colour modulation). -/
def mul [Mul α] (a b : Vec3 α) : Vec3 α := ⟨a.x * b.x, a.y * b.y, a.z * b.z⟩

/-- Modelled from the spec: `Vec3::operator*(double)`. -/
def scale [Mul α] (a : Vec3 α) (b : α) : Vec3 α := ⟨a.x * b, a.y * b, a.z * b⟩

/-- Modelled from the spec: `Vec3::dot`. -/
def dot [Add α] [Mul α] (a b : Vec3 α) : α := a.x * b.x + a.y * b.y + a.z * b.z

/-- Modelled from the spec: `Vec3::lengthSquared`. -/
def lengthSquared [Add α] [Mul α] (a : Vec3 α) : α := a.x * a.x + a.y * a.y + a.z * a.z

/-- Modelled from the spec: `Vec3::length`, the square root (passed in) of
`lengthSquared`. -/
def length [Add α] [Mul α] (sqrt : α → α) (a : Vec3 α) : α := sqrt a.lengthSquared

/-- `Vec3::normalised` (`Vec3.impl.h`): `Norm3(*this * (1.0 / length()))`. -/
def normalised [Add α] [Mul α] [One α] [Div α] (sqrt : α → α) (a : Vec3 α) : Norm3 α :=
  let v := a.scale (1 / a.length sqrt)
  ⟨v.x, v.y, v.z⟩

/-- `Vec3::Vec3(const Norm3 &)` (`Vec3.impl.h`). -/
def ofNorm3 (norm : Norm3 α) : Vec3 α := ⟨norm.x, norm.y, norm.z⟩

end Vec3

namespace Norm3
variable {α : Type}

/-- `Norm3::Norm3(const Vec3 &)`: copies the components, no check. -/
def ofVec3 (vec : Vec3 α) : Norm3 α := ⟨vec.x, vec.y, vec.z⟩

/-- `Norm3::toVec3`. -/
def toVec3 (a : Norm3 α) : Vec3 α := ⟨a.x, a.y, a.z⟩

/-- `Norm3::operator*(double)`. -/
def scale [Mul α] (a : Norm3 α) (b : α) : Vec3 α := ⟨a.x * b, a.y * b, a.z * b⟩

/-- `Norm3::cross(const Vec3 &)`. -/
def crossVec3 [Sub α] [Mul α] (a : Norm3 α) (b : Vec3 α) : Vec3 α :=
  let x := a.y * b.z - a.z * b.y
  let y := a.z * b.x - a.x * b.z
  let z := a.x * b.y - a.y * b.x
  ⟨x, y, z⟩

/-- `Norm3::cross(const Norm3 &)`. -/
def cross [Sub α] [Mul α] (a b : Norm3 α) : Vec3 α := a.crossVec3 b.toVec3

/-- `Norm3::fromNormal`: the `assert` on the squared length is the only way to
fail; `none` is the failed assertion. -/
def fromNormal [LinearOrderedField α] (normal : Vec3 α) : Option (Norm3 α) :=
  if |normal.lengthSquared - 1| < (1 / 10000000 : α) then some (ofVec3 normal) else none

/-- `Norm3::dot(const Vec3 &)`. -/
def dotVec3 [Add α] [Mul α] (a : Norm3 α) (b : Vec3 α) : α := a.x * b.x + a.y * b.y + a.z * b.z

/-- `Norm3::dot(const Norm3 &)`. -/
def dot [Add α] [Mul α] (a b : Norm3 α) : α := a.x * b.x + a.y * b.y + a.z * b.z

/-- `Norm3::reflect`: `Norm3(incoming.toVec3() - toVec3() * 2 * dot(incoming))`. -/
def reflect [Add α] [Sub α] [Mul α] [OfNat α 2] (a incoming : Norm3 α) : Norm3 α :=
  ofVec3 (incoming.toVec3.sub ((a.toVec3.scale 2).scale (a.dot incoming)))

end Norm3

/-! ## Rays, hits, materials, primitives, scenes -/

/-- Modelled from the spec: `Ray.h` is not among the sources; a ray is an
origin and a direction. -/
structure Ray (α : Type) where
  origin : Vec3 α
  direction : Vec3 α
deriving DecidableEq, Repr

/-- Modelled from the spec: a surface hit is a distance along the ray, a hit
position and a unit surface normal. -/
structure Hit (α : Type) where
  distance : α
  position : Vec3 α
  normal : Norm3 α
deriving DecidableEq, Repr

/-- Modelled from the spec: diffuse colour, emission colour and scalar
reflectivity. -/
structure Material (α : Type) where
  emission : Vec3 α
  diffuse : Vec3 α
  reflectivity : α
deriving DecidableEq, Repr

/-- `struct IntersectionRecord` (`Render.cpp`). -/
structure IntersectionRecord (α : Type) where
  hit : Hit α
  material : Material α
deriving DecidableEq, Repr

/-- Modelled from the spec: the geometry of a triangle is out of scope; the
shape is represented by its `intersect(ray)` member. -/
structure Triangle (α : Type) where
  intersect : Ray α → Option (Hit α)

/-- Modelled from the spec: the geometry of a sphere is out of scope; the
shape is represented by its `intersect(ray)` member. -/
structure Sphere (α : Type) where
  intersect : Ray α → Option (Hit α)

/-- Modelled from the spec: a triangle with its material. -/
structure TrianglePrimitive (α : Type) where
  triangle : Triangle α
  material : Material α

/-- Modelled from the spec: a sphere with its material. -/
structure SpherePrimitive (α : Type) where
  sphere : Sphere α
  material : Material α

/-- Modelled from the spec: `Primitive` is the closed variant of the two shape
kinds. -/
inductive Primitive (α : Type) where
  | triangle (primitive : TrianglePrimitive α)
  | sphere (primitive : SpherePrimitive α)

/-- Modelled from the spec: an ordered collection of primitives and an
environment colour. -/
structure Scene (α : Type) where
  primitives : List (Primitive α)
  environment : Vec3 α

/-- `IntersectVisitor::unwrapWith`. -/
def IntersectVisitor.unwrapWith {α : Type} (hit : Option (Hit α)) (m : Material α) :
    Option (IntersectionRecord α) :=
  match hit with
  | none => none
  | some h => some ⟨h, m⟩

/-- `intersect(const Primitive &, const Ray &)`: `std::visit` of
`IntersectVisitor` over the two alternatives. -/
def Primitive.intersect {α : Type} (primitive : Primitive α) (ray : Ray α) :
    Option (IntersectionRecord α) :=
  match primitive with
  | .triangle p => IntersectVisitor.unwrapWith (p.triangle.intersect ray) p.material
  | .sphere p => IntersectVisitor.unwrapWith (p.sphere.intersect ray) p.material

/-- One iteration of the loop of `intersect(const Scene &, const Ray &)`. -/
def Scene.intersectStep {α : Type} [LT α] [DecidableRel (fun (a b : α) => a < b)]
    (ray : Ray α) (nearest : Option (IntersectionRecord α)) (primitive : Primitive α) :
    Option (IntersectionRecord α) :=
  match primitive.intersect ray with
  | none => nearest
  | some thisIntersection =>
    match nearest with
    | none => some thisIntersection
    | some n =>
      if thisIntersection.hit.distance < n.hit.distance then some thisIntersection
      else nearest

/-- `intersect(const Scene &, const Ray &)`: the loop over `scene.primitives`
starting from an empty `nearest`. -/
def Scene.intersect {α : Type} [LT α] [DecidableRel (fun (a b : α) => a < b)]
    (scene : Scene α) (ray : Ray α) : Option (IntersectionRecord α) :=
  scene.primitives.foldl (Scene.intersectStep ray) none

/-! ## External collaborators -/

/-- Modelled from the spec: `OrthoNormalBasis.h` is not among the sources; a
basis is three vectors. -/
structure OrthoNormalBasis (α : Type) where
  x : Vec3 α
  y : Vec3 α
  z : Vec3 α

/-- Modelled from the spec: `transform(localVec)` maps local coordinates into
world space by linear combination of the basis vectors. -/
def OrthoNormalBasis.transform {α : Type} [Add α] [Mul α] (basis : OrthoNormalBasis α)
    (v : Vec3 α) : Vec3 α :=
  ((basis.x.scale v.x).add (basis.y.scale v.y)).add (basis.z.scale v.z)

/-- Modelled from the spec: the parts of the program that `Render.cpp` uses
and that are not among the sources, taken as parameters.

* `sqrt`, `cos`, `sin`, `pi`: `<cmath>` and `M_PI`;
* `unit`: one draw of `std::uniform_real_distribution<>(0, 1.0)` from the rng;
* `sample numU numV k`: the `k`-th element of `Random2DSampler(rng, numU, numV)`,
  drawn from the rng when the range is advanced to it;
* `fromZ`: `OrthoNormalBasis::fromZ`;
* `fromOriginAndDirection`: `Ray::fromOriginAndDirection`;
* `seedRng`: the constructor `std::mt19937 rng(seed)`. -/
structure Externals (α G : Type) where
  sqrt : α → α
  cos : α → α
  sin : α → α
  pi : α
  unit : G → α × G
  sample : Int → Int → Nat → G → (α × α) × G
  fromZ : Norm3 α → OrthoNormalBasis α
  fromOriginAndDirection : Vec3 α → Vec3 α → Ray α
  seedRng : Nat → G

/-- Modelled from the spec: `Random2DSampler(rng, numU, numV)` is a finite
sequence of exactly `numU × numV` samples. -/
def samplerSize (numUSamples numVSamples : Int) : Nat := (numUSamples * numVSamples).toNat

/-! ## The radiance estimator -/

/-- The constant `MaxDepth`. -/
def MaxDepth : Int := 5

/-- The constant `FirstBounceNumUSamples`. -/
def FirstBounceNumUSamples : Int := 6

/-- The constant `FirstBounceNumVSamples`. -/
def FirstBounceNumVSamples : Int := 3

/-- The integer arguments of one call of `radiance`. -/
structure RadianceCall where
  depth : Int
  numUSamples : Int
  numVSamples : Int
deriving DecidableEq, Repr

/-- Record of one call of `radiance`: its arguments, whether it reached
`intersect(scene, ray)`, and the records of the calls of `radiance` made by
its calls of `singleRay`, in order. This is bookkeeping only: no branch of
the code below reads it. -/
inductive CallTree where
  | node (call : RadianceCall) (intersected : Bool) (children : List CallTree)

/-- The arguments of the call at the root. -/
def CallTree.call : CallTree → RadianceCall
  | .node c _ _ => c

/-- Whether the call at the root reached `intersect(scene, ray)`. -/
def CallTree.intersected : CallTree → Bool
  | .node _ b _ => b

/-- The calls of `radiance` made below the root, one per `singleRay`. -/
def CallTree.children : CallTree → List CallTree
  | .node _ _ cs => cs

/-- What a call of `radiance` or `singleRay` leaves behind: the colour it
returns, the state of `rng` after it, and the record of the calls made. -/
structure Traced (α G : Type) where
  colour : Vec3 α
  rng : G
  calls : CallTree

/-- The local direction built in `singleRay` from the sample `(u, v)`:
`Vec3(cos(theta) * radius, sin(theta) * radius, sqrt(1 - radiusSquared))`. -/
def localDirection {α : Type} [Field α] (sqrt cos sin : α → α) (pi : α) (u v : α) : Vec3 α :=
  let theta := 2 * pi * u
  let radiusSquared := v
  let radius := sqrt radiusSquared
  ⟨cos theta * radius, sin theta * radius, sqrt (1 - radiusSquared)⟩

/-- The vector `reflected` of the mirror branch of `singleRay`:
`ray.direction() - hit.normal * 2 * hit.normal.dot(ray.direction())`. -/
def reflected {α : Type} [Field α] (direction : Vec3 α) (normal : Norm3 α) : Vec3 α :=
  direction.sub ((normal.scale 2).scale (normal.dotVec3 direction))

/-- Running state of the `std::accumulate` in `radiance`: the colour summed
so far, the rng, and the records of the calls made so far. -/
structure Accumulated (α G : Type) where
  colour : Vec3 α
  rng : G
  children : List CallTree

mutual

/-- `singleRay` (`Render.cpp`). -/
def singleRay {α G : Type} [LinearOrderedField α] (ext : Externals α G) (scene : Scene α)
    (rng : G) (intersectionRecord : IntersectionRecord α) (ray : Ray α)
    (basis : OrthoNormalBasis α) (u v : α) (depth : Int) (preview : Bool) : Traced α G :=
  let mat := intersectionRecord.material
  let hit := intersectionRecord.hit
  let newDir :=
    (basis.transform (localDirection ext.sqrt ext.cos ext.sin ext.pi u v)).normalised ext.sqrt
  let drawn := ext.unit rng
  let p := drawn.1
  if p < mat.reflectivity then
    let newRay := ext.fromOriginAndDirection hit.position (reflected ray.direction hit.normal)
    radiance ext scene drawn.2 newRay depth 1 1 preview
  else
    let newRay := ext.fromOriginAndDirection hit.position newDir.toVec3
    radiance ext scene drawn.2 newRay depth 1 1 preview
termination_by 2 * (MaxDepth - depth).toNat + 1
decreasing_by
  all_goals simp_wf

/-- `radiance` (`Render.cpp`). -/
def radiance {α G : Type} [LinearOrderedField α] (ext : Externals α G) (scene : Scene α)
    (rng : G) (ray : Ray α) (depth : Int) (numUSamples numVSamples : Int) (preview : Bool) :
    Traced α G :=
  if _hdepth : depth ≥ MaxDepth then
    ⟨Vec3.zero, rng, .node ⟨depth, numUSamples, numVSamples⟩ false []⟩
  else
    match scene.intersect ray with
    | none => ⟨scene.environment, rng, .node ⟨depth, numUSamples, numVSamples⟩ true []⟩
    | some intersectionRecord =>
      let mat := intersectionRecord.material
      let hit := intersectionRecord.hit
      if preview then
        ⟨mat.diffuse, rng, .node ⟨depth, numUSamples, numVSamples⟩ true []⟩
      else
        let basis := ext.fromZ hit.normal
        let sampleScale : α := 1 / ((numUSamples * numVSamples : Int) : α)
        let incoming : Accumulated α G :=
          (List.range (samplerSize numUSamples numVSamples)).foldl
            (fun acc k =>
              let s := ext.sample numUSamples numVSamples k acc.rng
              let r := singleRay ext scene s.2 intersectionRecord ray basis s.1.1 s.1.2
                (depth + 1) preview
              ⟨acc.colour.add r.colour, r.rng, acc.children ++ [r.calls]⟩)
            ⟨Vec3.zero, rng, []⟩
        ⟨mat.emission.add ((mat.diffuse.mul incoming.colour).scale sampleScale), incoming.rng,
          .node ⟨depth, numUSamples, numVSamples⟩ true incoming.children⟩
termination_by 2 * (MaxDepth - depth).toNat
decreasing_by
  all_goals simp_wf
  all_goals simp only [MaxDepth] at *
  all_goals omega

end

/-- The `std::accumulate` of `radiance` as a function of its own: the fold of
the lambda of `radiance` over the samples `ks`, from `acc`. -/
def accumulateSamples {α G : Type} [LinearOrderedField α] (ext : Externals α G) (scene : Scene α)
    (record : IntersectionRecord α) (ray : Ray α) (numU numV depth : Int) (preview : Bool)
    (ks : List Nat) (acc : Accumulated α G) : Accumulated α G :=
  ks.foldl
    (fun acc k =>
      let s := ext.sample numU numV k acc.rng
      let r := singleRay ext scene s.2 record ray (ext.fromZ record.hit.normal) s.1.1 s.1.2
        (depth + 1) preview
      ⟨acc.colour.add r.colour, r.rng, acc.children ++ [r.calls]⟩)
    acc

/-! ## The frame renderer -/

/-- Modelled from the spec: the camera is external; `ray(ndcX, ndcY, rng)`
returns a primary ray and may consume the rng. -/
structure Camera (α G : Type) where
  ray : α → α → G → Ray α × G

/-- Modelled from the spec: per-pixel accumulator of `ArrayOutput.h`, a running
sum of samples and a sample count. -/
structure SampledPixel (α : Type) where
  colour : Vec3 α
  numSamples : Nat
deriving DecidableEq, Repr

/-- Modelled from the spec: accumulate `numSamples` samples of total `colour`
into a pixel. -/
def SampledPixel.accumulate {α : Type} [Add α] (p : SampledPixel α) (colour : Vec3 α)
    (numSamples : Nat) : SampledPixel α :=
  ⟨p.colour.add colour, p.numSamples + numSamples⟩

/-- Modelled from the spec: cell-wise merge of two accumulators. -/
def SampledPixel.merge {α : Type} [Add α] (p q : SampledPixel α) : SampledPixel α :=
  ⟨p.colour.add q.colour, p.numSamples + q.numSamples⟩

/-- Modelled from the spec: `ArrayOutput.h` is not among the sources; the
output buffer is `width × height` accumulators stored row by row. -/
structure ArrayOutput (α : Type) where
  width : Int
  height : Int
  output : List (SampledPixel α)
deriving DecidableEq, Repr

/-- Modelled from the spec: the constructor `ArrayOutput(width, height)`, all
accumulators empty. -/
def ArrayOutput.create {α : Type} [Zero α] (width height : Int) : ArrayOutput α :=
  ⟨width, height, List.replicate (width * height).toNat ⟨Vec3.zero, 0⟩⟩

/-- Modelled from the spec: `addSamples(x, y, colour, numSamples)` accumulates
into the pixel stored at `x + y * width`. -/
def ArrayOutput.addSamples {α : Type} [Add α] (o : ArrayOutput α) (x y : Int)
    (colour : Vec3 α) (numSamples : Nat) : ArrayOutput α :=
  { o with
    output := List.modify (fun p => p.accumulate colour numSamples) (x + y * o.width).toNat
      o.output }

/-- Modelled from the spec: `operator+=`, the cell-wise merge of two buffers. -/
def ArrayOutput.merge {α : Type} [Add α] (o rhs : ArrayOutput α) : ArrayOutput α :=
  { o with output := List.zipWith SampledPixel.merge o.output rhs.output }

/-- The range `view::ints(lo, hi)`. -/
def ints (lo hi : Int) : List Int :=
  (List.range (hi - lo).toNat).map (fun (k : Nat) => lo + (k : Int))

/-- The range `rng | view::cycle | view::take(n)`: the `k`-th element is the
element of `rng` at `k` modulo its length. -/
def cycleTake {β : Type} (rng : List β) (n : Nat) : List β :=
  (List.range n).filterMap (fun k => rng[k % rng.length]?)

/-- `xRange` of `renderWholeScreen`. -/
def xRange (width height : Int) : List Int := cycleTake (ints 0 width) (width * height).toNat

/-- `yRange` of `renderWholeScreen`: every `i` of `view::ints(0, height)`
repeated `width` times. -/
def yRange (width height : Int) : List Int :=
  (ints 0 height).flatMap (fun i => List.replicate width.toNat i)

/-- `xyRange` of `renderWholeScreen`. -/
def xyRange (width height : Int) : List (Int × Int) :=
  List.zip (xRange width height) (yRange width height)

/-- The first `view::transform` of `renderWholeScreen`: two draws from the
rng, the normalised coordinates, and the camera ray. -/
def primaryRay {α G : Type} [LinearOrderedField α] (ext : Externals α G) (camera : Camera α G)
    (width height : Int) (rng : G) (tuple : Int × Int) : Ray α × G :=
  let x := tuple.1
  let y := tuple.2
  let drawnU := ext.unit rng
  let u := drawnU.1
  let drawnV := ext.unit drawnU.2
  let v := drawnV.1
  let yy := 2 * ((y : α) + u + 1 / 2) / ((height - 1 : Int) : α) - 1
  let xx := 2 * ((x : α) + v + 1 / 2) / ((width - 1 : Int) : α) - 1
  camera.ray xx yy drawnV.2

/-- The vector `colours` of `renderWholeScreen` with, for each pixel, what the
call of `radiance` left behind: the two transforms are applied to the
elements of `xyRange` in order, on the one rng seeded with `seed`. -/
def renderColours {α G : Type} [LinearOrderedField α] (ext : Externals α G)
    (camera : Camera α G) (scene : Scene α) (seed : Nat) (width height : Int)
    (preview : Bool) : List (Traced α G) :=
  ((xyRange width height).foldl
    (fun (acc : G × List (Traced α G)) tuple =>
      let primary := primaryRay ext camera width height acc.1 tuple
      let r := radiance ext scene primary.2 primary.1 0 FirstBounceNumUSamples
        FirstBounceNumVSamples preview
      (r.rng, acc.2 ++ [r]))
    (ext.seedRng seed, [])).2

/-- `renderWholeScreen` (`Render.cpp`). -/
def renderWholeScreen {α G : Type} [LinearOrderedField α] (ext : Externals α G)
    (camera : Camera α G) (scene : Scene α) (seed : Nat) (width height : Int)
    (preview : Bool) : ArrayOutput α :=
  let colours := (renderColours ext camera scene seed width height preview).map Traced.colour
  (ints 0 height).foldl
    (fun result y =>
      (ints 0 width).foldl
        (fun result x =>
          result.addSamples x y (colours.getD (x + y * width).toNat Vec3.zero) 1)
        result)
    (ArrayOutput.create width height)

/-! ## The accumulation driver -/

/-- One memory access of the expression `seed++` evaluated by a task of a
wave: the increment of the captured `size_t seed` is a load followed by a
store. -/
inductive SeedAccess where
  | load (task : Nat)
  | store (task : Nat)
deriving DecidableEq, Repr

/-- The variable `seed` of `render` while the tasks of one wave run, with the
value each task has loaded so far. -/
structure SeedRace where
  seed : Nat
  loaded : List (Nat × Nat)
deriving DecidableEq, Repr

/-- Effect of one access on the shared `seed`. -/
def SeedRace.step (st : SeedRace) : SeedAccess → SeedRace
  | .load task => ⟨st.seed, (task, st.seed) :: st.loaded⟩
  | .store task =>
    match st.loaded.lookup task with
    | none => st
    | some old => ⟨old + 1, st.loaded⟩

/-- The accesses of a wave of `tasks` tasks when every task finishes its
`seed++` before the next one starts it. -/
def sequentialAccesses (tasks : Nat) : List SeedAccess :=
  (List.range tasks).flatMap (fun task => [SeedAccess.load task, SeedAccess.store task])

/-- An interleaving of the accesses of a wave of `tasks` tasks: every task
loads once and stores once, in that order, and nothing else happens. -/
def ValidAccesses (tasks : Nat) (accesses : List SeedAccess) : Prop :=
  (∀ a ∈ accesses, ∃ task, task < tasks ∧ (a = .load task ∨ a = .store task)) ∧
  ∀ task, task < tasks →
    accesses.count (.load task) = 1 ∧ accesses.count (.store task) = 1 ∧
    accesses.indexOf (SeedAccess.load task) < accesses.indexOf (SeedAccess.store task)

/-- Validity of an interleaving can be checked by running through it. -/
instance decidableValidAccesses (tasks : Nat) (accesses : List SeedAccess) :
    Decidable (ValidAccesses tasks accesses) := by
  unfold ValidAccesses
  infer_instance

/-- What `render` does that can be observed from outside, in order. -/
inductive RenderEvent where
  | launch (sampleIndex : Int) (seed : Nat)
  | merge (sampleIndex : Int)
  | update (numDone : Nat)
deriving DecidableEq, Repr

/-- State of the loop of `render`: the output buffer, the counters `seed` and
`numDone`, and the events so far (bookkeeping only). -/
structure RenderState (α : Type) where
  output : ArrayOutput α
  seed : Nat
  numDone : Nat
  events : List RenderEvent

/-- One wave of `render`: the tasks `ss = sample, ..., min(samplesPerPixel,
sample + numThreads) - 1` (task number `ss - sample`) are launched with
`std::launch::async` and run concurrently; each calls `renderWholeScreen` with
the value its `seed++` loaded. `accesses` is the order in which the loads and stores of the tasks
reach the shared `seed`. The futures are then waited on in launch order, each
result is merged into `output`, `numDone` is incremented and `updateFunc` is
called. -/
def renderWave {α G : Type} [LinearOrderedField α] (ext : Externals α G) (camera : Camera α G)
    (scene : Scene α) (samplesPerPixel numThreads : Int) (preview : Bool)
    (accesses : List SeedAccess) (st : RenderState α) (sample : Int) : RenderState α :=
  let tasks := (min samplesPerPixel (sample + numThreads) - sample).toNat
  let race := accesses.foldl SeedRace.step ⟨st.seed, []⟩
  let futures := (List.range tasks).map
    (fun (task : Nat) => (sample + (task : Int), (race.loaded.lookup task).getD st.seed))
  let launched : RenderState α :=
    { st with seed := race.seed,
              events := st.events ++ futures.map (fun f => RenderEvent.launch f.1 f.2) }
  futures.foldl
    (fun acc future =>
      { acc with
        output := acc.output.merge
          (renderWholeScreen ext camera scene future.2 st.output.width st.output.height preview),
        numDone := acc.numDone + 1,
        events := acc.events ++ [RenderEvent.merge future.1, RenderEvent.update (acc.numDone + 1)] })
    launched

/-- The outer `for` loop of `render`, from `sample`, with at most `fuel`
waves; `none` when the loop has not finished within `fuel` waves. The
interleaving of the wave that starts at `sample` is `schedule sample`. -/
def renderLoop {α G : Type} [LinearOrderedField α] (ext : Externals α G) (camera : Camera α G)
    (scene : Scene α) (samplesPerPixel numThreads : Int) (preview : Bool)
    (schedule : Int → List SeedAccess) : Nat → Int → RenderState α → Option (RenderState α)
  | 0, sample, st => if sample < samplesPerPixel then none else some st
  | fuel + 1, sample, st =>
    if sample < samplesPerPixel then
      renderLoop ext camera scene samplesPerPixel numThreads preview schedule fuel
        (sample + numThreads)
        (renderWave ext camera scene samplesPerPixel numThreads preview (schedule sample) st sample)
    else some st

/-- `render` (`Render.cpp`): `seed = 0`, `numDone = 0`, then the loop. -/
def render {α G : Type} [LinearOrderedField α] (ext : Externals α G) (camera : Camera α G)
    (scene : Scene α) (output : ArrayOutput α) (samplesPerPixel numThreads : Int)
    (preview : Bool) (schedule : Int → List SeedAccess) (fuel : Nat) : Option (RenderState α) :=
  renderLoop ext camera scene samplesPerPixel numThreads preview schedule fuel 0
    ⟨output, 0, 0, []⟩

/-! ## Specification-side definitions -/

/-- The material attached to a primitive. -/
def Primitive.material {α : Type} : Primitive α → Material α
  | .triangle p => p.material
  | .sphere p => p.material

/-- The hit a primitive reports for a ray, if any. -/
def Primitive.hit {α : Type} (primitive : Primitive α) (ray : Ray α) : Option (Hit α) :=
  match primitive with
  | .triangle p => p.triangle.intersect ray
  | .sphere p => p.sphere.intersect ray

/-- The calls of `singleRay` that the `std::accumulate` of `radiance` makes for
the samples `ks` of the sampler, from the rng state `rng`: each sample is
drawn, then `singleRay` runs with `depth + 1` on the rng the draw left. -/
def singleRayResults {α G : Type} [LinearOrderedField α] (ext : Externals α G) (scene : Scene α)
    (intersectionRecord : IntersectionRecord α) (ray : Ray α) (numUSamples numVSamples : Int)
    (depth : Int) (preview : Bool) : List Nat → G → List (Traced α G)
  | [], _ => []
  | k :: ks, rng =>
    let s := ext.sample numUSamples numVSamples k rng
    let r := singleRay ext scene s.2 intersectionRecord ray
      (ext.fromZ intersectionRecord.hit.normal) s.1.1 s.1.2 (depth + 1) preview
    r :: singleRayResults ext scene intersectionRecord ray numUSamples numVSamples depth preview
      ks r.rng

/-- Component-wise sum of a list of colours. -/
def sumColours {α : Type} [AddMonoid α] (l : List (Vec3 α)) : Vec3 α :=
  ⟨(l.map Vec3.x).sum, (l.map Vec3.y).sum, (l.map Vec3.z).sum⟩

/-- Modelled from the spec: the displayed value of a pixel is the average of
the samples accumulated into it, their sum scaled by one over their number. -/
def averageColour {α : Type} [Field α] (samples : List (Vec3 α)) : Vec3 α :=
  (sumColours samples).scale (1 / (samples.length : α))

/-- Every recorded call below the root was made with `1 x 1` samples and a
depth one greater than that of the call that made it. -/
inductive CallTree.Chained : CallTree → Prop where
  | node (call : RadianceCall) (intersected : Bool) (children : List CallTree) :
      (∀ c ∈ children, c.call = ⟨call.depth + 1, 1, 1⟩) →
      (∀ c ∈ children, CallTree.Chained c) →
      CallTree.Chained (.node call intersected children)

/-- The seeds passed to `renderWholeScreen`, in launch order. -/
def launchedSeeds (events : List RenderEvent) : List Nat :=
  events.filterMap (fun e => match e with
    | .launch _ seed => some seed
    | _ => none)

/-- The sample indices `ss` of the frames launched, in launch order. -/
def launchedSamples (events : List RenderEvent) : List Int :=
  events.filterMap (fun e => match e with
    | .launch ss _ => some ss
    | _ => none)

/-- The events other than launches: merges and calls of `updateFunc`. -/
def completionEvents (events : List RenderEvent) : List RenderEvent :=
  events.filter (fun e => match e with
    | .launch _ _ => false
    | _ => true)

/-- The events "merge the frame, then call `updateFunc`" for the frames `frames`
in order, the counter `numDone` going up by one each time. -/
def completions (numDone : Nat) : List Int → List RenderEvent
  | [] => []
  | ss :: rest =>
    RenderEvent.merge ss :: RenderEvent.update (numDone + 1) :: completions (numDone + 1) rest

/-- The schedule in which, in every wave, each task finishes its `seed++`
before the next one starts it. -/
def sequentialSchedule (samplesPerPixel numThreads : Int) (sample : Int) : List SeedAccess :=
  sequentialAccesses (min samplesPerPixel (sample + numThreads) - sample).toNat

/-- A material that neither emits nor reflects: zero emission, zero diffuse
colour, zero reflectivity. -/
def Material.IsBlack {α : Type} [Zero α] (m : Material α) : Prop :=
  m.emission = Vec3.zero ∧ m.diffuse = Vec3.zero ∧ m.reflectivity = 0

/-! ## Concrete inputs -/

/-- External collaborators over `ℚ` with a counter as rng: every draw
advances the counter by one. -/
def demoExternals : Externals ℚ Nat where
  sqrt := id
  cos := fun _ => 1
  sin := fun _ => 0
  pi := 3
  unit := fun g => (1 / 2, g + 1)
  sample := fun _ _ _ g => ((1 / 4, 1 / 4), g + 1)
  fromZ := fun n => ⟨⟨1, 0, 0⟩, ⟨0, 1, 0⟩, n.toVec3⟩
  fromOriginAndDirection := fun o d => ⟨o, d⟩
  seedRng := fun s => s

/-- A camera that always looks along `z` from the origin. -/
def demoCamera : Camera ℚ Nat := ⟨fun _ _ g => (⟨⟨0, 0, 0⟩, ⟨0, 0, 1⟩⟩, g)⟩

/-- The ray from the origin along `z`. -/
def demoRay : Ray ℚ := ⟨⟨0, 0, 0⟩, ⟨0, 0, 1⟩⟩

/-- A scene without primitives and with a white environment. -/
def emptyScene : Scene ℚ := ⟨[], ⟨1, 1, 1⟩⟩

/-- A grey, non-emitting, non-reflecting material. -/
def greyMaterial : Material ℚ := ⟨⟨0, 0, 0⟩, ⟨1 / 2, 1 / 2, 1 / 2⟩, 0⟩

/-- A black material. -/
def blackMaterial : Material ℚ := ⟨⟨0, 0, 0⟩, ⟨0, 0, 0⟩, 0⟩

/-- A sphere that every ray hits at distance `distance`. -/
def alwaysHit (distance : ℚ) : Sphere ℚ := ⟨fun _ => some ⟨distance, ⟨1, 1, 1⟩, ⟨0, 0, 1⟩⟩⟩

/-- A white-environment scene with one grey sphere hit by every ray at
distance `1`. -/
def greyScene : Scene ℚ := ⟨[.sphere ⟨alwaysHit 1, greyMaterial⟩], ⟨1, 1, 1⟩⟩

/-- A white-environment scene with one black sphere hit by every ray at
distance `1`. -/
def blackScene : Scene ℚ := ⟨[.sphere ⟨alwaysHit 1, blackMaterial⟩], ⟨1, 1, 1⟩⟩

/-- A scene whose only primitive reports a hit at distance `-1`. -/
def behindScene : Scene ℚ := ⟨[.sphere ⟨alwaysHit (-1), greyMaterial⟩], ⟨1, 1, 1⟩⟩

/-- The interleaving of a wave of two tasks in which both tasks load `seed`
before either stores its incremented value. -/
def racingAccesses : List SeedAccess := [.load 0, .load 1, .store 0, .store 1]

/-- A white-environment scene with two spheres hit by every ray at the same
distance `1`: a grey one first, a black one second. -/
def tieScene : Scene ℚ :=
  ⟨[.sphere ⟨alwaysHit 1, greyMaterial⟩, .sphere ⟨alwaysHit 1, blackMaterial⟩], ⟨1, 1, 1⟩⟩

/-- Modelled from the spec: the displayed value of a pixel is its running sum
divided by its sample count. -/
def SampledPixel.result {α : Type} [Field α] (p : SampledPixel α) : Vec3 α :=
  p.colour.scale (1 / (p.numSamples : α))

/-- The merges of `render` for the frames it waits on, in order:
`output += frame` for each frame of the list. -/
def mergeFrames {α : Type} [Add α] (output : ArrayOutput α) (frames : List (ArrayOutput α)) :
    ArrayOutput α :=
  frames.foldl ArrayOutput.merge output

/-- A `2 x 1` frame with given per-pixel sums, one sample each. -/
def demoFrame (a b : ℚ) : ArrayOutput ℚ := ⟨2, 1, [⟨⟨a, a, a⟩, 1⟩, ⟨⟨b, b, b⟩, 1⟩]⟩

/-- Every recorded call of the tree satisfies `P`, a property of its
arguments, of whether it intersected the scene, and of the calls it made. -/
inductive CallTree.Forall (P : RadianceCall → Bool → List CallTree → Prop) : CallTree → Prop where
  | node (call : RadianceCall) (intersected : Bool) (children : List CallTree) :
      P call intersected children →
      (∀ c ∈ children, CallTree.Forall P c) →
      CallTree.Forall P (.node call intersected children)

/-- The recorded calls are nested at most `n` deep, the root included. -/
inductive CallTree.NestedAtMost : Nat → CallTree → Prop where
  | node (n : Nat) (call : RadianceCall) (intersected : Bool) (children : List CallTree) :
      (∀ c ∈ children, CallTree.NestedAtMost n c) →
      CallTree.NestedAtMost (n + 1) (.node call intersected children)

/-- The number of waves the claim states: `ceil(samplesPerPixel / numThreads)`,
computed as `(samplesPerPixel + numThreads - 1) / numThreads`. -/
def waveCount (samplesPerPixel numThreads : Int) : Nat :=
  ((samplesPerPixel + numThreads - 1) / numThreads).toNat

/-- The values of `sample` at which the waves start: `0, numThreads,
2 * numThreads, ...`, one per wave. -/
def waveStarts (samplesPerPixel numThreads : Int) : List Int :=
  (List.range (waveCount samplesPerPixel numThreads)).map
    (fun (i : Nat) => (i : Int) * numThreads)

/-- The waves of `render` that start at the values `starts` of `sample`, one
after the other. -/
def runWaves {α G : Type} [LinearOrderedField α] (ext : Externals α G) (camera : Camera α G)
    (scene : Scene α) (samplesPerPixel numThreads : Int) (preview : Bool)
    (schedule : Int → List SeedAccess) (st : RenderState α) (starts : List Int) :
    RenderState α :=
  starts.foldl
    (fun st sample =>
      renderWave ext camera scene samplesPerPixel numThreads preview (schedule sample) st sample)
    st

/-- The calls of `radiance` that `renderWholeScreen` makes for the pixels
`tuples`, from the rng state `rng`: for each pixel the primary ray is
requested from the camera, then `radiance` runs at depth `0` with the
first-bounce sample counts on the rng the camera left. -/
def pixelResults {α G : Type} [LinearOrderedField α] (ext : Externals α G) (camera : Camera α G)
    (scene : Scene α) (width height : Int) (preview : Bool) :
    List (Int × Int) → G → List (Traced α G)
  | [], _ => []
  | tuple :: tuples, rng =>
    let primary := primaryRay ext camera width height rng tuple
    let r := radiance ext scene primary.2 primary.1 0 FirstBounceNumUSamples
      FirstBounceNumVSamples preview
    r :: pixelResults ext camera scene width height preview tuples r.rng

/-! ## Double arithmetic -/

/-- Round to the nearest integer, ties to the even one. -/
def roundHalfEven (x : ℚ) : ℤ :=
  let f := ⌊x⌋
  if x - f < 1 / 2 then f
  else if 1 / 2 < x - f then f + 1
  else if f % 2 = 0 then f else f + 1

/-- The value a C++ `double` operation stores when its exact result is `q`:
the nearest number with 53 significant bits, ties to the even one (IEEE 754
binary64, round to nearest), with the fixed spacing `2 ^ (-1074)` below
`2 ^ (-1022)`. Overflow to infinity is not represented. -/
def roundDouble (q : ℚ) : ℚ :=
  if q = 0 then 0
  else
    let e : ℤ := max (Int.log 2 |q|) (-1022) - 52
    (if q < 0 then -1 else 1) * (roundHalfEven (|q| / 2 ^ e) : ℚ) * 2 ^ e

/-! ### The same code with every arithmetic operation rounded by `fl` -/

/-- `Vec3::operator+` with each sum rounded. -/
def Vec3.addRounded (fl : ℚ → ℚ) (a b : Vec3 ℚ) : Vec3 ℚ :=
  ⟨fl (a.x + b.x), fl (a.y + b.y), fl (a.z + b.z)⟩

/-- `Vec3::operator-` with each difference rounded. -/
def Vec3.subRounded (fl : ℚ → ℚ) (a b : Vec3 ℚ) : Vec3 ℚ :=
  ⟨fl (a.x - b.x), fl (a.y - b.y), fl (a.z - b.z)⟩

/-- `Vec3::operator*(const Vec3 &)` with each product rounded. -/
def Vec3.mulRounded (fl : ℚ → ℚ) (a b : Vec3 ℚ) : Vec3 ℚ :=
  ⟨fl (a.x * b.x), fl (a.y * b.y), fl (a.z * b.z)⟩

/-- `Vec3::operator*(double)` with each product rounded. -/
def Vec3.scaleRounded (fl : ℚ → ℚ) (a : Vec3 ℚ) (b : ℚ) : Vec3 ℚ :=
  ⟨fl (a.x * b), fl (a.y * b), fl (a.z * b)⟩

/-- `Vec3::lengthSquared` with every operation rounded. -/
def Vec3.lengthSquaredRounded (fl : ℚ → ℚ) (a : Vec3 ℚ) : ℚ :=
  fl (fl (fl (a.x * a.x) + fl (a.y * a.y)) + fl (a.z * a.z))

/-- `Vec3::normalised` with every operation rounded. -/
def Vec3.normalisedRounded (fl : ℚ → ℚ) (sqrt : ℚ → ℚ) (a : Vec3 ℚ) : Norm3 ℚ :=
  let v := a.scaleRounded fl (fl (1 / sqrt (a.lengthSquaredRounded fl)))
  ⟨v.x, v.y, v.z⟩

/-- `Norm3::operator*(double)` with each product rounded. -/
def Norm3.scaleRounded (fl : ℚ → ℚ) (a : Norm3 ℚ) (b : ℚ) : Vec3 ℚ :=
  ⟨fl (a.x * b), fl (a.y * b), fl (a.z * b)⟩

/-- `Norm3::dot(const Vec3 &)` with every operation rounded. -/
def Norm3.dotVec3Rounded (fl : ℚ → ℚ) (a : Norm3 ℚ) (b : Vec3 ℚ) : ℚ :=
  fl (fl (fl (a.x * b.x) + fl (a.y * b.y)) + fl (a.z * b.z))

/-- `OrthoNormalBasis::transform` with every operation rounded. -/
def OrthoNormalBasis.transformRounded (fl : ℚ → ℚ) (basis : OrthoNormalBasis ℚ) (v : Vec3 ℚ) :
    Vec3 ℚ :=
  ((basis.x.scaleRounded fl v.x).addRounded fl (basis.y.scaleRounded fl v.y)).addRounded fl
    (basis.z.scaleRounded fl v.z)

/-- The local direction of `singleRay` with every operation rounded. -/
def localDirectionRounded (fl : ℚ → ℚ) (sqrt cos sin : ℚ → ℚ) (pi : ℚ) (u v : ℚ) : Vec3 ℚ :=
  let theta := fl (fl (2 * pi) * u)
  let radiusSquared := v
  let radius := sqrt radiusSquared
  ⟨fl (cos theta * radius), fl (sin theta * radius), sqrt (fl (1 - radiusSquared))⟩

/-- The vector `reflected` of `singleRay` with every operation rounded. -/
def reflectedRounded (fl : ℚ → ℚ) (direction : Vec3 ℚ) (normal : Norm3 ℚ) : Vec3 ℚ :=
  direction.subRounded fl
    ((normal.scaleRounded fl 2).scaleRounded fl (normal.dotVec3Rounded fl direction))

mutual

/-- `singleRay` (`Render.cpp`) with every arithmetic operation rounded by `fl`. -/
def singleRayRounded {G : Type} (fl : ℚ → ℚ) (ext : Externals ℚ G) (scene : Scene ℚ)
    (rng : G) (intersectionRecord : IntersectionRecord ℚ) (ray : Ray ℚ)
    (basis : OrthoNormalBasis ℚ) (u v : ℚ) (depth : Int) (preview : Bool) : Traced ℚ G :=
  let mat := intersectionRecord.material
  let hit := intersectionRecord.hit
  let newDir :=
    (basis.transformRounded fl
      (localDirectionRounded fl ext.sqrt ext.cos ext.sin ext.pi u v)).normalisedRounded fl ext.sqrt
  let drawn := ext.unit rng
  let p := drawn.1
  if p < mat.reflectivity then
    let newRay := ext.fromOriginAndDirection hit.position
      (reflectedRounded fl ray.direction hit.normal)
    radianceRounded fl ext scene drawn.2 newRay depth 1 1 preview
  else
    let newRay := ext.fromOriginAndDirection hit.position newDir.toVec3
    radianceRounded fl ext scene drawn.2 newRay depth 1 1 preview
termination_by 2 * (MaxDepth - depth).toNat + 1
decreasing_by
  all_goals simp_wf

/-- `radiance` (`Render.cpp`) with every arithmetic operation rounded by `fl`. -/
def radianceRounded {G : Type} (fl : ℚ → ℚ) (ext : Externals ℚ G) (scene : Scene ℚ)
    (rng : G) (ray : Ray ℚ) (depth : Int) (numUSamples numVSamples : Int) (preview : Bool) :
    Traced ℚ G :=
  if _hdepth : depth ≥ MaxDepth then
    ⟨Vec3.zero, rng, .node ⟨depth, numUSamples, numVSamples⟩ false []⟩
  else
    match scene.intersect ray with
    | none => ⟨scene.environment, rng, .node ⟨depth, numUSamples, numVSamples⟩ true []⟩
    | some intersectionRecord =>
      let mat := intersectionRecord.material
      let hit := intersectionRecord.hit
      if preview then
        ⟨mat.diffuse, rng, .node ⟨depth, numUSamples, numVSamples⟩ true []⟩
      else
        let basis := ext.fromZ hit.normal
        let sampleScale : ℚ := fl (1 / fl ((numUSamples * numVSamples : Int) : ℚ))
        let incoming : Accumulated ℚ G :=
          (List.range (samplerSize numUSamples numVSamples)).foldl
            (fun acc k =>
              let s := ext.sample numUSamples numVSamples k acc.rng
              let r := singleRayRounded fl ext scene s.2 intersectionRecord ray basis s.1.1
                s.1.2 (depth + 1) preview
              ⟨acc.colour.addRounded fl r.colour, r.rng, acc.children ++ [r.calls]⟩)
            ⟨Vec3.zero, rng, []⟩
        ⟨mat.emission.addRounded fl
            ((mat.diffuse.mulRounded fl incoming.colour).scaleRounded fl sampleScale),
          incoming.rng, .node ⟨depth, numUSamples, numVSamples⟩ true incoming.children⟩
termination_by 2 * (MaxDepth - depth).toNat
decreasing_by
  all_goals simp_wf
  all_goals simp only [MaxDepth] at *
  all_goals omega

end

/-- The double nearest to `0.2`. -/
def oneFifth : ℚ := 3602879701896397 / 18014398509481984

/-- A sphere that is hit, at distance `1`, by the rays starting at the origin
and by no other ray. -/
def originSphere : Sphere ℚ :=
  ⟨fun ray => if ray.origin = ⟨0, 0, 0⟩ then some ⟨1, ⟨1, 1, 1⟩, ⟨0, 0, 1⟩⟩ else none⟩

/-- A white diffuse material: zero emission, diffuse colour `1`, zero
reflectivity. -/
def whiteMaterial : Material ℚ := ⟨⟨0, 0, 0⟩, ⟨1, 1, 1⟩, 0⟩

/-- One white sphere, seen from the origin, under an environment of colour
`0.2` in every channel. -/
def oneSphereScene : Scene ℚ :=
  ⟨[.sphere ⟨originSphere, whiteMaterial⟩], ⟨oneFifth, oneFifth, oneFifth⟩⟩

/-! ## Unfolding lemmas for `radiance` and `singleRay` -/

section lemmas
variable {α G : Type} [LinearOrderedField α]

theorem radiance_of_depth_ge (ext : Externals α G) (scene : Scene α) (rng : G) (ray : Ray α)
    (depth numU numV : Int) (preview : Bool) (h : depth ≥ MaxDepth) :
    radiance ext scene rng ray depth numU numV preview
      = ⟨Vec3.zero, rng, .node ⟨depth, numU, numV⟩ false []⟩ := by
  rw [radiance]
  simp [h]

theorem radiance_of_miss (ext : Externals α G) (scene : Scene α) (rng : G) (ray : Ray α)
    (depth numU numV : Int) (preview : Bool) (h : depth < MaxDepth)
    (hmiss : scene.intersect ray = none) :
    radiance ext scene rng ray depth numU numV preview
      = ⟨scene.environment, rng, .node ⟨depth, numU, numV⟩ true []⟩ := by
  rw [radiance]
  simp [not_le.mpr h, hmiss]

theorem radiance_of_preview (ext : Externals α G) (scene : Scene α) (rng : G) (ray : Ray α)
    (depth numU numV : Int) (h : depth < MaxDepth) (record : IntersectionRecord α)
    (hhit : scene.intersect ray = some record) :
    radiance ext scene rng ray depth numU numV true
      = ⟨record.material.diffuse, rng, .node ⟨depth, numU, numV⟩ true []⟩ := by
  rw [radiance]
  simp [not_le.mpr h, hhit]

theorem singleRay_eq (ext : Externals α G) (scene : Scene α) (rng : G)
    (record : IntersectionRecord α) (ray : Ray α) (basis : OrthoNormalBasis α) (u v : α)
    (depth : Int) (preview : Bool) :
    singleRay ext scene rng record ray basis u v depth preview
      = if (ext.unit rng).1 < record.material.reflectivity then
          radiance ext scene (ext.unit rng).2
            (ext.fromOriginAndDirection record.hit.position
              (reflected ray.direction record.hit.normal)) depth 1 1 preview
        else
          radiance ext scene (ext.unit rng).2
            (ext.fromOriginAndDirection record.hit.position
              ((basis.transform (localDirection ext.sqrt ext.cos ext.sin ext.pi u v)).normalised
                ext.sqrt).toVec3) depth 1 1 preview := by
  rw [singleRay]

omit [LinearOrderedField α] in
theorem Primitive.intersect_eq (p : Primitive α) (ray : Ray α) :
    p.intersect ray = (p.hit ray).map (fun h => ⟨h, p.material⟩) := by
  cases p <;> simp only [Primitive.intersect, Primitive.hit, Primitive.material,
    IntersectVisitor.unwrapWith] <;> split <;> simp_all

theorem intersect_foldl (ray : Ray α) (l : List (Primitive α)) :
    ∀ nearest : Option (IntersectionRecord α),
    (l.foldl (Scene.intersectStep ray) nearest = none ↔
      nearest = none ∧ ∀ p ∈ l, p.intersect ray = none) ∧
    ∀ r, l.foldl (Scene.intersectStep ray) nearest = some r →
      (nearest = some r ∨ ∃ p ∈ l, p.intersect ray = some r) ∧
      (∀ n, nearest = some n → r.hit.distance ≤ n.hit.distance) ∧
      (∀ p ∈ l, ∀ h, p.intersect ray = some h → r.hit.distance ≤ h.hit.distance) := by
  induction l with
  | nil =>
    intro nearest
    refine ⟨by simp, ?_⟩
    intro r hr
    simp only [List.foldl_nil] at hr
    refine ⟨Or.inl hr, ?_, by simp⟩
    intro n hn
    rw [hr] at hn
    cases hn
    exact le_refl _
  | cons p l ih =>
    intro nearest
    simp only [List.foldl_cons, List.mem_cons, forall_eq_or_imp]
    obtain ⟨ih1, ih2⟩ := ih (Scene.intersectStep ray nearest p)
    -- describe the step
    have hstep : (Scene.intersectStep ray nearest p = none ↔
          nearest = none ∧ p.intersect ray = none) ∧
        ∀ s, Scene.intersectStep ray nearest p = some s →
          (nearest = some s ∨ p.intersect ray = some s) ∧
          (∀ n, nearest = some n → s.hit.distance ≤ n.hit.distance) ∧
          (∀ h, p.intersect ray = some h → s.hit.distance ≤ h.hit.distance) := by
      unfold Scene.intersectStep
      cases hp : p.intersect ray with
      | none =>
        refine ⟨by simp, ?_⟩
        intro s hs
        dsimp only at hs
        refine ⟨Or.inl hs, ?_, by simp⟩
        intro n hn
        rw [hs] at hn
        cases hn
        exact le_refl _
      | some t =>
        cases hn : nearest with
        | none =>
          refine ⟨by simp, ?_⟩
          intro s hs
          simp only [Option.some.injEq] at hs
          subst hs
          exact ⟨Or.inr rfl, by simp, by simp⟩
        | some n =>
          by_cases hlt : t.hit.distance < n.hit.distance
          · refine ⟨by simp [hlt], ?_⟩
            intro s hs
            simp only [hlt, if_true, Option.some.injEq] at hs
            subst hs
            refine ⟨Or.inr rfl, ?_, ?_⟩
            · intro m hm; cases hm; exact le_of_lt hlt
            · intro h hh; cases hh; exact le_refl _
          · refine ⟨by simp [hlt], ?_⟩
            intro s hs
            simp only [hlt, if_false, Option.some.injEq] at hs
            subst hs
            refine ⟨Or.inl rfl, ?_, ?_⟩
            · intro m hm; cases hm; exact le_refl _
            · intro h hh; cases hh; exact not_lt.mp hlt
    refine ⟨?_, ?_⟩
    · rw [ih1, hstep.1]
      tauto
    · intro r hr
      obtain ⟨hsrc, hle, hall⟩ := ih2 r hr
      refine ⟨?_, ?_, ?_, hall⟩
      · rcases hsrc with hs | ⟨q, hq, hqr⟩
        · rcases (hstep.2 r hs).1 with h1 | h1
          · exact Or.inl h1
          · exact Or.inr ⟨p, Or.inl rfl, h1⟩
        · exact Or.inr ⟨q, Or.inr hq, hqr⟩
      · intro n hn
        cases hs : Scene.intersectStep ray nearest p with
        | none =>
          rw [hstep.1] at hs
          rw [hs.1] at hn
          cases hn
        | some s =>
          exact le_trans (hle s hs) ((hstep.2 s hs).2.1 n hn)
      · intro h hh
        cases hs : Scene.intersectStep ray nearest p with
        | none =>
          rw [hstep.1] at hs
          rw [hs.2] at hh
          cases hh
        | some s =>
          exact le_trans (hle s hs) ((hstep.2 s hs).2.2 h hh)

theorem radiance_of_hit (ext : Externals α G) (scene : Scene α) (rng : G) (ray : Ray α)
    (depth numU numV : Int) (h : depth < MaxDepth) (record : IntersectionRecord α)
    (hhit : scene.intersect ray = some record) :
    radiance ext scene rng ray depth numU numV false
      = ⟨record.material.emission.add
          ((record.material.diffuse.mul
            (accumulateSamples ext scene record ray numU numV depth false
              (List.range (samplerSize numU numV)) ⟨Vec3.zero, rng, []⟩).colour).scale
            (1 / ((numU * numV : Int) : α))),
          (accumulateSamples ext scene record ray numU numV depth false
              (List.range (samplerSize numU numV)) ⟨Vec3.zero, rng, []⟩).rng,
          .node ⟨depth, numU, numV⟩ true
            (accumulateSamples ext scene record ray numU numV depth false
              (List.range (samplerSize numU numV)) ⟨Vec3.zero, rng, []⟩).children⟩ := by
  rw [radiance, dif_neg (not_le.mpr h)]
  simp only [hhit]
  rfl

theorem accumulateSamples_eq (ext : Externals α G) (scene : Scene α)
    (record : IntersectionRecord α) (ray : Ray α) (numU numV depth : Int) (preview : Bool)
    (ks : List Nat) : ∀ acc : Accumulated α G,
    (accumulateSamples ext scene record ray numU numV depth preview ks acc).colour
      = acc.colour.add (sumColours
          ((singleRayResults ext scene record ray numU numV depth preview ks acc.rng).map
            Traced.colour)) ∧
    (accumulateSamples ext scene record ray numU numV depth preview ks acc).children
      = acc.children ++
          (singleRayResults ext scene record ray numU numV depth preview ks acc.rng).map
            Traced.calls := by
  induction ks with
  | nil =>
    intro acc
    simp [accumulateSamples, singleRayResults, sumColours, Vec3.add]
  | cons k ks ih =>
    intro acc
    have := ih ⟨acc.colour.add (singleRay ext scene (ext.sample numU numV k acc.rng).2 record ray
        (ext.fromZ record.hit.normal) (ext.sample numU numV k acc.rng).1.1
        (ext.sample numU numV k acc.rng).1.2 (depth + 1) preview).colour,
      (singleRay ext scene (ext.sample numU numV k acc.rng).2 record ray
        (ext.fromZ record.hit.normal) (ext.sample numU numV k acc.rng).1.1
        (ext.sample numU numV k acc.rng).1.2 (depth + 1) preview).rng,
      acc.children ++ [(singleRay ext scene (ext.sample numU numV k acc.rng).2 record ray
        (ext.fromZ record.hit.normal) (ext.sample numU numV k acc.rng).1.1
        (ext.sample numU numV k acc.rng).1.2 (depth + 1) preview).calls]⟩
    simp only [accumulateSamples, List.foldl_cons] at this ⊢
    rw [this.1, this.2]
    simp [singleRayResults, sumColours, Vec3.add, add_assoc]

theorem singleRayResults_length (ext : Externals α G) (scene : Scene α)
    (record : IntersectionRecord α) (ray : Ray α) (numU numV depth : Int) (preview : Bool)
    (ks : List Nat) : ∀ rng : G,
    (singleRayResults ext scene record ray numU numV depth preview ks rng).length = ks.length := by
  induction ks with
  | nil => intro rng; rfl
  | cons k ks ih => intro rng; simp [singleRayResults, ih]

theorem singleRayResults_mem (ext : Externals α G) (scene : Scene α)
    (record : IntersectionRecord α) (ray : Ray α) (numU numV depth : Int) (preview : Bool)
    (ks : List Nat) : ∀ (rng : G),
    ∀ r ∈ singleRayResults ext scene record ray numU numV depth preview ks rng,
      ∃ (g : G) (u v : α), r = singleRay ext scene g record ray (ext.fromZ record.hit.normal)
        u v (depth + 1) preview := by
  induction ks with
  | nil => intro rng r hr; simp [singleRayResults] at hr
  | cons k ks ih =>
    intro rng r hr
    simp only [singleRayResults, List.mem_cons] at hr
    rcases hr with hr | hr
    · exact ⟨_, _, _, hr⟩
    · exact ih _ r hr

theorem radiance_calls_call (ext : Externals α G) (scene : Scene α) (rng : G) (ray : Ray α)
    (depth numU numV : Int) (preview : Bool) :
    (radiance ext scene rng ray depth numU numV preview).calls.call = ⟨depth, numU, numV⟩ := by
  by_cases h : depth ≥ MaxDepth
  · rw [radiance_of_depth_ge ext scene rng ray depth numU numV preview h]; rfl
  · have h' : depth < MaxDepth := not_le.mp h
    cases hi : scene.intersect ray with
    | none => rw [radiance_of_miss ext scene rng ray depth numU numV preview h' hi]; rfl
    | some record =>
      cases preview with
      | true => rw [radiance_of_preview ext scene rng ray depth numU numV h' record hi]; rfl
      | false => rw [radiance_of_hit ext scene rng ray depth numU numV h' record hi]; rfl

theorem singleRay_calls_call (ext : Externals α G) (scene : Scene α) (rng : G)
    (record : IntersectionRecord α) (ray : Ray α) (basis : OrthoNormalBasis α) (u v : α)
    (depth : Int) (preview : Bool) :
    (singleRay ext scene rng record ray basis u v depth preview).calls.call = ⟨depth, 1, 1⟩ := by
  rw [singleRay_eq]
  split <;> exact radiance_calls_call _ _ _ _ _ _ _ _

theorem radiance_chained_aux (ext : Externals α G) (scene : Scene α) (n : Nat) :
    ∀ (depth : Int), (MaxDepth - depth).toNat ≤ n →
    ∀ (rng : G) (ray : Ray α) (numU numV : Int) (preview : Bool),
      (radiance ext scene rng ray depth numU numV preview).calls.Chained := by
  induction n with
  | zero =>
    intro depth hn rng ray numU numV preview
    have h : depth ≥ MaxDepth := by omega
    rw [radiance_of_depth_ge ext scene rng ray depth numU numV preview h]
    exact .node _ _ _ (by simp) (by simp)
  | succ n ih =>
    intro depth hn rng ray numU numV preview
    by_cases h : depth ≥ MaxDepth
    · rw [radiance_of_depth_ge ext scene rng ray depth numU numV preview h]
      exact .node _ _ _ (by simp) (by simp)
    · have h' : depth < MaxDepth := not_le.mp h
      cases hi : scene.intersect ray with
      | none =>
        rw [radiance_of_miss ext scene rng ray depth numU numV preview h' hi]
        exact .node _ _ _ (by simp) (by simp)
      | some record =>
        cases preview with
        | true =>
          rw [radiance_of_preview ext scene rng ray depth numU numV h' record hi]
          exact .node _ _ _ (by simp) (by simp)
        | false =>
          rw [radiance_of_hit ext scene rng ray depth numU numV h' record hi]
          have hch := (accumulateSamples_eq ext scene record ray numU numV depth false
            (List.range (samplerSize numU numV)) ⟨Vec3.zero, rng, []⟩).2
          rw [hch]
          have hmem : ∀ c ∈ ([] : List CallTree) ++
              (singleRayResults ext scene record ray numU numV depth false
                (List.range (samplerSize numU numV)) rng).map Traced.calls,
              c.call = ⟨depth + 1, 1, 1⟩ ∧ c.Chained := by
            intro c hc
            simp only [List.nil_append, List.mem_map] at hc
            obtain ⟨r, hr, rfl⟩ := hc
            obtain ⟨g, u, v, rfl⟩ := singleRayResults_mem ext scene record ray numU numV depth
              false _ rng r hr
            refine ⟨singleRay_calls_call _ _ _ _ _ _ _ _ _ _, ?_⟩
            rw [singleRay_eq]
            have hd : (MaxDepth - (depth + 1)).toNat ≤ n := by omega
            split <;> exact ih (depth + 1) hd _ _ _ _ _
          exact .node _ _ _ (fun c hc => (hmem c hc).1) (fun c hc => (hmem c hc).2)

theorem radiance_chained (ext : Externals α G) (scene : Scene α) (rng : G) (ray : Ray α)
    (depth numU numV : Int) (preview : Bool) :
    (radiance ext scene rng ray depth numU numV preview).calls.Chained :=
  radiance_chained_aux ext scene (MaxDepth - depth).toNat depth (le_refl _) rng ray numU numV
    preview

theorem renderColours_mem (ext : Externals α G) (camera : Camera α G) (scene : Scene α)
    (seed : Nat) (width height : Int) (preview : Bool) :
    ∀ r ∈ renderColours ext camera scene seed width height preview,
      ∃ (g : G) (ray : Ray α), r = radiance ext scene g ray 0 FirstBounceNumUSamples
        FirstBounceNumVSamples preview := by
  have key : ∀ (l : List (Int × Int)) (acc : G × List (Traced α G)),
      (∀ r ∈ acc.2, ∃ (g : G) (ray : Ray α), r = radiance ext scene g ray 0
        FirstBounceNumUSamples FirstBounceNumVSamples preview) →
      ∀ r ∈ (l.foldl
        (fun (acc : G × List (Traced α G)) tuple =>
          (((radiance ext scene (primaryRay ext camera width height acc.1 tuple).2
              (primaryRay ext camera width height acc.1 tuple).1 0 FirstBounceNumUSamples
              FirstBounceNumVSamples preview).rng,
            acc.2 ++ [radiance ext scene (primaryRay ext camera width height acc.1 tuple).2
              (primaryRay ext camera width height acc.1 tuple).1 0 FirstBounceNumUSamples
              FirstBounceNumVSamples preview]) : G × List (Traced α G))) acc).2,
        ∃ (g : G) (ray : Ray α), r = radiance ext scene g ray 0
          FirstBounceNumUSamples FirstBounceNumVSamples preview := by
    intro l
    induction l with
    | nil => intro acc hacc; simpa using hacc
    | cons t l ih =>
      intro acc hacc
      simp only [List.foldl_cons]
      apply ih
      intro r hr
      simp only [List.mem_append, List.mem_singleton] at hr
      rcases hr with hr | hr
      · exact hacc r hr
      · exact ⟨_, _, hr⟩
  exact key (xyRange width height) (ext.seedRng seed, []) (by simp)

theorem radiance_black_hit (ext : Externals α G) (scene : Scene α) (rng : G) (ray : Ray α)
    (depth numU numV : Int) (h : depth < MaxDepth) (record : IntersectionRecord α)
    (hhit : scene.intersect ray = some record) (hblack : record.material.IsBlack) :
    (radiance ext scene rng ray depth numU numV false).colour = Vec3.zero := by
  rw [radiance_of_hit ext scene rng ray depth numU numV h record hhit]
  obtain ⟨he, hd, _⟩ := hblack
  simp [he, hd, Vec3.add, Vec3.mul, Vec3.scale, Vec3.zero]

theorem intersect_material_mem (scene : Scene α) (ray : Ray α) (record : IntersectionRecord α)
    (hrec : scene.intersect ray = some record) :
    ∃ p ∈ scene.primitives, p.material = record.material := by
  rcases ((intersect_foldl ray scene.primitives none).2 record hrec).1 with h | ⟨p, hp, hpr⟩
  · cases h
  · refine ⟨p, hp, ?_⟩
    rw [Primitive.intersect_eq] at hpr
    cases hh : p.hit ray with
    | none => rw [hh] at hpr; cases hpr
    | some h =>
      rw [hh] at hpr
      simp only [Option.map_some', Option.some.injEq] at hpr
      subst hpr
      rfl

theorem averageColour_of_all_eq (c : Vec3 α) (samples : List (Vec3 α)) (hne : samples ≠ [])
    (hall : ∀ s ∈ samples, s = c) : averageColour samples = c := by
  have hrep : samples = List.replicate samples.length c := List.eq_replicate_of_mem hall
  have hlen : (samples.length : α) ≠ 0 := by
    have : samples.length ≠ 0 := by
      intro h0
      exact hne (List.length_eq_zero.mp h0)
    exact_mod_cast this
  rw [averageColour, sumColours]
  generalize samples.length = n at hrep hlen
  subst hrep
  simp only [List.map_replicate, List.sum_replicate, nsmul_eq_mul, Vec3.scale]
  cases c
  simp only [Vec3.mk.injEq]
  refine ⟨?_, ?_, ?_⟩ <;> field_simp

theorem completions_append (l1 l2 : List Int) : ∀ n : Nat,
    completions n (l1 ++ l2) = completions n l1 ++ completions (n + l1.length) l2 := by
  induction l1 with
  | nil => intro n; simp [completions]
  | cons a l1 ih =>
    intro n
    have e : n + 1 + l1.length = n + (l1.length + 1) := by omega
    rw [List.cons_append, completions, completions, ih (n + 1), List.length_cons, e]
    rfl

theorem launchedSeeds_completions (n : Nat) (l : List Int) :
    launchedSeeds (completions n l) = [] := by
  induction l generalizing n with
  | nil => rfl
  | cons a l ih => simp [completions, launchedSeeds] at ih ⊢; exact ih _

theorem launchedSamples_completions (n : Nat) (l : List Int) :
    launchedSamples (completions n l) = [] := by
  induction l generalizing n with
  | nil => rfl
  | cons a l ih => simp [completions, launchedSamples] at ih ⊢; exact ih _

theorem completionEvents_completions (n : Nat) (l : List Int) :
    completionEvents (completions n l) = completions n l := by
  induction l generalizing n with
  | nil => rfl
  | cons a l ih => simp [completions, completionEvents] at ih ⊢; exact ih _

theorem ints_append (a b c : Int) (hab : a ≤ b) (hbc : b ≤ c) :
    ints a c = ints a b ++ ints b c := by
  have h1 : (c - a).toNat = (b - a).toNat + (c - b).toNat := by omega
  simp only [ints, h1, List.range_add, List.map_append, List.map_map]
  congr 1
  apply List.map_congr_left
  intro k _
  simp only [Function.comp]
  push_cast
  have : ((b - a).toNat : Int) = b - a := Int.toNat_of_nonneg (by omega)
  omega

theorem ints_of_le (a b : Int) (h : b ≤ a) : ints a b = [] := by
  have h0 : (b - a).toNat = 0 := by omega
  simp [ints, h0]

theorem ints_length (a b : Int) : (ints a b).length = (b - a).toNat := by
  simp [ints]

theorem wave_fold (ext : Externals α G) (camera : Camera α G) (scene : Scene α)
    (width height : Int) (preview : Bool) (fs : List (Int × Nat)) :
    ∀ acc : RenderState α,
    let res := fs.foldl
      (fun (acc : RenderState α) (future : Int × Nat) =>
        ({ acc with
          output := acc.output.merge
            (renderWholeScreen ext camera scene future.2 width height preview),
          numDone := acc.numDone + 1,
          events := acc.events ++
            [RenderEvent.merge future.1, RenderEvent.update (acc.numDone + 1)] } :
          RenderState α))
      acc
    res.numDone = acc.numDone + fs.length ∧ res.seed = acc.seed ∧
    res.events = acc.events ++ completions acc.numDone (fs.map Prod.fst) := by
  induction fs with
  | nil => intro acc; simp [completions]
  | cons f fs ih =>
    intro acc
    simp only [List.foldl_cons, List.length_cons, List.map_cons, completions]
    obtain ⟨h1, h2, h3⟩ := ih ({ acc with
          output := acc.output.merge
            (renderWholeScreen ext camera scene f.2 width height preview),
          numDone := acc.numDone + 1,
          events := acc.events ++
            [RenderEvent.merge f.1, RenderEvent.update (acc.numDone + 1)] })
    simp only at h1 h2 h3
    refine ⟨?_, h2, ?_⟩
    · rw [h1]; omega
    · rw [h3]; simp

theorem renderWave_spec (ext : Externals α G) (camera : Camera α G) (scene : Scene α)
    (samplesPerPixel numThreads : Int) (preview : Bool) (accesses : List SeedAccess)
    (st : RenderState α) (sample : Int) :
    let tasks := (min samplesPerPixel (sample + numThreads) - sample).toNat
    let race := accesses.foldl SeedRace.step ⟨st.seed, []⟩
    let res := renderWave ext camera scene samplesPerPixel numThreads preview accesses st sample
    res.numDone = st.numDone + tasks ∧ res.seed = race.seed ∧
    res.events = st.events ++
      (List.range tasks).map (fun (task : Nat) =>
        RenderEvent.launch (sample + (task : Int)) ((race.loaded.lookup task).getD st.seed)) ++
      completions st.numDone ((List.range tasks).map (fun (task : Nat) => sample + (task : Int))) := by
  intro tasks race res
  have h := wave_fold ext camera scene st.output.width st.output.height preview
    ((List.range tasks).map
      (fun (task : Nat) => (sample + (task : Int), (race.loaded.lookup task).getD st.seed)))
    { st with seed := race.seed,
              events := st.events ++ ((List.range tasks).map
                (fun (task : Nat) => (sample + (task : Int),
                  (race.loaded.lookup task).getD st.seed))).map
                (fun f => RenderEvent.launch f.1 f.2) }
  obtain ⟨h1, h2, h3⟩ := h
  refine ⟨h1.trans (by simp), h2, h3.trans ?_⟩
  simp [List.map_map, Function.comp_def]


theorem sequentialAccesses_succ (m : Nat) :
    sequentialAccesses (m + 1) = sequentialAccesses m ++ [.load m, .store m] := by
  simp [sequentialAccesses, List.range_succ, List.flatMap_append]

theorem sequential_race (seed : Nat) (m : Nat) :
    ((sequentialAccesses m).foldl SeedRace.step ⟨seed, []⟩).seed = seed + m ∧
    ∀ j, j < m →
      ((sequentialAccesses m).foldl SeedRace.step ⟨seed, []⟩).loaded.lookup j
        = some (seed + j) := by
  induction m with
  | zero => simp [sequentialAccesses]
  | succ m ih =>
    obtain ⟨ih1, ih2⟩ := ih
    rw [sequentialAccesses_succ, List.foldl_append]
    generalize (sequentialAccesses m).foldl SeedRace.step ⟨seed, []⟩ = race at ih1 ih2
    obtain ⟨rs, rl⟩ := race
    simp only at ih1 ih2
    subst ih1
    simp only [List.foldl_cons, List.foldl_nil, SeedRace.step, List.lookup_cons, beq_self_eq_true]
    refine ⟨by omega, ?_⟩
    intro j hj
    by_cases hjm : j = m
    · subst hjm; simp
    · have hne : (j == m) = false := by simpa using hjm
      simp only [hne]
      exact ih2 j (by omega)

theorem launchedSeeds_append (a b : List RenderEvent) :
    launchedSeeds (a ++ b) = launchedSeeds a ++ launchedSeeds b := by
  simp [launchedSeeds]

theorem launchedSamples_append (a b : List RenderEvent) :
    launchedSamples (a ++ b) = launchedSamples a ++ launchedSamples b := by
  simp [launchedSamples]

theorem completionEvents_append (a b : List RenderEvent) :
    completionEvents (a ++ b) = completionEvents a ++ completionEvents b := by
  simp [completionEvents]

theorem launchedSeeds_launches (l : List (Int × Nat)) :
    launchedSeeds (l.map (fun f => RenderEvent.launch f.1 f.2)) = l.map Prod.snd := by
  induction l with
  | nil => rfl
  | cons a l ih => simp [launchedSeeds] at ih ⊢; exact ih

theorem launchedSamples_launches (l : List (Int × Nat)) :
    launchedSamples (l.map (fun f => RenderEvent.launch f.1 f.2)) = l.map Prod.fst := by
  induction l with
  | nil => rfl
  | cons a l ih => simp [launchedSamples] at ih ⊢; exact ih

theorem completionEvents_launches (l : List (Int × Nat)) :
    completionEvents (l.map (fun f => RenderEvent.launch f.1 f.2)) = [] := by
  induction l with
  | nil => rfl
  | cons a l ih => simp [completionEvents] at ih ⊢; exact ih

theorem renderLoop_spec (ext : Externals α G) (camera : Camera α G) (scene : Scene α)
    (samplesPerPixel numThreads : Int) (preview : Bool) (schedule : Int → List SeedAccess)
    (hT : 1 ≤ numThreads) (P : Prop)
    (hP : P → ∀ sample, schedule sample = sequentialSchedule samplesPerPixel numThreads sample) :
    ∀ (fuel : Nat) (s : Int) (st : RenderState α), 0 ≤ s → (samplesPerPixel - s).toNat ≤ fuel →
      st.numDone = (min s samplesPerPixel).toNat →
      launchedSamples st.events = ints 0 (min s samplesPerPixel) →
      completionEvents st.events = completions 0 (ints 0 (min s samplesPerPixel)) →
      (P → st.seed = (min s samplesPerPixel).toNat ∧
        launchedSeeds st.events = List.range (min s samplesPerPixel).toNat) →
      ∃ st', renderLoop ext camera scene samplesPerPixel numThreads preview schedule fuel s st
          = some st' ∧
        st'.numDone = samplesPerPixel.toNat ∧
        launchedSamples st'.events = ints 0 samplesPerPixel ∧
        completionEvents st'.events = completions 0 (ints 0 samplesPerPixel) ∧
        (P → st'.seed = samplesPerPixel.toNat ∧
          launchedSeeds st'.events = List.range samplesPerPixel.toNat) := by
  intro fuel
  induction fuel with
  | zero =>
    intro s st hs hfuel hnum hlaunch hcompl hseq
    have hge : ¬ s < samplesPerPixel := by omega
    have hmin : min s samplesPerPixel = samplesPerPixel := by omega
    rw [hmin] at hnum hlaunch hcompl hseq
    exact ⟨st, by simp [renderLoop, hge], hnum, hlaunch, hcompl, hseq⟩
  | succ fuel ih =>
    intro s st hs hfuel hnum hlaunch hcompl hseq
    by_cases hlt : s < samplesPerPixel
    · have hmin : min s samplesPerPixel = s := by omega
      rw [hmin] at hnum hlaunch hcompl hseq
      simp only [renderLoop, hlt, if_true]
      obtain ⟨w1, w2, w3⟩ := renderWave_spec ext camera scene samplesPerPixel numThreads preview
        (schedule s) st s
      have he : min (s + numThreads) samplesPerPixel = min samplesPerPixel (s + numThreads) :=
        min_comm _ _
      have hse : s ≤ min samplesPerPixel (s + numThreads) := by omega
      have htasks : ((min samplesPerPixel (s + numThreads) - s).toNat : Int)
          = min samplesPerPixel (s + numThreads) - s := Int.toNat_of_nonneg (by omega)
      apply ih (s + numThreads) _ (by omega) (by omega)
      · rw [w1, hnum, he]; omega
      · rw [w3, he]
        rw [launchedSamples_append, launchedSamples_append, hlaunch,
          launchedSamples_completions]
        have := launchedSamples_launches ((List.range
          (min samplesPerPixel (s + numThreads) - s).toNat).map (fun (task : Nat) =>
            (s + (task : Int), ((List.foldl SeedRace.step ⟨st.seed, []⟩
              (schedule s)).loaded.lookup task).getD st.seed)))
        simp only [List.map_map, Function.comp_def] at this
        rw [this, List.append_nil, ints_append 0 s _ hs hse]
        rfl
      · rw [w3, he]
        rw [completionEvents_append, completionEvents_append, hcompl,
          completionEvents_completions]
        have := completionEvents_launches ((List.range
          (min samplesPerPixel (s + numThreads) - s).toNat).map (fun (task : Nat) =>
            (s + (task : Int), ((List.foldl SeedRace.step ⟨st.seed, []⟩
              (schedule s)).loaded.lookup task).getD st.seed)))
        simp only [List.map_map, Function.comp_def] at this
        rw [this, List.append_nil, ints_append 0 s _ hs hse, completions_append, ints_length,
          hnum]
        simp only [sub_zero, zero_add]
        rfl
      · intro p
        obtain ⟨hseed, hseeds⟩ := hseq p
        have hsched := hP p s
        obtain ⟨r1, r2⟩ := sequential_race st.seed
          (min samplesPerPixel (s + numThreads) - s).toNat
        rw [w2, w3, he, hsched]
        refine ⟨?_, ?_⟩
        · rw [sequentialSchedule, r1, hseed]; omega
        · rw [launchedSeeds_append, launchedSeeds_append, hseeds, launchedSeeds_completions]
          have := launchedSeeds_launches ((List.range
            (min samplesPerPixel (s + numThreads) - s).toNat).map (fun (task : Nat) =>
              (s + (task : Int), ((List.foldl SeedRace.step ⟨st.seed, []⟩
                (sequentialSchedule samplesPerPixel numThreads s)).loaded.lookup task).getD
                  st.seed)))
          simp only [List.map_map, Function.comp_def] at this
          rw [this, List.append_nil]
          have hrange : (min samplesPerPixel (s + numThreads)).toNat
              = s.toNat + (min samplesPerPixel (s + numThreads) - s).toNat := by omega
          rw [hrange, List.range_add, hseed]
          congr 1
          apply List.map_congr_left
          intro j hj
          rw [hseed] at r2
          beta_reduce
          rw [sequentialSchedule, r2 j (List.mem_range.mp hj)]
          rfl
    · have hmin : min s samplesPerPixel = samplesPerPixel := by omega
      rw [hmin] at hnum hlaunch hcompl hseq
      exact ⟨st, by simp [renderLoop, hlt], hnum, hlaunch, hcompl, hseq⟩


/-- Whatever the interleaving of the `seed++` of the tasks, with
`numThreads ≥ 1` the loop of `render` finishes within `samplesPerPixel` waves,
launches the frames `0, ..., samplesPerPixel - 1` in order, and merges each
once, each merge followed by one call of `updateFunc`. -/
theorem render_completes (ext : Externals α G) (camera : Camera α G) (scene : Scene α)
    (output : ArrayOutput α) (samplesPerPixel numThreads : Int) (preview : Bool)
    (schedule : Int → List SeedAccess) (hT : 1 ≤ numThreads) :
    ∃ st, render ext camera scene output samplesPerPixel numThreads preview schedule
        samplesPerPixel.toNat = some st ∧
      st.numDone = samplesPerPixel.toNat ∧
      launchedSamples st.events = ints 0 samplesPerPixel ∧
      completionEvents st.events = completions 0 (ints 0 samplesPerPixel) := by
  obtain ⟨st, h1, h2, h3, h4, _⟩ := renderLoop_spec ext camera scene samplesPerPixel numThreads
    preview schedule hT False (fun h => h.elim) samplesPerPixel.toNat 0 ⟨output, 0, 0, []⟩
    (le_refl 0) (by simp) (by show 0 = _; omega)
    (by rw [ints_of_le 0 _ (min_le_left 0 _)]; rfl)
    (by rw [ints_of_le 0 _ (min_le_left 0 _)]; rfl) (fun h => h.elim)
  exact ⟨st, h1, h2, h3, h4⟩

/-- When no two tasks of a wave overlap in their `seed++`, the frames are
rendered with the seeds `0, ..., samplesPerPixel - 1`, in launch order, and
`seed` ends at `samplesPerPixel`. -/
theorem render_sequential_seeds (ext : Externals α G) (camera : Camera α G) (scene : Scene α)
    (output : ArrayOutput α) (samplesPerPixel numThreads : Int) (preview : Bool)
    (hT : 1 ≤ numThreads) :
    ∃ st, render ext camera scene output samplesPerPixel numThreads preview
        (sequentialSchedule samplesPerPixel numThreads) samplesPerPixel.toNat = some st ∧
      st.seed = samplesPerPixel.toNat ∧
      launchedSeeds st.events = List.range samplesPerPixel.toNat := by
  obtain ⟨st, h1, _, _, _, h5⟩ := renderLoop_spec ext camera scene samplesPerPixel numThreads
    preview (sequentialSchedule samplesPerPixel numThreads) hT True (fun _ _ => rfl)
    samplesPerPixel.toNat 0 ⟨output, 0, 0, []⟩
    (le_refl 0) (by simp) (by show 0 = _; omega)
    (by rw [ints_of_le 0 _ (min_le_left 0 _)]; rfl)
    (by rw [ints_of_le 0 _ (min_le_left 0 _)]; rfl)
    (fun _ => by
      have h0 : (min 0 samplesPerPixel).toNat = 0 := by omega
      rw [h0]
      exact ⟨rfl, rfl⟩)
  exact ⟨st, h1, (h5 trivial).1, (h5 trivial).2⟩

theorem intersect_foldl_first (ray : Ray α) (l : List (Primitive α)) :
    ∀ record, l.foldl (Scene.intersectStep ray) none = some record →
      ∃ before p after, l = before ++ p :: after ∧ p.intersect ray = some record ∧
        (∀ q ∈ before, ∀ r, q.intersect ray = some r →
          record.hit.distance < r.hit.distance) ∧
        (∀ q ∈ after, ∀ r, q.intersect ray = some r →
          record.hit.distance ≤ r.hit.distance) := by
  induction l using List.reverseRecOn with
  | nil => intro record h; cases h
  | append_singleton l p ih =>
    intro record h
    rw [List.foldl_append] at h
    simp only [List.foldl_cons, List.foldl_nil] at h
    cases hn : l.foldl (Scene.intersectStep ray) none with
    | none =>
      rw [hn] at h
      cases hp : p.intersect ray with
      | none => simp [Scene.intersectStep, hp] at h
      | some t =>
        simp only [Scene.intersectStep, hp, Option.some.injEq] at h
        subst h
        refine ⟨l, p, [], rfl, hp, ?_, by simp⟩
        intro q hq r hr
        have := ((intersect_foldl ray l none).1.mp hn).2 q hq
        rw [this] at hr
        cases hr
    | some n =>
      rw [hn] at h
      obtain ⟨before, q, after, hl, hq, hb, ha⟩ := ih n hn
      cases hp : p.intersect ray with
      | none =>
        simp only [Scene.intersectStep, hp, Option.some.injEq] at h
        subst h
        refine ⟨before, q, after ++ [p], by simp [hl], hq, hb, ?_⟩
        intro q' hq' r hr
        rcases List.mem_append.mp hq' with h1 | h1
        · exact ha q' h1 r hr
        · simp only [List.mem_singleton] at h1
          subst h1
          rw [hp] at hr
          cases hr
      | some t =>
        simp only [Scene.intersectStep, hp] at h
        by_cases hlt : t.hit.distance < n.hit.distance
        · rw [if_pos hlt] at h
          simp only [Option.some.injEq] at h
          subst h
          refine ⟨l, p, [], rfl, hp, ?_, by simp⟩
          intro q' hq' r hr
          exact lt_of_lt_of_le hlt (((intersect_foldl ray l none).2 n hn).2.2 q' hq' r hr)
        · rw [if_neg hlt] at h
          simp only [Option.some.injEq] at h
          subst h
          refine ⟨before, q, after ++ [p], by simp [hl], hq, hb, ?_⟩
          intro q' hq' r hr
          rcases List.mem_append.mp hq' with h1 | h1
          · exact ha q' h1 r hr
          · simp only [List.mem_singleton] at h1
            subst h1
            rw [hp] at hr
            cases hr
            exact not_lt.mp hlt

theorem sumColours_of_all_zero (l : List (Vec3 α)) (h : ∀ c ∈ l, c = Vec3.zero) :
    sumColours l = Vec3.zero := by
  induction l with
  | nil => rfl
  | cons a l ih =>
    have ha : a = Vec3.zero := h a (List.mem_cons_self _ _)
    have hl := ih (fun c hc => h c (List.mem_cons_of_mem _ hc))
    simp only [sumColours, Vec3.zero, Vec3.mk.injEq] at hl ⊢
    subst ha
    simp [Vec3.zero, hl.1, hl.2.1, hl.2.2]

theorem sampledPixel_merge_right_comm (p a b : SampledPixel α) :
    (p.merge a).merge b = (p.merge b).merge a := by
  simp only [SampledPixel.merge, Vec3.add, SampledPixel.mk.injEq, Vec3.mk.injEq]
  exact ⟨⟨add_right_comm _ _ _, add_right_comm _ _ _, add_right_comm _ _ _⟩,
    Nat.add_right_comm _ _ _⟩

theorem zipWith_merge_right_comm (o : List (SampledPixel α)) :
    ∀ a b : List (SampledPixel α),
    List.zipWith SampledPixel.merge (List.zipWith SampledPixel.merge o a) b
      = List.zipWith SampledPixel.merge (List.zipWith SampledPixel.merge o b) a := by
  induction o with
  | nil => intro a b; simp
  | cons p o ih =>
    intro a b
    cases a with
    | nil => cases b <;> simp
    | cons x a =>
      cases b with
      | nil => simp
      | cons y b =>
        simp only [List.zipWith_cons_cons, List.cons.injEq]
        exact ⟨sampledPixel_merge_right_comm p x y, ih a b⟩

theorem arrayOutput_merge_right_comm (o a b : ArrayOutput α) :
    (o.merge a).merge b = (o.merge b).merge a := by
  simp only [ArrayOutput.merge, ArrayOutput.mk.injEq, true_and]
  exact zipWith_merge_right_comm o.output a.output b.output

theorem wave_fold_output (ext : Externals α G) (camera : Camera α G) (scene : Scene α)
    (width height : Int) (preview : Bool) (fs : List (Int × Nat)) :
    ∀ acc : RenderState α,
    (fs.foldl
      (fun (acc : RenderState α) (future : Int × Nat) =>
        ({ acc with
          output := acc.output.merge
            (renderWholeScreen ext camera scene future.2 width height preview),
          numDone := acc.numDone + 1,
          events := acc.events ++
            [RenderEvent.merge future.1, RenderEvent.update (acc.numDone + 1)] } :
          RenderState α))
      acc).output
      = mergeFrames acc.output
          (fs.map (fun future => renderWholeScreen ext camera scene future.2 width height
            preview)) := by
  induction fs with
  | nil => intro acc; rfl
  | cons f fs ih =>
    intro acc
    simp only [List.foldl_cons, List.map_cons, mergeFrames]
    rw [ih]
    rfl

theorem list_sum_bounds (e : α) (l : List α) (h : ∀ a ∈ l, 0 ≤ a ∧ a ≤ e) :
    0 ≤ l.sum ∧ l.sum ≤ (l.length : α) * e := by
  induction l with
  | nil => simp
  | cons a l ih =>
    obtain ⟨h0, h1⟩ := ih (fun b hb => h b (List.mem_cons_of_mem _ hb))
    obtain ⟨ha0, ha1⟩ := h a (List.mem_cons_self _ _)
    simp only [List.sum_cons, List.length_cons, Nat.cast_add, Nat.cast_one]
    constructor
    · linarith
    · linarith

theorem channel_bound (d s e n : α) (hd0 : 0 ≤ d) (hd1 : d ≤ 1) (hs0 : 0 ≤ s)
    (hs1 : s ≤ n * e) (hn : 1 ≤ n) :
    0 ≤ 0 + d * (0 + s) * (1 / n) ∧ 0 + d * (0 + s) * (1 / n) ≤ e := by
  have hnpos : 0 < n := lt_of_lt_of_le one_pos hn
  have hds0 : 0 ≤ d * s := mul_nonneg hd0 hs0
  have hds1 : d * s ≤ n * e := by
    calc d * s ≤ 1 * s := mul_le_mul_of_nonneg_right hd1 hs0
      _ = s := one_mul s
      _ ≤ n * e := hs1
  simp only [zero_add, mul_one_div]
  constructor
  · exact div_nonneg hds0 hnpos.le
  · rw [div_le_iff₀ hnpos]
    linarith

theorem radiance_bounded_aux (ext : Externals α G) (scene : Scene α)
    (hmat : ∀ p ∈ scene.primitives, p.material.emission = Vec3.zero ∧
      (0 ≤ p.material.diffuse.x ∧ p.material.diffuse.x ≤ 1) ∧
      (0 ≤ p.material.diffuse.y ∧ p.material.diffuse.y ≤ 1) ∧
      (0 ≤ p.material.diffuse.z ∧ p.material.diffuse.z ≤ 1))
    (henv : 0 ≤ scene.environment.x ∧ 0 ≤ scene.environment.y ∧ 0 ≤ scene.environment.z)
    (n : Nat) :
    ∀ (depth : Int), (MaxDepth - depth).toNat ≤ n →
    ∀ (rng : G) (ray : Ray α) (numU numV : Int), 1 ≤ numU → 1 ≤ numV →
      (0 ≤ (radiance ext scene rng ray depth numU numV false).colour.x ∧
        (radiance ext scene rng ray depth numU numV false).colour.x ≤ scene.environment.x) ∧
      (0 ≤ (radiance ext scene rng ray depth numU numV false).colour.y ∧
        (radiance ext scene rng ray depth numU numV false).colour.y ≤ scene.environment.y) ∧
      (0 ≤ (radiance ext scene rng ray depth numU numV false).colour.z ∧
        (radiance ext scene rng ray depth numU numV false).colour.z ≤ scene.environment.z) := by
  have hzero : ∀ (rng : G) (ray : Ray α) (depth numU numV : Int), depth ≥ MaxDepth →
      (0 ≤ (radiance ext scene rng ray depth numU numV false).colour.x ∧
        (radiance ext scene rng ray depth numU numV false).colour.x ≤ scene.environment.x) ∧
      (0 ≤ (radiance ext scene rng ray depth numU numV false).colour.y ∧
        (radiance ext scene rng ray depth numU numV false).colour.y ≤ scene.environment.y) ∧
      (0 ≤ (radiance ext scene rng ray depth numU numV false).colour.z ∧
        (radiance ext scene rng ray depth numU numV false).colour.z ≤ scene.environment.z) := by
    intro rng ray depth numU numV h
    rw [radiance_of_depth_ge ext scene rng ray depth numU numV false h]
    exact ⟨⟨le_refl _, henv.1⟩, ⟨le_refl _, henv.2.1⟩, ⟨le_refl _, henv.2.2⟩⟩
  induction n with
  | zero =>
    intro depth hn rng ray numU numV _ _
    exact hzero rng ray depth numU numV (by omega)
  | succ n ih =>
    intro depth hn rng ray numU numV hU hV
    by_cases h : depth ≥ MaxDepth
    · exact hzero rng ray depth numU numV h
    · have h' : depth < MaxDepth := not_le.mp h
      cases hi : scene.intersect ray with
      | none =>
        rw [radiance_of_miss ext scene rng ray depth numU numV false h' hi]
        exact ⟨⟨henv.1, le_refl _⟩, ⟨henv.2.1, le_refl _⟩, ⟨henv.2.2, le_refl _⟩⟩
      | some record =>
        obtain ⟨p, hp, hpm⟩ := intersect_material_mem scene ray record hi
        obtain ⟨hem, hdx, hdy, hdz⟩ := hmat p hp
        rw [hpm] at hem hdx hdy hdz
        rw [radiance_of_hit ext scene rng ray depth numU numV h' record hi]
        rw [(accumulateSamples_eq ext scene record ray numU numV depth false
          (List.range (samplerSize numU numV)) ⟨Vec3.zero, rng, []⟩).1]
        have hres : ∀ r ∈ singleRayResults ext scene record ray numU numV depth false
            (List.range (samplerSize numU numV)) rng,
            (0 ≤ r.colour.x ∧ r.colour.x ≤ scene.environment.x) ∧
            (0 ≤ r.colour.y ∧ r.colour.y ≤ scene.environment.y) ∧
            (0 ≤ r.colour.z ∧ r.colour.z ≤ scene.environment.z) := by
          intro r hr
          obtain ⟨g, u, v, rfl⟩ := singleRayResults_mem ext scene record ray numU numV depth
            false _ rng r hr
          rw [singleRay_eq]
          have hd : (MaxDepth - (depth + 1)).toNat ≤ n := by omega
          split <;> exact ih (depth + 1) hd _ _ 1 1 (le_refl 1) (le_refl 1)
        have hlen : (((singleRayResults ext scene record ray numU numV depth false
            (List.range (samplerSize numU numV)) rng).length : Nat) : α)
            = ((numU * numV : Int) : α) := by
          rw [singleRayResults_length, List.length_range, samplerSize]
          have hpos : 0 ≤ numU * numV := by positivity
          have : (((numU * numV).toNat : Int)) = numU * numV := Int.toNat_of_nonneg hpos
          exact_mod_cast this
        have hn1 : (1 : α) ≤ ((numU * numV : Int) : α) := by
          have : (1 : Int) ≤ numU * numV := by nlinarith
          exact_mod_cast this
        have hx := list_sum_bounds scene.environment.x
          (((singleRayResults ext scene record ray numU numV depth false
            (List.range (samplerSize numU numV)) rng).map Traced.colour).map Vec3.x)
          (by
            intro a ha
            simp only [List.mem_map, exists_exists_and_eq_and] at ha
            obtain ⟨r, hr, rfl⟩ := ha
            exact (hres r hr).1)
        have hy := list_sum_bounds scene.environment.y
          (((singleRayResults ext scene record ray numU numV depth false
            (List.range (samplerSize numU numV)) rng).map Traced.colour).map Vec3.y)
          (by
            intro a ha
            simp only [List.mem_map, exists_exists_and_eq_and] at ha
            obtain ⟨r, hr, rfl⟩ := ha
            exact (hres r hr).2.1)
        have hz := list_sum_bounds scene.environment.z
          (((singleRayResults ext scene record ray numU numV depth false
            (List.range (samplerSize numU numV)) rng).map Traced.colour).map Vec3.z)
          (by
            intro a ha
            simp only [List.mem_map, exists_exists_and_eq_and] at ha
            obtain ⟨r, hr, rfl⟩ := ha
            exact (hres r hr).2.2)
        simp only [List.length_map, hlen] at hx hy hz
        simp only [hem, Vec3.add, Vec3.mul, Vec3.scale, Vec3.zero, sumColours]
        exact ⟨channel_bound _ _ _ _ hdx.1 hdx.2 hx.1 hx.2 hn1,
          channel_bound _ _ _ _ hdy.1 hdy.2 hy.1 hy.2 hn1,
          channel_bound _ _ _ _ hdz.1 hdz.2 hz.1 hz.2 hn1⟩

theorem radiance_calls_shape (ext : Externals α G) (scene : Scene α) (rng : G) (ray : Ray α)
    (depth numU numV : Int) (preview : Bool) :
    ∃ (intersected : Bool) (children : List CallTree),
      (radiance ext scene rng ray depth numU numV preview).calls
        = .node ⟨depth, numU, numV⟩ intersected children ∧
      (intersected = true ↔ depth < MaxDepth) ∧
      (depth ≥ MaxDepth → children = []) ∧
      children.length ≤ samplerSize numU numV ∧
      ∀ c ∈ children, ∃ (g : G) (r : Ray α),
        c = (radiance ext scene g r (depth + 1) 1 1 preview).calls := by
  by_cases h : depth ≥ MaxDepth
  · rw [radiance_of_depth_ge ext scene rng ray depth numU numV preview h]
    exact ⟨false, [], rfl, by simp; omega, fun _ => rfl, by simp, by simp⟩
  · have h' : depth < MaxDepth := not_le.mp h
    cases hi : scene.intersect ray with
    | none =>
      rw [radiance_of_miss ext scene rng ray depth numU numV preview h' hi]
      exact ⟨true, [], rfl, by simp [h'], fun _ => rfl, by simp, by simp⟩
    | some record =>
      cases preview with
      | true =>
        rw [radiance_of_preview ext scene rng ray depth numU numV h' record hi]
        exact ⟨true, [], rfl, by simp [h'], fun _ => rfl, by simp, by simp⟩
      | false =>
        rw [radiance_of_hit ext scene rng ray depth numU numV h' record hi]
        rw [(accumulateSamples_eq ext scene record ray numU numV depth false
          (List.range (samplerSize numU numV)) ⟨Vec3.zero, rng, []⟩).2]
        refine ⟨true, _, rfl, by simp [h'], fun hge => absurd hge h, ?_, ?_⟩
        · simp [singleRayResults_length]
        · intro c hc
          simp only [List.nil_append, List.mem_map] at hc
          obtain ⟨r, hr, rfl⟩ := hc
          obtain ⟨g, u, v, rfl⟩ := singleRayResults_mem ext scene record ray numU numV depth
            false _ rng r hr
          rw [singleRay_eq]
          split <;> exact ⟨_, _, rfl⟩

theorem radiance_nested_aux (ext : Externals α G) (scene : Scene α) (preview : Bool) (n : Nat) :
    ∀ (depth : Int), (MaxDepth - depth).toNat ≤ n →
    ∀ (rng : G) (ray : Ray α) (numU numV : Int),
      (radiance ext scene rng ray depth numU numV preview).calls.NestedAtMost (n + 1) := by
  induction n with
  | zero =>
    intro depth hn rng ray numU numV
    obtain ⟨b, children, heq, _, hleaf, _, _⟩ :=
      radiance_calls_shape ext scene rng ray depth numU numV preview
    rw [heq, hleaf (by omega)]
    exact .node _ _ _ _ (by simp)
  | succ n ih =>
    intro depth hn rng ray numU numV
    obtain ⟨b, children, heq, _, _, _, hch⟩ :=
      radiance_calls_shape ext scene rng ray depth numU numV preview
    rw [heq]
    refine .node _ _ _ _ ?_
    intro c hc
    obtain ⟨g, r, rfl⟩ := hch c hc
    by_cases h : depth ≥ MaxDepth
    · exact ih (depth + 1) (by omega) g r 1 1
    · exact ih (depth + 1) (by omega) g r 1 1

theorem radiance_forall_aux (ext : Externals α G) (scene : Scene α) (preview : Bool)
    (lowest : Int) (n : Nat) :
    ∀ (depth : Int), (MaxDepth - depth).toNat ≤ n → lowest ≤ depth →
      depth ≤ max lowest MaxDepth →
    ∀ (rng : G) (ray : Ray α) (numU numV : Int),
      (radiance ext scene rng ray depth numU numV preview).calls.Forall
        (fun call intersected children =>
          lowest ≤ call.depth ∧ call.depth ≤ max lowest MaxDepth ∧
          (intersected = true → call.depth ≤ MaxDepth - 1) ∧
          children.length ≤ samplerSize call.numUSamples call.numVSamples ∧
          ∀ c ∈ children, c.call.depth = call.depth + 1 ∧
            (MaxDepth - c.call.depth).toNat < (MaxDepth - call.depth).toNat) := by
  induction n with
  | zero =>
    intro depth hn hlo hhi rng ray numU numV
    obtain ⟨b, children, heq, hb, hleaf, hlen, _⟩ :=
      radiance_calls_shape ext scene rng ray depth numU numV preview
    have hge : depth ≥ MaxDepth := by omega
    rw [heq, hleaf hge]
    refine .node _ _ _ ⟨hlo, hhi, ?_, by simp, by simp⟩ (by simp)
    intro hbt
    have := hb.mp hbt
    omega
  | succ n ih =>
    intro depth hn hlo hhi rng ray numU numV
    obtain ⟨b, children, heq, hb, hleaf, hlen, hch⟩ :=
      radiance_calls_shape ext scene rng ray depth numU numV preview
    rw [heq]
    by_cases h : depth ≥ MaxDepth
    · rw [hleaf h]
      refine .node _ _ _ ⟨hlo, hhi, ?_, by simp, by simp⟩ (by simp)
      intro hbt
      have := hb.mp hbt
      omega
    · have h' : depth < MaxDepth := not_le.mp h
      refine .node _ _ _ ⟨hlo, hhi, ?_, hlen, ?_⟩ ?_
      · intro _
        show depth ≤ MaxDepth - 1
        omega
      · intro c hc
        obtain ⟨g, r, rfl⟩ := hch c hc
        rw [radiance_calls_call]
        show depth + 1 = depth + 1 ∧ (MaxDepth - (depth + 1)).toNat < (MaxDepth - depth).toNat
        exact ⟨rfl, by omega⟩
      · intro c hc
        obtain ⟨g, r, rfl⟩ := hch c hc
        exact ih (depth + 1) (by omega) (by omega) (by omega) g r 1 1

theorem renderLoop_waves (ext : Externals α G) (camera : Camera α G) (scene : Scene α)
    (samplesPerPixel numThreads : Int) (preview : Bool) (schedule : Int → List SeedAccess)
    (k : Nat) :
    ∀ (fuel : Nat) (s : Int) (st : RenderState α),
      (∀ i : Nat, i < k → s + (i : Int) * numThreads < samplesPerPixel) →
      ¬ (s + (k : Int) * numThreads < samplesPerPixel) →
      (k ≤ fuel → renderLoop ext camera scene samplesPerPixel numThreads preview schedule fuel s st
        = some (runWaves ext camera scene samplesPerPixel numThreads preview schedule st
            ((List.range k).map (fun (i : Nat) => s + (i : Int) * numThreads)))) ∧
      (fuel < k → renderLoop ext camera scene samplesPerPixel numThreads preview schedule fuel s st
        = none) := by
  induction k with
  | zero =>
    intro fuel s st _ hstop
    have hge : ¬ s < samplesPerPixel := by simpa using hstop
    refine ⟨fun _ => ?_, fun h => absurd h (Nat.not_lt_zero _)⟩
    cases fuel <;> simp [renderLoop, hge, runWaves]
  | succ k ih =>
    intro fuel s st hrun hstop
    have hlt : s < samplesPerPixel := by simpa using hrun 0 (Nat.succ_pos k)
    have hrun' : ∀ i : Nat, i < k → s + numThreads + (i : Int) * numThreads < samplesPerPixel := by
      intro i hi
      have := hrun (i + 1) (Nat.succ_lt_succ hi)
      push_cast at this
      linarith
    have hstop' : ¬ (s + numThreads + (k : Int) * numThreads < samplesPerPixel) := by
      intro h
      apply hstop
      push_cast
      linarith
    have hlist : (List.range (k + 1)).map (fun (i : Nat) => s + (i : Int) * numThreads)
        = s :: (List.range k).map (fun (i : Nat) => s + numThreads + (i : Int) * numThreads) := by
      rw [List.range_succ_eq_map, List.map_cons, List.map_map]
      simp only [Nat.cast_zero, zero_mul, add_zero, List.cons.injEq, true_and]
      apply List.map_congr_left
      intro i _
      simp only [Function.comp, Nat.succ_eq_add_one]
      push_cast
      ring
    cases fuel with
    | zero =>
      refine ⟨fun h => absurd h (Nat.not_succ_le_zero _), fun _ => ?_⟩
      simp [renderLoop, hlt]
    | succ fuel =>
      obtain ⟨ih1, ih2⟩ := ih fuel (s + numThreads)
        (renderWave ext camera scene samplesPerPixel numThreads preview (schedule s) st s)
        hrun' hstop'
      refine ⟨fun h => ?_, fun h => ?_⟩
      · simp only [renderLoop, hlt, if_true]
        rw [ih1 (Nat.le_of_succ_le_succ h), hlist]
        rfl
      · simp only [renderLoop, hlt, if_true]
        exact ih2 (Nat.lt_of_succ_lt_succ h)

theorem waveCount_spec (samplesPerPixel numThreads : Int) (hS : 0 < samplesPerPixel)
    (hT : 1 ≤ numThreads) :
    1 ≤ waveCount samplesPerPixel numThreads ∧
    samplesPerPixel ≤ (waveCount samplesPerPixel numThreads : Int) * numThreads ∧
    ((waveCount samplesPerPixel numThreads : Int) - 1) * numThreads < samplesPerPixel := by
  have hpos : 0 < numThreads := by omega
  have h1 := Int.ediv_add_emod (samplesPerPixel + numThreads - 1) numThreads
  have h2 := Int.emod_nonneg (samplesPerPixel + numThreads - 1) (ne_of_gt hpos)
  have h3 := Int.emod_lt_of_pos (samplesPerPixel + numThreads - 1) hpos
  have hq : 1 ≤ (samplesPerPixel + numThreads - 1) / numThreads := by
    by_contra hcon
    have hle : (samplesPerPixel + numThreads - 1) / numThreads ≤ 0 := by omega
    have : numThreads * ((samplesPerPixel + numThreads - 1) / numThreads) ≤ 0 :=
      mul_nonpos_of_nonneg_of_nonpos hpos.le hle
    omega
  have hcast : (waveCount samplesPerPixel numThreads : Int)
      = (samplesPerPixel + numThreads - 1) / numThreads := by
    rw [waveCount]
    exact Int.toNat_of_nonneg (by omega)
  refine ⟨?_, ?_, ?_⟩
  · have : (1 : Int) ≤ (waveCount samplesPerPixel numThreads : Int) := by rw [hcast]; exact hq
    exact_mod_cast this
  · rw [hcast]
    nlinarith
  · rw [hcast]
    nlinarith

theorem ints_zero (w : Int) : ints 0 w = (List.range w.toNat).map (fun (k : Nat) => (k : Int)) := by
  simp [ints]

theorem cycleTake_map_range {β : Type} (f : Nat → β) (W n : Nat) (hW : 0 < W) :
    cycleTake ((List.range W).map f) n = (List.range n).map (fun k => f (k % W)) := by
  unfold cycleTake
  have hfun : (fun k => ((List.range W).map f)[k % ((List.range W).map f).length]?)
      = some ∘ (fun k => f (k % W)) := by
    funext k
    simp only [List.length_map, List.length_range, List.getElem?_map, Function.comp]
    rw [List.getElem?_range (Nat.mod_lt k hW)]
    rfl
  rw [hfun, List.filterMap_eq_map]

theorem rows_flatMap_replicate (W H : Nat) (hW : 0 < W) :
    ((List.range H).map (fun (k : Nat) => (k : Int))).flatMap (fun i => List.replicate W i)
      = (List.range (H * W)).map (fun k => ((k / W : Nat) : Int)) := by
  induction H with
  | zero => simp
  | succ H ih =>
    rw [List.range_succ, List.map_append, List.flatMap_append, ih, Nat.succ_mul,
      List.range_add, List.map_append]
    congr 1
    simp only [List.map_cons, List.map_nil, List.flatMap_cons, List.flatMap_nil,
      List.append_nil, List.map_map]
    apply List.ext_getElem
    · simp
    · intro j h1 h2
      simp only [List.length_replicate] at h1
      simp only [List.getElem_replicate, List.getElem_map, List.getElem_range, Function.comp]
      congr 1
      rw [Nat.add_comm, Nat.add_mul_div_right _ _ hW, Nat.div_eq_of_lt h1, Nat.zero_add]

theorem xyRange_eq (width height : Int) (hw : 1 ≤ width) (hh : 0 ≤ height) :
    xyRange width height
      = (List.range (width * height).toNat).map
          (fun k => (((k % width.toNat : Nat) : Int), ((k / width.toNat : Nat) : Int))) := by
  have hW : 0 < width.toNat := by omega
  have hn : (width * height).toNat = height.toNat * width.toNat := by
    have h1 : ((width.toNat : Int)) = width := Int.toNat_of_nonneg (by omega)
    have h2 : ((height.toNat : Int)) = height := Int.toNat_of_nonneg hh
    have : width * height = ((height.toNat * width.toNat : Nat) : Int) := by
      push_cast
      rw [h1, h2]
      ring
    rw [this, Int.toNat_natCast]
  unfold xyRange xRange yRange
  rw [ints_zero, ints_zero, cycleTake_map_range _ _ _ hW, rows_flatMap_replicate _ _ hW, hn,
    List.zip_map']

theorem renderColours_eq_pixelResults (ext : Externals α G) (camera : Camera α G)
    (scene : Scene α) (seed : Nat) (width height : Int) (preview : Bool) :
    renderColours ext camera scene seed width height preview
      = pixelResults ext camera scene width height preview (xyRange width height)
          (ext.seedRng seed) := by
  have key : ∀ (l : List (Int × Int)) (acc : G × List (Traced α G)),
      (l.foldl
        (fun (acc : G × List (Traced α G)) tuple =>
          (((radiance ext scene (primaryRay ext camera width height acc.1 tuple).2
              (primaryRay ext camera width height acc.1 tuple).1 0 FirstBounceNumUSamples
              FirstBounceNumVSamples preview).rng,
            acc.2 ++ [radiance ext scene (primaryRay ext camera width height acc.1 tuple).2
              (primaryRay ext camera width height acc.1 tuple).1 0 FirstBounceNumUSamples
              FirstBounceNumVSamples preview]) : G × List (Traced α G))) acc).2
        = acc.2 ++ pixelResults ext camera scene width height preview l acc.1 := by
    intro l
    induction l with
    | nil => intro acc; simp [pixelResults]
    | cons t l ih =>
      intro acc
      simp only [List.foldl_cons, pixelResults]
      rw [ih]
      simp
  have := key (xyRange width height) (ext.seedRng seed, [])
  simpa using this

theorem pixelResults_length (ext : Externals α G) (camera : Camera α G) (scene : Scene α)
    (width height : Int) (preview : Bool) (l : List (Int × Int)) : ∀ rng : G,
    (pixelResults ext camera scene width height preview l rng).length = l.length := by
  induction l with
  | nil => intro rng; rfl
  | cons t l ih => intro rng; simp [pixelResults, ih]

theorem pixelResults_getElem? (ext : Externals α G) (camera : Camera α G) (scene : Scene α)
    (width height : Int) (preview : Bool) (l : List (Int × Int)) :
    ∀ (rng : G) (k : Nat) (tuple : Int × Int), l[k]? = some tuple →
      ∃ g : G, (pixelResults ext camera scene width height preview l rng)[k]?
        = some (radiance ext scene (primaryRay ext camera width height g tuple).2
            (primaryRay ext camera width height g tuple).1 0 FirstBounceNumUSamples
            FirstBounceNumVSamples preview) := by
  induction l with
  | nil => intro rng k tuple h; simp at h
  | cons t l ih =>
    intro rng k tuple h
    cases k with
    | zero =>
      simp only [List.getElem?_cons_zero, Option.some.injEq] at h
      subst h
      exact ⟨rng, by simp [pixelResults]⟩
    | succ k =>
      simp only [List.getElem?_cons_succ] at h
      obtain ⟨g, hg⟩ := ih (radiance ext scene (primaryRay ext camera width height rng t).2
        (primaryRay ext camera width height rng t).1 0 FirstBounceNumUSamples
        FirstBounceNumVSamples preview).rng k tuple h
      exact ⟨g, by simpa [pixelResults] using hg⟩


theorem modify_range_getElem? {β : Type} (f : Nat → β → β) (n : Nat) :
    ∀ (P : List β) (j : Nat),
      ((List.range n).foldl (fun P k => List.modify (f k) k P) P)[j]?
        = if j < n then P[j]?.map (f j) else P[j]? := by
  induction n with
  | zero => intro P j; simp
  | succ n ih =>
    intro P j
    rw [List.range_succ, List.foldl_append]
    simp only [List.foldl_cons, List.foldl_nil, List.getElem?_modify, ih]
    by_cases hjn : n = j
    · subst hjn
      simp
    · by_cases hlt : j < n
      · have : j < n + 1 := by omega
        simp [hjn, hlt, this]
      · have : ¬ j < n + 1 := by omega
        simp [hjn, hlt, this]

theorem modify_range_length {β : Type} (f : Nat → β → β) (n : Nat) :
    ∀ (P : List β), ((List.range n).foldl (fun P k => List.modify (f k) k P) P).length
      = P.length := by
  induction n with
  | zero => intro P; rfl
  | succ n ih =>
    intro P
    rw [List.range_succ, List.foldl_append]
    simp [ih]

theorem row_indices (W H : Nat) :
    (List.range H).flatMap (fun y => (List.range W).map (fun x => x + y * W))
      = List.range (H * W) := by
  induction H with
  | zero => simp
  | succ H ih =>
    rw [List.range_succ, List.flatMap_append, ih, Nat.succ_mul, List.range_add]
    simp only [List.flatMap_cons, List.flatMap_nil, List.append_nil]
    congr 1
    apply List.map_congr_left
    intro x _
    omega

theorem addSamples_row (colours : List (Vec3 α)) (W y : Nat) (xs : List Nat) :
    ∀ o : ArrayOutput α, o.width = (W : Int) →
      ((xs.map (fun (x : Nat) => (x : Int))).foldl
        (fun (result : ArrayOutput α) (x : Int) =>
          result.addSamples x (y : Int)
            (colours.getD (x + (y : Int) * (W : Int)).toNat Vec3.zero) 1) o).width = (W : Int) ∧
      ((xs.map (fun (x : Nat) => (x : Int))).foldl
        (fun (result : ArrayOutput α) (x : Int) =>
          result.addSamples x (y : Int)
            (colours.getD (x + (y : Int) * (W : Int)).toNat Vec3.zero) 1) o).output
        = (xs.map (fun x => x + y * W)).foldl
            (fun P k => List.modify
              (fun (p : SampledPixel α) => p.accumulate (colours.getD k Vec3.zero) 1) k P)
            o.output := by
  induction xs with
  | nil => intro o ho; exact ⟨ho, rfl⟩
  | cons x xs ih =>
    intro o ho
    simp only [List.map_cons, List.foldl_cons]
    have hidx : ((x : Int) + (y : Int) * (W : Int)).toNat = x + y * W := by
      have : (x : Int) + (y : Int) * (W : Int) = ((x + y * W : Nat) : Int) := by push_cast; ring
      rw [this, Int.toNat_natCast]
    obtain ⟨h1, h2⟩ := ih (o.addSamples (x : Int) (y : Int)
      (colours.getD ((x : Int) + (y : Int) * (W : Int)).toNat Vec3.zero) 1) ho
    refine ⟨h1, ?_⟩
    rw [h2]
    simp only [ArrayOutput.addSamples, ho, hidx]

theorem addSamples_rows (colours : List (Vec3 α)) (W : Nat) (ys : List Nat) :
    ∀ o : ArrayOutput α, o.width = (W : Int) →
      ((ys.map (fun (y : Nat) => (y : Int))).foldl
        (fun (result : ArrayOutput α) (y : Int) =>
          ((List.range W).map (fun (x : Nat) => (x : Int))).foldl
            (fun (result : ArrayOutput α) (x : Int) =>
              result.addSamples x y (colours.getD (x + y * (W : Int)).toNat Vec3.zero) 1)
            result) o).output
        = (ys.flatMap (fun y => (List.range W).map (fun x => x + y * W))).foldl
            (fun P k => List.modify
              (fun (p : SampledPixel α) => p.accumulate (colours.getD k Vec3.zero) 1) k P)
            o.output := by
  induction ys with
  | nil => intro o _; rfl
  | cons y ys ih =>
    intro o ho
    simp only [List.map_cons, List.foldl_cons, List.flatMap_cons, List.foldl_append]
    obtain ⟨h1, h2⟩ := addSamples_row colours W y (List.range W) o ho
    rw [ih _ h1, h2]

theorem renderWholeScreen_output (ext : Externals α G) (camera : Camera α G) (scene : Scene α)
    (seed : Nat) (width height : Int) (preview : Bool) (hw : 0 ≤ width) (hh : 0 ≤ height) :
    (renderWholeScreen ext camera scene seed width height preview).output.length
      = (width * height).toNat ∧
    ∀ j : Nat, j < (width * height).toNat →
      (renderWholeScreen ext camera scene seed width height preview).output[j]?
        = some ⟨Vec3.zero.add
            (((renderColours ext camera scene seed width height preview).map
              Traced.colour).getD j Vec3.zero), 0 + 1⟩ := by
  have h1 : ((width.toNat : Int)) = width := Int.toNat_of_nonneg hw
  have h2 : ((height.toNat : Int)) = height := Int.toNat_of_nonneg hh
  have hn : (width * height).toNat = height.toNat * width.toNat := by
    have : width * height = ((height.toNat * width.toNat : Nat) : Int) := by
      push_cast
      rw [h1, h2]
      ring
    rw [this, Int.toNat_natCast]
  have hout := addSamples_rows
    ((renderColours ext camera scene seed width height preview).map Traced.colour)
    width.toNat (List.range height.toNat) (ArrayOutput.create width height)
    (by simp [ArrayOutput.create, h1])
  rw [h1, row_indices] at hout
  have heq : (renderWholeScreen ext camera scene seed width height preview).output
      = (List.range (height.toNat * width.toNat)).foldl
          (fun P k => List.modify
            (fun (p : SampledPixel α) => p.accumulate
              (((renderColours ext camera scene seed width height preview).map
                Traced.colour).getD k Vec3.zero) 1) k P)
          (ArrayOutput.create width height : ArrayOutput α).output := by
    rw [← hout]
    unfold renderWholeScreen
    rw [ints_zero, ints_zero]
  rw [heq]
  refine ⟨?_, ?_⟩
  · rw [modify_range_length]
    simp [ArrayOutput.create]
  · intro j hj
    rw [modify_range_getElem?, if_pos (by omega)]
    have : (ArrayOutput.create width height : ArrayOutput α).output[j]?
        = some ⟨Vec3.zero, 0⟩ := by
      simp only [ArrayOutput.create]
      rw [List.getElem?_replicate]
      simp [hj]
    rw [this]
    rfl

/-! ### Double arithmetic: unfolding, exactness without rounding, one evaluation -/

theorem radianceRounded_of_depth_ge (fl : ℚ → ℚ) (ext : Externals ℚ G) (scene : Scene ℚ)
    (rng : G) (ray : Ray ℚ) (depth numU numV : Int) (preview : Bool) (h : depth ≥ MaxDepth) :
    radianceRounded fl ext scene rng ray depth numU numV preview
      = ⟨Vec3.zero, rng, .node ⟨depth, numU, numV⟩ false []⟩ := by
  rw [radianceRounded]
  simp [h]

theorem radianceRounded_of_miss (fl : ℚ → ℚ) (ext : Externals ℚ G) (scene : Scene ℚ)
    (rng : G) (ray : Ray ℚ) (depth numU numV : Int) (preview : Bool) (h : depth < MaxDepth)
    (hmiss : scene.intersect ray = none) :
    radianceRounded fl ext scene rng ray depth numU numV preview
      = ⟨scene.environment, rng, .node ⟨depth, numU, numV⟩ true []⟩ := by
  rw [radianceRounded]
  simp [not_le.mpr h, hmiss]

theorem singleRayRounded_eq (fl : ℚ → ℚ) (ext : Externals ℚ G) (scene : Scene ℚ) (rng : G)
    (record : IntersectionRecord ℚ) (ray : Ray ℚ) (basis : OrthoNormalBasis ℚ) (u v : ℚ)
    (depth : Int) (preview : Bool) :
    singleRayRounded fl ext scene rng record ray basis u v depth preview
      = if (ext.unit rng).1 < record.material.reflectivity then
          radianceRounded fl ext scene (ext.unit rng).2
            (ext.fromOriginAndDirection record.hit.position
              (reflectedRounded fl ray.direction record.hit.normal)) depth 1 1 preview
        else
          radianceRounded fl ext scene (ext.unit rng).2
            (ext.fromOriginAndDirection record.hit.position
              ((basis.transformRounded fl
                (localDirectionRounded fl ext.sqrt ext.cos ext.sin ext.pi u v)).normalisedRounded
                fl ext.sqrt).toVec3) depth 1 1 preview := by
  rw [singleRayRounded]

theorem radianceRounded_of_hit (fl : ℚ → ℚ) (ext : Externals ℚ G) (scene : Scene ℚ) (rng : G)
    (ray : Ray ℚ) (depth numU numV : Int) (h : depth < MaxDepth)
    (record : IntersectionRecord ℚ) (hhit : scene.intersect ray = some record) :
    (radianceRounded fl ext scene rng ray depth numU numV false).colour
      = record.material.emission.addRounded fl
          ((record.material.diffuse.mulRounded fl
            ((List.range (samplerSize numU numV)).foldl
              (fun (acc : Accumulated ℚ G) k =>
                (⟨acc.colour.addRounded fl
                    (singleRayRounded fl ext scene (ext.sample numU numV k acc.rng).2 record ray
                      (ext.fromZ record.hit.normal) (ext.sample numU numV k acc.rng).1.1
                      (ext.sample numU numV k acc.rng).1.2 (depth + 1) false).colour,
                  (singleRayRounded fl ext scene (ext.sample numU numV k acc.rng).2 record ray
                      (ext.fromZ record.hit.normal) (ext.sample numU numV k acc.rng).1.1
                      (ext.sample numU numV k acc.rng).1.2 (depth + 1) false).rng,
                  acc.children ++
                    [(singleRayRounded fl ext scene (ext.sample numU numV k acc.rng).2 record ray
                      (ext.fromZ record.hit.normal) (ext.sample numU numV k acc.rng).1.1
                      (ext.sample numU numV k acc.rng).1.2 (depth + 1) false).calls]⟩ :
                  Accumulated ℚ G))
              ⟨Vec3.zero, rng, []⟩).colour).scaleRounded fl
            (fl (1 / fl ((numU * numV : Int) : ℚ)))) := by
  rw [radianceRounded, dif_neg (not_le.mpr h)]
  simp only [hhit]
  rfl

theorem radianceRounded_id_aux (ext : Externals ℚ G) (scene : Scene ℚ) (n : Nat) :
    ∀ (depth : Int), (MaxDepth - depth).toNat ≤ n →
    ∀ (rng : G) (ray : Ray ℚ) (numU numV : Int) (preview : Bool),
      radianceRounded id ext scene rng ray depth numU numV preview
        = radiance ext scene rng ray depth numU numV preview := by
  induction n with
  | zero =>
    intro depth hn rng ray numU numV preview
    have h : depth ≥ MaxDepth := by omega
    rw [radianceRounded_of_depth_ge _ _ _ _ _ _ _ _ _ h, radiance_of_depth_ge _ _ _ _ _ _ _ _ h]
  | succ n ih =>
    intro depth hn rng ray numU numV preview
    by_cases h : depth ≥ MaxDepth
    · rw [radianceRounded_of_depth_ge _ _ _ _ _ _ _ _ _ h, radiance_of_depth_ge _ _ _ _ _ _ _ _ h]
    · have hsingle : ∀ (g : G) (record : IntersectionRecord ℚ) (basis : OrthoNormalBasis ℚ)
          (u v : ℚ),
          singleRayRounded id ext scene g record ray basis u v (depth + 1) preview
            = singleRay ext scene g record ray basis u v (depth + 1) preview := by
        intro g record basis u v
        have hd : (MaxDepth - (depth + 1)).toNat ≤ n := by omega
        rw [singleRayRounded_eq, singleRay_eq]
        split
        · rw [ih (depth + 1) hd]
          rfl
        · rw [ih (depth + 1) hd]
          rfl
      rw [radianceRounded, radiance, dif_neg h, dif_neg h]
      cases scene.intersect ray with
      | none => rfl
      | some record =>
        simp only [hsingle]
        rfl

theorem radianceRounded_id (ext : Externals ℚ G) (scene : Scene ℚ) (rng : G) (ray : Ray ℚ)
    (depth numU numV : Int) (preview : Bool) :
    radianceRounded id ext scene rng ray depth numU numV preview
      = radiance ext scene rng ray depth numU numV preview :=
  radianceRounded_id_aux ext scene (MaxDepth - depth).toNat depth (le_refl _) rng ray numU numV
    preview

theorem roundDouble_eval (q : ℚ) (k f : ℤ) (hlo : (2 : ℚ) ^ k ≤ q) (hhi : q < (2 : ℚ) ^ (k + 1))
    (hk : -1022 ≤ k) (hf : (f : ℚ) ≤ q / 2 ^ (k - 52)) (hf' : q / 2 ^ (k - 52) < f + 1) :
    roundDouble q
      = ((if q / 2 ^ (k - 52) - f < 1 / 2 then f
          else if 1 / 2 < q / 2 ^ (k - 52) - f then f + 1
          else if f % 2 = 0 then f else f + 1 : ℤ) : ℚ) * 2 ^ (k - 52) := by
  have hpos : 0 < q := lt_of_lt_of_le (zpow_pos (by norm_num) k) hlo
  have hlog : Int.log 2 q = k := by
    apply le_antisymm
    · have := (Int.lt_zpow_iff_log_lt (b := 2) (by norm_num) hpos).mp (by exact_mod_cast hhi)
      omega
    · exact (Int.zpow_le_iff_le_log (b := 2) (by norm_num) hpos).mp (by exact_mod_cast hlo)
  have hfloor : ⌊q / 2 ^ (k - 52)⌋ = f := Int.floor_eq_iff.mpr ⟨hf, hf'⟩
  unfold roundDouble
  rw [if_neg (ne_of_gt hpos), abs_of_pos hpos, hlog, max_eq_left hk, if_neg (not_lt.mpr hpos.le)]
  unfold roundHalfEven
  simp only [hfloor, one_mul]


theorem double_sum_1 :
    roundDouble (0 + oneFifth) = 3602879701896397 / 18014398509481984 := by
  rw [roundDouble_eval _ (-3) 7205759403792794 (by norm_num [oneFifth]) (by norm_num [oneFifth])
    (by norm_num) (by norm_num [oneFifth]) (by norm_num [oneFifth])]
  norm_num [oneFifth]

theorem double_sum_2 :
    roundDouble (3602879701896397 / 18014398509481984 + oneFifth) = 3602879701896397 / 9007199254740992 := by
  rw [roundDouble_eval _ (-2) 7205759403792794 (by norm_num [oneFifth]) (by norm_num [oneFifth])
    (by norm_num) (by norm_num [oneFifth]) (by norm_num [oneFifth])]
  norm_num [oneFifth]

theorem double_sum_3 :
    roundDouble (3602879701896397 / 9007199254740992 + oneFifth) = 1351079888211149 / 2251799813685248 := by
  rw [roundDouble_eval _ (-1) 5404319552844595 (by norm_num [oneFifth]) (by norm_num [oneFifth])
    (by norm_num) (by norm_num [oneFifth]) (by norm_num [oneFifth])]
  norm_num [oneFifth]

theorem double_sum_4 :
    roundDouble (1351079888211149 / 2251799813685248 + oneFifth) = 3602879701896397 / 4503599627370496 := by
  rw [roundDouble_eval _ (-1) 7205759403792794 (by norm_num [oneFifth]) (by norm_num [oneFifth])
    (by norm_num) (by norm_num [oneFifth]) (by norm_num [oneFifth])]
  norm_num [oneFifth]

theorem double_sum_5 :
    roundDouble (3602879701896397 / 4503599627370496 + oneFifth) = 1 := by
  rw [roundDouble_eval _ (0) 4503599627370496 (by norm_num [oneFifth]) (by norm_num [oneFifth])
    (by norm_num) (by norm_num [oneFifth]) (by norm_num [oneFifth])]
  norm_num [oneFifth]

theorem double_sum_6 :
    roundDouble (1 + oneFifth) = 5404319552844595 / 4503599627370496 := by
  rw [roundDouble_eval _ (0) 5404319552844595 (by norm_num [oneFifth]) (by norm_num [oneFifth])
    (by norm_num) (by norm_num [oneFifth]) (by norm_num [oneFifth])]
  norm_num [oneFifth]

theorem double_sum_7 :
    roundDouble (5404319552844595 / 4503599627370496 + oneFifth) = 3152519739159347 / 2251799813685248 := by
  rw [roundDouble_eval _ (0) 6305039478318694 (by norm_num [oneFifth]) (by norm_num [oneFifth])
    (by norm_num) (by norm_num [oneFifth]) (by norm_num [oneFifth])]
  norm_num [oneFifth]

theorem double_sum_8 :
    roundDouble (3152519739159347 / 2251799813685248 + oneFifth) = 7205759403792793 / 4503599627370496 := by
  rw [roundDouble_eval _ (0) 7205759403792793 (by norm_num [oneFifth]) (by norm_num [oneFifth])
    (by norm_num) (by norm_num [oneFifth]) (by norm_num [oneFifth])]
  norm_num [oneFifth]

theorem double_sum_9 :
    roundDouble (7205759403792793 / 4503599627370496 + oneFifth) = 2026619832316723 / 1125899906842624 := by
  rw [roundDouble_eval _ (0) 8106479329266892 (by norm_num [oneFifth]) (by norm_num [oneFifth])
    (by norm_num) (by norm_num [oneFifth]) (by norm_num [oneFifth])]
  norm_num [oneFifth]

theorem double_sum_10 :
    roundDouble (2026619832316723 / 1125899906842624 + oneFifth) = 9007199254740991 / 4503599627370496 := by
  rw [roundDouble_eval _ (0) 9007199254740991 (by norm_num [oneFifth]) (by norm_num [oneFifth])
    (by norm_num) (by norm_num [oneFifth]) (by norm_num [oneFifth])]
  norm_num [oneFifth]

theorem double_sum_11 :
    roundDouble (9007199254740991 / 4503599627370496 + oneFifth) = 4953959590107545 / 2251799813685248 := by
  rw [roundDouble_eval _ (1) 4953959590107545 (by norm_num [oneFifth]) (by norm_num [oneFifth])
    (by norm_num) (by norm_num [oneFifth]) (by norm_num [oneFifth])]
  norm_num [oneFifth]

theorem double_sum_12 :
    roundDouble (4953959590107545 / 2251799813685248 + oneFifth) = 5404319552844595 / 2251799813685248 := by
  rw [roundDouble_eval _ (1) 5404319552844594 (by norm_num [oneFifth]) (by norm_num [oneFifth])
    (by norm_num) (by norm_num [oneFifth]) (by norm_num [oneFifth])]
  norm_num [oneFifth]

theorem double_sum_13 :
    roundDouble (5404319552844595 / 2251799813685248 + oneFifth) = 5854679515581645 / 2251799813685248 := by
  rw [roundDouble_eval _ (1) 5854679515581644 (by norm_num [oneFifth]) (by norm_num [oneFifth])
    (by norm_num) (by norm_num [oneFifth]) (by norm_num [oneFifth])]
  norm_num [oneFifth]

theorem double_sum_14 :
    roundDouble (5854679515581645 / 2251799813685248 + oneFifth) = 6305039478318695 / 2251799813685248 := by
  rw [roundDouble_eval _ (1) 6305039478318694 (by norm_num [oneFifth]) (by norm_num [oneFifth])
    (by norm_num) (by norm_num [oneFifth]) (by norm_num [oneFifth])]
  norm_num [oneFifth]

theorem double_sum_15 :
    roundDouble (6305039478318695 / 2251799813685248 + oneFifth) = 6755399441055745 / 2251799813685248 := by
  rw [roundDouble_eval _ (1) 6755399441055744 (by norm_num [oneFifth]) (by norm_num [oneFifth])
    (by norm_num) (by norm_num [oneFifth]) (by norm_num [oneFifth])]
  norm_num [oneFifth]

theorem double_sum_16 :
    roundDouble (6755399441055745 / 2251799813685248 + oneFifth) = 7205759403792795 / 2251799813685248 := by
  rw [roundDouble_eval _ (1) 7205759403792794 (by norm_num [oneFifth]) (by norm_num [oneFifth])
    (by norm_num) (by norm_num [oneFifth]) (by norm_num [oneFifth])]
  norm_num [oneFifth]

theorem double_sum_17 :
    roundDouble (7205759403792795 / 2251799813685248 + oneFifth) = 7656119366529845 / 2251799813685248 := by
  rw [roundDouble_eval _ (1) 7656119366529844 (by norm_num [oneFifth]) (by norm_num [oneFifth])
    (by norm_num) (by norm_num [oneFifth]) (by norm_num [oneFifth])]
  norm_num [oneFifth]

theorem double_sum_18 :
    roundDouble (7656119366529845 / 2251799813685248 + oneFifth) = 8106479329266895 / 2251799813685248 := by
  rw [roundDouble_eval _ (1) 8106479329266894 (by norm_num [oneFifth]) (by norm_num [oneFifth])
    (by norm_num) (by norm_num [oneFifth]) (by norm_num [oneFifth])]
  norm_num [oneFifth]

theorem double_eighteen :
    roundDouble (18) = 18 := by
  rw [roundDouble_eval _ (4) 5066549580791808 (by norm_num [oneFifth]) (by norm_num [oneFifth])
    (by norm_num) (by norm_num [oneFifth]) (by norm_num [oneFifth])]
  norm_num [oneFifth]

theorem double_scale :
    roundDouble (1 / 18) = 2001599834386887 / 36028797018963968 := by
  rw [roundDouble_eval _ (-5) 8006399337547548 (by norm_num [oneFifth]) (by norm_num [oneFifth])
    (by norm_num) (by norm_num [oneFifth]) (by norm_num [oneFifth])]
  norm_num [oneFifth]

theorem double_modulated :
    roundDouble (1 * (8106479329266895 / 2251799813685248)) = 8106479329266895 / 2251799813685248 := by
  rw [roundDouble_eval _ (1) 8106479329266895 (by norm_num [oneFifth]) (by norm_num [oneFifth])
    (by norm_num) (by norm_num [oneFifth]) (by norm_num [oneFifth])]
  norm_num [oneFifth]

theorem double_scaled :
    roundDouble (8106479329266895 / 2251799813685248 * (2001599834386887 / 36028797018963968)) = 7205759403792795 / 36028797018963968 := by
  rw [roundDouble_eval _ (-3) 7205759403792795 (by norm_num [oneFifth]) (by norm_num [oneFifth])
    (by norm_num) (by norm_num [oneFifth]) (by norm_num [oneFifth])]
  norm_num [oneFifth]

theorem double_emitted :
    roundDouble (0 + 7205759403792795 / 36028797018963968) = 7205759403792795 / 36028797018963968 := by
  rw [roundDouble_eval _ (-3) 7205759403792795 (by norm_num [oneFifth]) (by norm_num [oneFifth])
    (by norm_num) (by norm_num [oneFifth]) (by norm_num [oneFifth])]
  norm_num [oneFifth]

theorem oneSphereScene_hit :
    oneSphereScene.intersect demoRay = some ⟨⟨1, ⟨1, 1, 1⟩, ⟨0, 0, 1⟩⟩, whiteMaterial⟩ := by
  simp [Scene.intersect, oneSphereScene, Scene.intersectStep, Primitive.intersect,
    IntersectVisitor.unwrapWith, originSphere, demoRay]

theorem oneSphereScene_miss (direction : Vec3 ℚ) :
    oneSphereScene.intersect ⟨⟨1, 1, 1⟩, direction⟩ = none := by
  simp [Scene.intersect, oneSphereScene, Scene.intersectStep, Primitive.intersect,
    IntersectVisitor.unwrapWith, originSphere]

theorem singleRayRounded_oneSphereScene (fl : ℚ → ℚ) (g : ℕ) (basis : OrthoNormalBasis ℚ)
    (u v : ℚ) :
    (singleRayRounded fl demoExternals oneSphereScene g
      ⟨⟨1, ⟨1, 1, 1⟩, ⟨0, 0, 1⟩⟩, whiteMaterial⟩ demoRay basis u v (0 + 1) false).colour
      = oneSphereScene.environment := by
  have h : (0 : Int) + 1 < MaxDepth := by decide
  rw [singleRayRounded_eq]
  split
  · exact congrArg Traced.colour (radianceRounded_of_miss fl demoExternals oneSphereScene _
      ⟨⟨1, 1, 1⟩, _⟩ (0 + 1) 1 1 false h (oneSphereScene_miss _))
  · exact congrArg Traced.colour (radianceRounded_of_miss fl demoExternals oneSphereScene _
      ⟨⟨1, 1, 1⟩, _⟩ (0 + 1) 1 1 false h (oneSphereScene_miss _))

theorem accumulate_of_constant (fl : ℚ → ℚ) (e : Vec3 ℚ)
    (step : Accumulated ℚ ℕ → ℕ → Accumulated ℚ ℕ)
    (hstep : ∀ acc k, (step acc k).colour = acc.colour.addRounded fl e) (ks : List ℕ) :
    ∀ acc : Accumulated ℚ ℕ,
      (ks.foldl step acc).colour = (fun c => Vec3.addRounded fl c e)^[ks.length] acc.colour := by
  induction ks with
  | nil => intro acc; rfl
  | cons k ks ih =>
    intro acc
    rw [List.foldl_cons, ih, hstep, List.length_cons, Function.iterate_succ_apply]

theorem iterate_addRounded_grey (fl : ℚ → ℚ) (d : ℚ) (n : ℕ) :
    ∀ s : ℚ, (fun c => Vec3.addRounded fl c ⟨d, d, d⟩)^[n] ⟨s, s, s⟩
      = ⟨(fun t => fl (t + d))^[n] s, (fun t => fl (t + d))^[n] s,
          (fun t => fl (t + d))^[n] s⟩ := by
  induction n with
  | zero => intro s; rfl
  | succ n ih =>
    intro s
    rw [Function.iterate_succ_apply, Function.iterate_succ_apply]
    exact ih (fl (s + d))

theorem radianceRounded_oneSphereScene (fl : ℚ → ℚ) (rng : ℕ) :
    (radianceRounded fl demoExternals oneSphereScene rng demoRay 0 6 3 false).colour
      = (Vec3.zero : Vec3 ℚ).addRounded fl
          (((⟨1, 1, 1⟩ : Vec3 ℚ).mulRounded fl
            ⟨(fun t => fl (t + oneFifth))^[18] 0, (fun t => fl (t + oneFifth))^[18] 0,
              (fun t => fl (t + oneFifth))^[18] 0⟩).scaleRounded fl
            (fl (1 / fl 18))) := by
  have h : (0 : Int) < MaxDepth := by decide
  rw [radianceRounded_of_hit fl demoExternals oneSphereScene rng demoRay 0 6 3 h _
    oneSphereScene_hit]
  rw [accumulate_of_constant fl oneSphereScene.environment _
    (fun acc k => by rw [singleRayRounded_oneSphereScene])]
  have hsize : (List.range (samplerSize 6 3)).length = 18 := by
    rw [List.length_range]
    rfl
  rw [hsize]
  have hzero : (Vec3.zero : Vec3 ℚ) = ⟨0, 0, 0⟩ := rfl
  have hscale : (((6 * 3 : Int) : ℚ)) = 18 := by norm_num
  simp only [hzero, oneSphereScene, iterate_addRounded_grey, whiteMaterial, hscale]

theorem double_sum_eighteen :
    (fun t => roundDouble (t + oneFifth))^[18] 0 = 8106479329266895 / 2251799813685248 := by
  simp only [Function.iterate_succ_apply, Function.iterate_zero_apply]
  rw [double_sum_1, double_sum_2, double_sum_3, double_sum_4, double_sum_5, double_sum_6, double_sum_7, double_sum_8, double_sum_9, double_sum_10, double_sum_11, double_sum_12, double_sum_13, double_sum_14, double_sum_15, double_sum_16, double_sum_17, double_sum_18]

theorem radiance_oneSphereScene_exact (rng : ℕ) :
    (radiance demoExternals oneSphereScene rng demoRay 0 6 3 false).colour
      = ⟨oneFifth, oneFifth, oneFifth⟩ := by
  rw [← radianceRounded_id, radianceRounded_oneSphereScene]
  simp only [Function.iterate_succ_apply, Function.iterate_zero_apply, id, Vec3.addRounded,
    Vec3.mulRounded, Vec3.scaleRounded, Vec3.zero, Vec3.mk.injEq]
  refine ⟨?_, ?_, ?_⟩ <;> norm_num [oneFifth]

theorem radianceRounded_oneSphereScene_double (rng : ℕ) :
    (radianceRounded roundDouble demoExternals oneSphereScene rng demoRay 0 6 3 false).colour
      = ⟨7205759403792795 / 36028797018963968, 7205759403792795 / 36028797018963968,
          7205759403792795 / 36028797018963968⟩ := by
  rw [radianceRounded_oneSphereScene, double_sum_eighteen, double_eighteen, double_scale]
  simp only [Vec3.addRounded, Vec3.mulRounded, Vec3.scaleRounded, Vec3.zero]
  rw [double_modulated, double_scaled, double_emitted]

end lemmas

/-! ## Depth cut-off, miss and preview (C1, C2, C3) -/

section claims
variable {α G : Type} [LinearOrderedField α]

/-- C1: for every scene, ray, rng state, sample counts and preview flag, and
every `depth ≥ MaxDepth` (which is `5`), `radiance` returns the zero colour
`Vec3(0, 0, 0)`, hit or miss, without intersecting the scene, without calling
`singleRay`, and with the rng left as it was. -/
theorem radiance_zero_at_max_depth (ext : Externals α G) (scene : Scene α) (rng : G)
    (ray : Ray α) (depth numU numV : Int) (preview : Bool) (h : depth ≥ MaxDepth) :
    MaxDepth = 5 ∧
    (radiance ext scene rng ray depth numU numV preview).colour = ⟨0, 0, 0⟩ ∧
    (radiance ext scene rng ray depth numU numV preview).rng = rng ∧
    (radiance ext scene rng ray depth numU numV preview).calls.intersected = false ∧
    (radiance ext scene rng ray depth numU numV preview).calls.children = [] := by
  rw [radiance_of_depth_ge ext scene rng ray depth numU numV preview h]
  exact ⟨rfl, rfl, rfl, rfl, rfl⟩

theorem radiance_zero_at_max_depth_witness :
    (7 : Int) ≥ MaxDepth ∧
    (radiance demoExternals greyScene 0 demoRay 7 6 3 false).colour = ⟨0, 0, 0⟩ ∧
    (radiance demoExternals greyScene 0 demoRay 7 6 3 false).rng = 0 :=
  have h : (7 : Int) ≥ MaxDepth := by decide
  ⟨h, (radiance_zero_at_max_depth demoExternals greyScene 0 demoRay 7 6 3 false h).2.1,
    (radiance_zero_at_max_depth demoExternals greyScene 0 demoRay 7 6 3 false h).2.2.1⟩

/-- C2, as stated, fails: in a scene without primitives every ray misses, the
environment is white, and at `depth = MaxDepth` `radiance` returns black. -/
theorem radiance_miss_at_max_depth_not_environment :
    emptyScene.intersect demoRay = none ∧
    (radiance demoExternals emptyScene 0 demoRay 5 1 1 false).colour = ⟨0, 0, 0⟩ ∧
    (radiance demoExternals emptyScene 0 demoRay 5 1 1 false).colour ≠ emptyScene.environment := by
  have h : (5 : Int) ≥ MaxDepth := by decide
  rw [radiance_of_depth_ge demoExternals emptyScene 0 demoRay 5 1 1 false h]
  refine ⟨rfl, rfl, ?_⟩
  simp [Vec3.zero, emptyScene]

/-- C2 (amended): for every scene and every ray that misses every primitive
(`intersect(scene, ray)` is empty), `radiance` returns exactly
`scene.environment` for every `depth < MaxDepth`, every pair of sample counts
and either preview flag; the rng is not advanced. -/
theorem radiance_miss_returns_environment (ext : Externals α G) (scene : Scene α) (rng : G)
    (ray : Ray α) (depth numU numV : Int) (preview : Bool) (h : depth < MaxDepth)
    (hmiss : scene.intersect ray = none) :
    (radiance ext scene rng ray depth numU numV preview).colour = scene.environment ∧
    (radiance ext scene rng ray depth numU numV preview).rng = rng := by
  rw [radiance_of_miss ext scene rng ray depth numU numV preview h hmiss]
  exact ⟨rfl, rfl⟩

theorem radiance_miss_returns_environment_witness :
    (4 : Int) < MaxDepth ∧ emptyScene.intersect demoRay = none ∧
    (radiance demoExternals emptyScene 0 demoRay 4 6 3 false).colour = ⟨1, 1, 1⟩ :=
  have h : (4 : Int) < MaxDepth := by decide
  ⟨h, rfl,
    (radiance_miss_returns_environment demoExternals emptyScene 0 demoRay 4 6 3 false h rfl).1⟩

/-- C3: for every scene, every `depth < MaxDepth` and every ray with a nearest
intersection, `radiance` with `preview = true` returns exactly the diffuse
colour of the material of that intersection, makes no call of `singleRay` (so
no recursive call of `radiance`), and leaves the rng as it was. -/
theorem radiance_preview_returns_diffuse (ext : Externals α G) (scene : Scene α) (rng : G)
    (ray : Ray α) (depth numU numV : Int) (h : depth < MaxDepth)
    (record : IntersectionRecord α) (hhit : scene.intersect ray = some record) :
    (radiance ext scene rng ray depth numU numV true).colour = record.material.diffuse ∧
    (radiance ext scene rng ray depth numU numV true).calls.children = [] ∧
    (radiance ext scene rng ray depth numU numV true).rng = rng := by
  rw [radiance_of_preview ext scene rng ray depth numU numV h record hhit]
  exact ⟨rfl, rfl, rfl⟩

theorem radiance_preview_returns_diffuse_witness :
    (0 : Int) < MaxDepth ∧
    greyScene.intersect demoRay = some ⟨⟨1, ⟨1, 1, 1⟩, ⟨0, 0, 1⟩⟩, greyMaterial⟩ ∧
    (radiance demoExternals greyScene 0 demoRay 0 6 3 true).colour = ⟨1 / 2, 1 / 2, 1 / 2⟩ :=
  have h : (0 : Int) < MaxDepth := by decide
  ⟨h, rfl,
    (radiance_preview_returns_diffuse demoExternals greyScene 0 demoRay 0 6 3 h _ rfl).1⟩

/-! ## Nearest intersection (C4) and the estimator (C5, C6) -/

/-- C4, as stated, fails: `intersect(scene, ray)` has no test on the sign of a
distance; when the only primitive of the scene reports a hit at distance
`-1`, that hit is returned. -/
theorem intersect_returns_negative_distance :
    behindScene.intersect demoRay = some ⟨⟨-1, ⟨1, 1, 1⟩, ⟨0, 0, 1⟩⟩, greyMaterial⟩ ∧
    ¬ (0 : ℚ) ≤ (-1 : ℚ) :=
  ⟨rfl, by norm_num⟩

/-- C4 (amended): for every scene and ray, `intersect(scene, ray)` returns
nothing if and only if no primitive of the scene reports a hit; otherwise it
returns the hit and the material of a primitive of the scene whose hit
distance is less than or equal to the hit distance of every primitive that
reports a hit (every primitive is tested); that distance is non-negative
whenever every distance reported by a primitive of the scene is. -/
theorem intersect_returns_nearest (scene : Scene α) (ray : Ray α) :
    (scene.intersect ray = none ↔ ∀ p ∈ scene.primitives, p.hit ray = none) ∧
    ∀ record, scene.intersect ray = some record →
      (∃ p ∈ scene.primitives, p.hit ray = some record.hit ∧ p.material = record.material) ∧
      (∀ p ∈ scene.primitives, ∀ h, p.hit ray = some h →
        record.hit.distance ≤ h.distance) ∧
      ((∀ p ∈ scene.primitives, ∀ h, p.hit ray = some h → 0 ≤ h.distance) →
        0 ≤ record.hit.distance) := by
  obtain ⟨hnone, hsome⟩ := intersect_foldl ray scene.primitives none
  have hsrc : ∀ record, scene.intersect ray = some record →
      ∃ p ∈ scene.primitives, p.hit ray = some record.hit ∧ p.material = record.material := by
    intro record hrec
    rcases (hsome record hrec).1 with h | ⟨p, hp, hpr⟩
    · cases h
    · refine ⟨p, hp, ?_⟩
      rw [Primitive.intersect_eq] at hpr
      cases hh : p.hit ray with
      | none => rw [hh] at hpr; cases hpr
      | some h =>
        rw [hh] at hpr
        simp only [Option.map_some', Option.some.injEq] at hpr
        subst hpr
        exact ⟨rfl, rfl⟩
  refine ⟨?_, ?_⟩
  · unfold Scene.intersect
    rw [hnone]
    simp only [true_and]
    constructor
    · intro h p hp
      have := h p hp
      rw [Primitive.intersect_eq] at this
      simpa using this
    · intro h p hp
      rw [Primitive.intersect_eq, h p hp]
      rfl
  · intro record hrec
    refine ⟨hsrc record hrec, ?_, ?_⟩
    · intro p hp h hh
      have := (hsome record hrec).2.2 p hp ⟨h, p.material⟩
        (by rw [Primitive.intersect_eq, hh]; rfl)
      exact this
    · intro hnonneg
      obtain ⟨p, hp, hph, _⟩ := hsrc record hrec
      exact hnonneg p hp record.hit hph

theorem intersect_returns_nearest_witness :
    greyScene.intersect demoRay = some ⟨⟨1, ⟨1, 1, 1⟩, ⟨0, 0, 1⟩⟩, greyMaterial⟩ ∧
    ∃ p ∈ greyScene.primitives,
      p.hit demoRay = some ⟨1, ⟨1, 1, 1⟩, ⟨0, 0, 1⟩⟩ ∧ p.material = greyMaterial :=
  ⟨rfl, ((intersect_returns_nearest greyScene demoRay).2 _ rfl).1⟩

/-- C5: for every `depth < MaxDepth`, `preview = false`, sample counts
`numUSamples ≥ 1` and `numVSamples ≥ 1`, and every ray with a nearest hit of
material `m`, the sampler yields `numUSamples * numVSamples` samples, each is
passed to `singleRay` with `depth + 1` (so the call of `radiance` it makes has
depth `depth + 1`), and `radiance` returns
`m.emission + m.diffuse * S / (numUSamples * numVSamples)` where `S` is the sum
of the colours those calls of `singleRay` return. -/
theorem radiance_rendering_estimator (ext : Externals α G) (scene : Scene α) (rng : G)
    (ray : Ray α) (depth numU numV : Int) (h : depth < MaxDepth) (hU : 1 ≤ numU)
    (hV : 1 ≤ numV) (record : IntersectionRecord α)
    (hhit : scene.intersect ray = some record) :
    let results := singleRayResults ext scene record ray numU numV depth false
      (List.range (samplerSize numU numV)) rng
    let S := sumColours (results.map Traced.colour)
    let m := record.material
    (results.length : Int) = numU * numV ∧
    (∀ r ∈ results, r.calls.call = ⟨depth + 1, 1, 1⟩) ∧
    (radiance ext scene rng ray depth numU numV false).colour
      = ⟨m.emission.x + m.diffuse.x * S.x / ((numU * numV : Int) : α),
         m.emission.y + m.diffuse.y * S.y / ((numU * numV : Int) : α),
         m.emission.z + m.diffuse.z * S.z / ((numU * numV : Int) : α)⟩ := by
  intro results S m
  refine ⟨?_, ?_, ?_⟩
  · have hpos : 0 ≤ numU * numV := by positivity
    simp only [results, singleRayResults_length, List.length_range, samplerSize]
    exact Int.toNat_of_nonneg hpos
  · intro r hr
    obtain ⟨g, u, v, rfl⟩ := singleRayResults_mem ext scene record ray numU numV depth false
      _ rng r hr
    exact singleRay_calls_call _ _ _ _ _ _ _ _ _ _
  · rw [radiance_of_hit ext scene rng ray depth numU numV h record hhit]
    rw [(accumulateSamples_eq ext scene record ray numU numV depth false
      (List.range (samplerSize numU numV)) ⟨Vec3.zero, rng, []⟩).1]
    simp only [Vec3.add, Vec3.mul, Vec3.scale, Vec3.zero, zero_add, S, results, m,
      mul_one_div]

theorem radiance_rendering_estimator_witness :
    (0 : Int) < MaxDepth ∧ (1 : Int) ≤ 2 ∧ (1 : Int) ≤ 3 ∧
    ((singleRayResults demoExternals greyScene ⟨⟨1, ⟨1, 1, 1⟩, ⟨0, 0, 1⟩⟩, greyMaterial⟩
      demoRay 2 3 0 false (List.range (samplerSize 2 3)) 0).length : Int) = 2 * 3 :=
  have h : (0 : Int) < MaxDepth := by decide
  ⟨h, by decide, by decide,
    (radiance_rendering_estimator demoExternals greyScene 0 demoRay 0 2 3 h (by decide)
      (by decide) _ rfl).1⟩

/-- C6: in every evaluation of `radiance` started by `renderWholeScreen`, the
call at the root has depth `0` and sample counts `6 x 3`, and every call of
`radiance` made from `singleRay`, in the mirror branch as in the diffuse
branch, has `numUSamples = numVSamples = 1` and a depth exactly one greater
than that of the call of `radiance` that spawned it. -/
theorem first_bounce_only_is_stratified (ext : Externals α G) (camera : Camera α G)
    (scene : Scene α) (seed : Nat) (width height : Int) (preview : Bool) :
    FirstBounceNumUSamples = 6 ∧ FirstBounceNumVSamples = 3 ∧
    (∀ r ∈ renderColours ext camera scene seed width height preview,
      r.calls.call = ⟨0, 6, 3⟩ ∧ r.calls.Chained) ∧
    (∀ (rng : G) (record : IntersectionRecord α) (ray : Ray α) (basis : OrthoNormalBasis α)
      (u v : α) (depth : Int),
      (singleRay ext scene rng record ray basis u v depth preview).calls.call
        = ⟨depth, 1, 1⟩) := by
  refine ⟨rfl, rfl, ?_, ?_⟩
  · intro r hr
    obtain ⟨g, ray, rfl⟩ := renderColours_mem ext camera scene seed width height preview r hr
    exact ⟨radiance_calls_call _ _ _ _ _ _ _ _, radiance_chained _ _ _ _ _ _ _ _⟩
  · intro rng record ray basis u v depth
    exact singleRay_calls_call _ _ _ _ _ _ _ _ _ _

/-! ## The accumulation driver (C7) -/

/-- C7: at `samplesPerPixel = 2`, `numThreads = 2` the two tasks of the only
wave run concurrently and both evaluate `seed++` on the shared `seed`. When
each finishes its increment before the other starts, the frames get the
seeds `0` and `1`; when both load `seed` before either stores, both frames
are rendered with seed `0`. In both runs there are two launches, two merges
and two calls of `updateFunc`, each right after a merge. -/
theorem render_seed_race :
    ValidAccesses 2 (sequentialAccesses 2) ∧
    (render demoExternals demoCamera greyScene (ArrayOutput.create 1 1) 2 2 false
        (fun _ => sequentialAccesses 2) 1).map RenderState.events
      = some [.launch 0 0, .launch 1 1, .merge 0, .update 1, .merge 1, .update 2] ∧
    ValidAccesses 2 racingAccesses ∧
    (render demoExternals demoCamera greyScene (ArrayOutput.create 1 1) 2 2 false
        (fun _ => racingAccesses) 1).map RenderState.events
      = some [.launch 0 0, .launch 1 0, .merge 0, .update 1, .merge 1, .update 2] :=
  ⟨by decide, rfl, by decide, rfl⟩

/-! ## Black scenes (C8) -/

/-- C8, as stated, fails: in a white-environment scene whose only primitive is
a black sphere hit by every ray, the radiance of a primary ray (depth `0`,
`preview = false`, `1 x 1` samples) is black, not the environment colour. -/
theorem black_scene_hit_is_not_environment :
    (∀ p ∈ blackScene.primitives, p.material.IsBlack) ∧
    (radiance demoExternals blackScene 0 demoRay 0 1 1 false).colour = ⟨0, 0, 0⟩ ∧
    (radiance demoExternals blackScene 0 demoRay 0 1 1 false).colour
      ≠ blackScene.environment := by
  have hb : blackMaterial.IsBlack := ⟨rfl, rfl, rfl⟩
  have h : (0 : Int) < MaxDepth := by decide
  have hc := radiance_black_hit demoExternals blackScene 0 demoRay 0 1 1 h
    ⟨⟨1, ⟨1, 1, 1⟩, ⟨0, 0, 1⟩⟩, blackMaterial⟩ rfl hb
  refine ⟨?_, hc, ?_⟩
  · intro p hp
    simp only [blackScene, List.mem_singleton] at hp
    subst hp
    exact hb
  · rw [hc]
    simp [Vec3.zero, blackScene]

/-- C8 (amended): for every scene in which every material has zero diffuse
colour, zero emission and zero reflectivity, and whose environment colour is
`E`, the radiance estimate computed for a primary ray (`radiance` at depth
`0`, `preview = false`, any sample counts `≥ 1`) equals `E` when the ray
misses every primitive and is the zero colour when the ray hits one; so the
average over any positive number of frames of a pixel whose primary rays all
miss equals `E`. -/
theorem black_scene_radiance (ext : Externals α G) (scene : Scene α)
    (hblack : ∀ p ∈ scene.primitives, p.material.IsBlack) (numU numV : Int) (_hU : 1 ≤ numU)
    (_hV : 1 ≤ numV) :
    (∀ (rng : G) (ray : Ray α), scene.intersect ray = none →
      (radiance ext scene rng ray 0 numU numV false).colour = scene.environment) ∧
    (∀ (rng : G) (ray : Ray α) (record : IntersectionRecord α),
      scene.intersect ray = some record →
      (radiance ext scene rng ray 0 numU numV false).colour = ⟨0, 0, 0⟩) ∧
    (∀ primaries : List (G × Ray α), primaries ≠ [] →
      (∀ q ∈ primaries, scene.intersect q.2 = none) →
      averageColour (primaries.map
        (fun q => (radiance ext scene q.1 q.2 0 numU numV false).colour))
        = scene.environment) := by
  have h : (0 : Int) < MaxDepth := by decide
  have hmiss : ∀ (rng : G) (ray : Ray α), scene.intersect ray = none →
      (radiance ext scene rng ray 0 numU numV false).colour = scene.environment := by
    intro rng ray hm
    rw [radiance_of_miss ext scene rng ray 0 numU numV false h hm]
  refine ⟨hmiss, ?_, ?_⟩
  · intro rng ray record hrec
    obtain ⟨p, hp, hpm⟩ := intersect_material_mem scene ray record hrec
    have hb : record.material.IsBlack := hpm ▸ hblack p hp
    exact radiance_black_hit ext scene rng ray 0 numU numV h record hrec hb
  · intro primaries hne hall
    apply averageColour_of_all_eq
    · simpa using hne
    · intro s hs
      simp only [List.mem_map] at hs
      obtain ⟨q, hq, rfl⟩ := hs
      exact hmiss q.1 q.2 (hall q hq)

theorem black_scene_radiance_witness :
    (∀ p ∈ blackScene.primitives, p.material.IsBlack) ∧ (1 : Int) ≤ 6 ∧ (1 : Int) ≤ 3 ∧
    (radiance demoExternals blackScene 0 demoRay 0 6 3 false).colour = ⟨0, 0, 0⟩ :=
  have hb : ∀ p ∈ blackScene.primitives, p.material.IsBlack := by
    intro p hp
    simp only [blackScene, List.mem_singleton] at hp
    subst hp
    exact ⟨rfl, rfl, rfl⟩
  ⟨hb, by decide, by decide,
    (black_scene_radiance demoExternals blackScene hb 6 3 (by decide) (by decide)).2.1 0 demoRay
      _ rfl⟩

/-! ## Reflection and hemisphere mapping (C9, C10) -/

/-- C9: for every incoming direction `d` and every unit normal `n`, the
direction handed to the mirror-branch continuation ray in `singleRay` is
`d - 2(n.d)n` and has the same length as `d`; and `Norm3::reflect` applied to
a unit incoming vector by a unit normal computes `incoming - 2(n.incoming)n`,
of unit length. Lengths are over exact arithmetic: squared lengths agree, so
lengths agree for any square root function. -/
theorem reflection_direction_law (ext : Externals α G) (scene : Scene α) (rng : G)
    (record : IntersectionRecord α) (ray : Ray α) (basis : OrthoNormalBasis α) (u v : α)
    (depth : Int) (preview : Bool) (n incoming : Norm3 α)
    (hn : n.toVec3.lengthSquared = 1) (hin : incoming.toVec3.lengthSquared = 1) :
    ((ext.unit rng).1 < record.material.reflectivity →
      singleRay ext scene rng record ray basis u v depth preview
        = radiance ext scene (ext.unit rng).2
            (ext.fromOriginAndDirection record.hit.position
              (reflected ray.direction record.hit.normal)) depth 1 1 preview) ∧
    (∀ d : Vec3 α,
      reflected d n = d.sub (n.toVec3.scale (2 * n.toVec3.dot d)) ∧
      (reflected d n).lengthSquared = d.lengthSquared ∧
      ∀ sqrt : α → α, (reflected d n).length sqrt = d.length sqrt) ∧
    n.reflect incoming
      = Norm3.ofVec3 (incoming.toVec3.sub (n.toVec3.scale (2 * n.toVec3.dot incoming.toVec3))) ∧
    (n.reflect incoming).toVec3.lengthSquared = 1 ∧
    ∀ sqrt : α → α, sqrt 1 = 1 → (n.reflect incoming).toVec3.length sqrt = 1 := by
  have hsq : ∀ d : Vec3 α, (reflected d n).lengthSquared = d.lengthSquared := by
    intro d
    cases d with | mk dx dy dz =>
    cases n with | mk nx ny nz =>
    simp only [Norm3.toVec3, Vec3.lengthSquared] at hn
    simp only [reflected, Vec3.sub, Vec3.scale, Norm3.scale, Norm3.dotVec3, Vec3.lengthSquared]
    linear_combination (4 * (nx * dx + ny * dy + nz * dz) ^ 2) * hn
  have hrefl : (n.reflect incoming).toVec3 = reflected incoming.toVec3 n := by
    cases n; cases incoming; rfl
  refine ⟨?_, ?_, ?_, ?_, ?_⟩
  · intro hp
    rw [singleRay_eq, if_pos hp]
  · intro d
    refine ⟨?_, hsq d, ?_⟩
    · cases d; cases n
      simp only [reflected, Vec3.sub, Vec3.scale, Norm3.scale, Norm3.dotVec3, Norm3.toVec3,
        Vec3.dot, Vec3.mk.injEq]
      refine ⟨?_, ?_, ?_⟩ <;> ring
    · intro sqrt
      simp only [Vec3.length, hsq d]
  · cases n; cases incoming
    simp only [Norm3.reflect, Norm3.ofVec3, Vec3.sub, Vec3.scale, Norm3.dot, Norm3.toVec3,
      Vec3.dot, Norm3.mk.injEq]
    refine ⟨?_, ?_, ?_⟩ <;> ring
  · rw [hrefl, hsq, hin]
  · intro sqrt hsqrt
    rw [Vec3.length, hrefl, hsq, hin, hsqrt]

theorem reflection_direction_law_witness :
    (⟨0, 0, 1⟩ : Norm3 ℚ).toVec3.lengthSquared = 1 ∧
    (⟨3 / 5, 0, -4 / 5⟩ : Norm3 ℚ).toVec3.lengthSquared = 1 ∧
    reflected (⟨3, 0, -4⟩ : Vec3 ℚ) ⟨0, 0, 1⟩ = ⟨3, 0, 4⟩ ∧
    ((⟨0, 0, 1⟩ : Norm3 ℚ).reflect ⟨3 / 5, 0, -4 / 5⟩).toVec3.lengthSquared = 1 :=
  have hn : (⟨0, 0, 1⟩ : Norm3 ℚ).toVec3.lengthSquared = 1 := by
    norm_num [Norm3.toVec3, Vec3.lengthSquared]
  have hin : (⟨3 / 5, 0, -4 / 5⟩ : Norm3 ℚ).toVec3.lengthSquared = 1 := by
    norm_num [Norm3.toVec3, Vec3.lengthSquared]
  ⟨hn, hin, by norm_num [reflected, Norm3.scale, Norm3.dotVec3, Vec3.scale, Vec3.sub],
    (reflection_direction_law demoExternals greyScene 0
      ⟨⟨1, ⟨1, 1, 1⟩, ⟨0, 0, 1⟩⟩, greyMaterial⟩ demoRay (demoExternals.fromZ ⟨0, 0, 1⟩) 0 0 0
      false ⟨0, 0, 1⟩ ⟨3 / 5, 0, -4 / 5⟩ hn hin).2.2.2.1⟩

/-- C10: for every sample `(u, v)` with `0 ≤ u < 1` and `0 ≤ v < 1`, the local
direction built in `singleRay`, `(cos(theta) * r, sin(theta) * r, sqrt(1 - v))`
with `theta = 2 * pi * u` and `r = sqrt(v)`, has squared length
`v + (1 - v) = 1` and length exactly `1` over the reals. -/
theorem hemisphere_direction_is_unit (u v : ℝ) (_hu0 : 0 ≤ u) (_hu1 : u < 1) (hv0 : 0 ≤ v)
    (hv1 : v < 1) :
    localDirection Real.sqrt Real.cos Real.sin Real.pi u v
      = ⟨Real.cos (2 * Real.pi * u) * Real.sqrt v, Real.sin (2 * Real.pi * u) * Real.sqrt v,
          Real.sqrt (1 - v)⟩ ∧
    (localDirection Real.sqrt Real.cos Real.sin Real.pi u v).lengthSquared = v + (1 - v) ∧
    (localDirection Real.sqrt Real.cos Real.sin Real.pi u v).lengthSquared = 1 ∧
    (localDirection Real.sqrt Real.cos Real.sin Real.pi u v).length Real.sqrt = 1 := by
  have h1 : Real.sqrt v * Real.sqrt v = v := Real.mul_self_sqrt hv0
  have h2 : Real.sqrt (1 - v) * Real.sqrt (1 - v) = 1 - v :=
    Real.mul_self_sqrt (by linarith)
  have h3 := Real.cos_sq_add_sin_sq (2 * Real.pi * u)
  have hsq : (localDirection Real.sqrt Real.cos Real.sin Real.pi u v).lengthSquared
      = v + (1 - v) := by
    simp only [localDirection, Vec3.lengthSquared]
    linear_combination (v) * h3 + (Real.cos (2 * Real.pi * u) ^ 2
      + Real.sin (2 * Real.pi * u) ^ 2) * h1 + h2
  refine ⟨rfl, hsq, ?_, ?_⟩
  · rw [hsq]; ring
  · rw [Vec3.length, hsq]
    have : v + (1 - v) = 1 := by ring
    rw [this, Real.sqrt_one]

theorem hemisphere_direction_is_unit_witness :
    (0 : ℝ) ≤ 1 / 2 ∧ (1 / 2 : ℝ) < 1 ∧ (0 : ℝ) ≤ 1 / 4 ∧ (1 / 4 : ℝ) < 1 ∧
    (localDirection Real.sqrt Real.cos Real.sin Real.pi (1 / 2) (1 / 4)).length Real.sqrt = 1 :=
  ⟨by norm_num, by norm_num, by norm_num, by norm_num,
    (hemisphere_direction_is_unit (1 / 2) (1 / 4) (by norm_num) (by norm_num) (by norm_num)
      (by norm_num)).2.2.2⟩

/-- C18: tie-breaking in `intersect(scene, ray)`. A later primitive replaces
the current nearest only when its distance is strictly smaller, so the record
returned is that of the first primitive, in `scene.primitives` order, whose
hit distance is the smallest: every primitive before it that reports a hit
reports a strictly greater distance, every primitive after it a greater or
equal one. -/
theorem intersect_keeps_first_minimum (scene : Scene α) (ray : Ray α)
    (record : IntersectionRecord α) (h : scene.intersect ray = some record) :
    (∀ (nearest thisIntersection : IntersectionRecord α) (p : Primitive α),
      p.intersect ray = some thisIntersection →
      Scene.intersectStep ray (some nearest) p
        = if thisIntersection.hit.distance < nearest.hit.distance then some thisIntersection
          else some nearest) ∧
    ∃ before p after, scene.primitives = before ++ p :: after ∧
      p.intersect ray = some record ∧
      (∀ q ∈ before, ∀ r, q.intersect ray = some r →
        record.hit.distance < r.hit.distance) ∧
      (∀ q ∈ after, ∀ r, q.intersect ray = some r →
        record.hit.distance ≤ r.hit.distance) := by
  refine ⟨?_, intersect_foldl_first ray scene.primitives record h⟩
  intro nearest thisIntersection p hp
  simp only [Scene.intersectStep, hp]

theorem intersect_keeps_first_minimum_witness :
    tieScene.intersect demoRay = some ⟨⟨1, ⟨1, 1, 1⟩, ⟨0, 0, 1⟩⟩, greyMaterial⟩ ∧
    ∃ before p after, tieScene.primitives = before ++ p :: after ∧
      p.intersect demoRay = some ⟨⟨1, ⟨1, 1, 1⟩, ⟨0, 0, 1⟩⟩, greyMaterial⟩ ∧
      (∀ q ∈ before, ∀ r, q.intersect demoRay = some r → (1 : ℚ) < r.hit.distance) ∧
      (∀ q ∈ after, ∀ r, q.intersect demoRay = some r → (1 : ℚ) ≤ r.hit.distance) :=
  have h : tieScene.intersect demoRay = some ⟨⟨1, ⟨1, 1, 1⟩, ⟨0, 0, 1⟩⟩, greyMaterial⟩ := by
    simp [Scene.intersect, tieScene, Scene.intersectStep, Primitive.intersect,
      IntersectVisitor.unwrapWith, alwaysHit]
  ⟨h, (intersect_keeps_first_minimum tieScene demoRay _ h).2⟩

/-- C13: `Norm3::fromNormal` fails fast on non-unit input (with the `assert`
compiled in): for every vector `v` it succeeds if and only if
`|v.lengthSquared() - 1| < 0.0000001`; when it succeeds the `Norm3` returned
has exactly the components of `v`, as the constructor `Norm3(const Vec3 &)`
copies them; for every `v` outside that tolerance the assertion fails and no
`Norm3` is produced. -/
theorem fromNormal_asserts_unit_length (v : Vec3 α) :
    ((Norm3.fromNormal v).isSome = true ↔ |v.lengthSquared - 1| < 1 / 10000000) ∧
    (∀ n, Norm3.fromNormal v = some n → n = Norm3.ofVec3 v ∧ n.x = v.x ∧ n.y = v.y ∧ n.z = v.z) ∧
    (¬ |v.lengthSquared - 1| < 1 / 10000000 → Norm3.fromNormal v = none) := by
  by_cases h : |v.lengthSquared - 1| < 1 / 10000000
  · refine ⟨?_, ?_, fun hn => absurd h hn⟩
    · rw [Norm3.fromNormal, if_pos h]
      exact ⟨fun _ => h, fun _ => rfl⟩
    · intro n hn
      rw [Norm3.fromNormal, if_pos h] at hn
      cases hn
      exact ⟨rfl, rfl, rfl, rfl⟩
  · refine ⟨?_, ?_, fun _ => by rw [Norm3.fromNormal, if_neg h]⟩
    · rw [Norm3.fromNormal, if_neg h]
      exact ⟨fun hf => by simp at hf, fun hc => absurd hc h⟩
    · intro n hn
      rw [Norm3.fromNormal, if_neg h] at hn
      cases hn

/-- C16: for every scene, every ray with a nearest hit of material `m`,
`preview = false` and sample counts `numUSamples, numVSamples ≥ 1`, `radiance`
called at `depth = MaxDepth - 1` (depth `4`) returns exactly `m.emission` over
exact arithmetic: every secondary contribution comes from a call of
`radiance` at depth `MaxDepth` and is the zero colour. -/
theorem radiance_at_last_depth_is_emission (ext : Externals α G) (scene : Scene α) (rng : G)
    (ray : Ray α) (numU numV : Int) (_hU : 1 ≤ numU) (_hV : 1 ≤ numV)
    (record : IntersectionRecord α) (hhit : scene.intersect ray = some record) :
    MaxDepth - 1 = 4 ∧
    (∀ r ∈ singleRayResults ext scene record ray numU numV (MaxDepth - 1) false
        (List.range (samplerSize numU numV)) rng,
      r.calls.call.depth = MaxDepth ∧ r.colour = ⟨0, 0, 0⟩) ∧
    (radiance ext scene rng ray (MaxDepth - 1) numU numV false).colour
      = record.material.emission := by
  have hd : MaxDepth - 1 < MaxDepth := by decide
  have hres : ∀ r ∈ singleRayResults ext scene record ray numU numV (MaxDepth - 1) false
      (List.range (samplerSize numU numV)) rng,
      r.calls.call.depth = MaxDepth ∧ r.colour = Vec3.zero := by
    intro r hr
    obtain ⟨g, u, v, rfl⟩ := singleRayResults_mem ext scene record ray numU numV
      (MaxDepth - 1) false _ rng r hr
    have hge : MaxDepth - 1 + 1 ≥ MaxDepth := by decide
    rw [singleRay_eq]
    split <;> rw [radiance_of_depth_ge _ _ _ _ _ _ _ _ hge] <;> exact ⟨rfl, rfl⟩
  refine ⟨by decide, hres, ?_⟩
  rw [radiance_of_hit ext scene rng ray (MaxDepth - 1) numU numV hd record hhit]
  rw [(accumulateSamples_eq ext scene record ray numU numV (MaxDepth - 1) false
    (List.range (samplerSize numU numV)) ⟨Vec3.zero, rng, []⟩).1]
  rw [sumColours_of_all_zero]
  · cases hm : record.material.emission
    simp [Vec3.add, Vec3.mul, Vec3.scale, Vec3.zero]
  · intro c hc
    simp only [List.mem_map] at hc
    obtain ⟨r, hr, rfl⟩ := hc
    exact (hres r hr).2

theorem radiance_at_last_depth_is_emission_witness :
    (1 : Int) ≤ 6 ∧ (1 : Int) ≤ 3 ∧
    greyScene.intersect demoRay = some ⟨⟨1, ⟨1, 1, 1⟩, ⟨0, 0, 1⟩⟩, greyMaterial⟩ ∧
    (radiance demoExternals greyScene 0 demoRay (MaxDepth - 1) 6 3 false).colour
      = greyMaterial.emission :=
  ⟨by decide, by decide, rfl,
    (radiance_at_last_depth_is_emission demoExternals greyScene 0 demoRay 6 3 (by decide)
      (by decide) _ rfl).2.2⟩

/-- C19: for every vector `v` with non-zero length, `v.normalised()` has unit
length over the reals and points the same way as `v`: scaled by `length(v)`
it is `v` again. The scale factor `1.0 / length()` divides by zero for the
zero vector only. -/
theorem normalised_has_unit_length (v : Vec3 ℝ) (hv : v.length Real.sqrt ≠ 0) :
    (v.normalised Real.sqrt).toVec3 = v.scale (1 / v.length Real.sqrt) ∧
    (v.normalised Real.sqrt).toVec3.lengthSquared = 1 ∧
    (v.normalised Real.sqrt).toVec3.length Real.sqrt = 1 ∧
    (v.normalised Real.sqrt).scale (v.length Real.sqrt) = v ∧
    ∀ w : Vec3 ℝ, w.length Real.sqrt = 0 ↔ w = ⟨0, 0, 0⟩ := by
  have hsq : v.length Real.sqrt * v.length Real.sqrt = v.lengthSquared := by
    apply Real.mul_self_sqrt
    simp only [Vec3.lengthSquared]
    nlinarith [mul_self_nonneg v.x, mul_self_nonneg v.y, mul_self_nonneg v.z]
  have hls : (v.normalised Real.sqrt).toVec3.lengthSquared = 1 := by
    simp only [Vec3.normalised, Norm3.toVec3, Vec3.scale, Vec3.lengthSquared] at hsq ⊢
    field_simp
    linarith
  refine ⟨rfl, hls, ?_, ?_, ?_⟩
  · rw [Vec3.length, hls, Real.sqrt_one]
  · obtain ⟨x, y, z⟩ := v
    simp only [Vec3.normalised, Norm3.scale, Vec3.scale, Vec3.mk.injEq]
    refine ⟨?_, ?_, ?_⟩ <;> field_simp
  · intro w
    obtain ⟨x, y, z⟩ := w
    have hnn : 0 ≤ x * x + y * y + z * z := by
      nlinarith [mul_self_nonneg x, mul_self_nonneg y, mul_self_nonneg z]
    simp only [Vec3.length, Vec3.lengthSquared, Vec3.mk.injEq]
    rw [Real.sqrt_eq_zero hnn]
    constructor
    · intro h
      have hx : x * x = 0 := by nlinarith [mul_self_nonneg x, mul_self_nonneg y, mul_self_nonneg z]
      have hy : y * y = 0 := by nlinarith [mul_self_nonneg x, mul_self_nonneg y, mul_self_nonneg z]
      have hz : z * z = 0 := by nlinarith [mul_self_nonneg x, mul_self_nonneg y, mul_self_nonneg z]
      exact ⟨mul_self_eq_zero.mp hx, mul_self_eq_zero.mp hy, mul_self_eq_zero.mp hz⟩
    · rintro ⟨rfl, rfl, rfl⟩
      ring

theorem normalised_has_unit_length_witness :
    (⟨3, 0, 4⟩ : Vec3 ℝ).length Real.sqrt ≠ 0 ∧
    ((⟨3, 0, 4⟩ : Vec3 ℝ).normalised Real.sqrt).toVec3.length Real.sqrt = 1 :=
  have h : (⟨3, 0, 4⟩ : Vec3 ℝ).length Real.sqrt ≠ 0 := by
    simp only [Vec3.length, Vec3.lengthSquared]
    exact Real.sqrt_ne_zero'.mpr (by norm_num)
  ⟨h, (normalised_has_unit_length ⟨3, 0, 4⟩ h).2.2.1⟩

/-- C20: for every `Norm3` `a` and every vector `b` (`Vec3` or `Norm3`),
`a.cross(b)` is orthogonal to both operands, the `Norm3` overload agrees with
the `Vec3` overload on `b.toVec3()`, and the product is anti-symmetric:
`a.cross(b) = -(b.cross(a))`, component by component. -/
theorem cross_is_orthogonal_and_antisymmetric (a b : Norm3 α) (v : Vec3 α) :
    a.dotVec3 (a.crossVec3 v) = 0 ∧ v.dot (a.crossVec3 v) = 0 ∧
    a.dotVec3 (a.cross b) = 0 ∧ b.dotVec3 (a.cross b) = 0 ∧
    a.cross b = a.crossVec3 b.toVec3 ∧
    (a.cross b).x = -(b.cross a).x ∧ (a.cross b).y = -(b.cross a).y ∧
    (a.cross b).z = -(b.cross a).z := by
  obtain ⟨ax, ay, az⟩ := a
  obtain ⟨bx, b_y, bz⟩ := b
  obtain ⟨vx, vy, vz⟩ := v
  refine ⟨?_, ?_, ?_, ?_, rfl, ?_, ?_, ?_⟩ <;>
    simp only [Norm3.dotVec3, Norm3.crossVec3, Norm3.cross, Norm3.toVec3, Vec3.dot] <;> ring

/-- C12: for every list of frame sample images and every permutation of it,
merging the images into the output buffer with `+=` in the permuted order, as
`render` does for the frames of a wave in the order it waits on them, yields
the same buffer as merging them in the original order: the same per-pixel
sums, sample counts and averages (exact arithmetic). -/
theorem merge_order_does_not_matter (ext : Externals α G) (camera : Camera α G)
    (scene : Scene α) (output : ArrayOutput α) (frames permuted : List (ArrayOutput α))
    (hperm : frames.Perm permuted) :
    (∀ (samplesPerPixel numThreads : Int) (preview : Bool) (accesses : List SeedAccess)
      (st : RenderState α) (sample : Int),
      ∃ seeds : List Nat,
        (renderWave ext camera scene samplesPerPixel numThreads preview accesses st sample).output
          = mergeFrames st.output (seeds.map (fun seed =>
              renderWholeScreen ext camera scene seed st.output.width st.output.height
                preview))) ∧
    mergeFrames output permuted = mergeFrames output frames ∧
    (mergeFrames output permuted).output.map SampledPixel.colour
      = (mergeFrames output frames).output.map SampledPixel.colour ∧
    (mergeFrames output permuted).output.map SampledPixel.numSamples
      = (mergeFrames output frames).output.map SampledPixel.numSamples ∧
    (mergeFrames output permuted).output.map SampledPixel.result
      = (mergeFrames output frames).output.map SampledPixel.result := by
  have heq : mergeFrames output permuted = mergeFrames output frames := by
    unfold mergeFrames
    exact (hperm.foldl_eq' (fun x _ y _ z => arrayOutput_merge_right_comm z x y) output).symm
  refine ⟨?_, heq, by rw [heq], by rw [heq], by rw [heq]⟩
  intro samplesPerPixel numThreads preview accesses st sample
  refine ⟨(List.range (min samplesPerPixel (sample + numThreads) - sample).toNat).map
    (fun (task : Nat) => ((accesses.foldl SeedRace.step ⟨st.seed, []⟩).loaded.lookup task).getD
      st.seed), ?_⟩
  unfold renderWave
  simp only []
  rw [wave_fold_output]
  simp only [List.map_map, Function.comp_def]

theorem merge_order_does_not_matter_witness :
    [demoFrame 1 2, demoFrame 3 4].Perm [demoFrame 3 4, demoFrame 1 2] ∧
    mergeFrames (ArrayOutput.create 2 1) [demoFrame 3 4, demoFrame 1 2]
      = mergeFrames (ArrayOutput.create 2 1) [demoFrame 1 2, demoFrame 3 4] :=
  ⟨List.Perm.swap _ _ _,
    (merge_order_does_not_matter demoExternals demoCamera greyScene (ArrayOutput.create 2 1)
      [demoFrame 1 2, demoFrame 3 4] [demoFrame 3 4, demoFrame 1 2]
      (List.Perm.swap _ _ _)).2.1⟩

/-- C17, as stated, fails on the doubles the code computes with. In the scene
of one white sphere (zero emission, diffuse `1`, zero reflectivity) under an
environment of `0.2`, the primary ray hits, the `6 x 3` secondary rays miss
and return `0.2` each; the eighteen rounded additions and the rounded product
with `1.0 / 18` give `7205759403792795 / 2 ^ 55`, which is
`0.20000000000000004`, above the environment. -/
theorem radiance_exceeds_environment_in_double :
    (∀ p ∈ oneSphereScene.primitives, p.material.emission = Vec3.zero ∧
      (0 ≤ p.material.diffuse.x ∧ p.material.diffuse.x ≤ 1) ∧
      (0 ≤ p.material.diffuse.y ∧ p.material.diffuse.y ≤ 1) ∧
      (0 ≤ p.material.diffuse.z ∧ p.material.diffuse.z ≤ 1)) ∧
    (0 ≤ oneSphereScene.environment.x ∧ 0 ≤ oneSphereScene.environment.y ∧
      0 ≤ oneSphereScene.environment.z) ∧
    roundDouble (1 / 5) = oneSphereScene.environment.x ∧
    (radianceRounded roundDouble demoExternals oneSphereScene 0 demoRay 0 6 3 false).colour.x
      = 7205759403792795 / 36028797018963968 ∧
    ¬ (radianceRounded roundDouble demoExternals oneSphereScene 0 demoRay 0 6 3 false).colour.x
      ≤ oneSphereScene.environment.x := by
  refine ⟨?_, ?_, ?_, ?_, ?_⟩
  · intro p hp
    simp only [oneSphereScene, List.mem_singleton] at hp
    subst hp
    simp only [Primitive.material, whiteMaterial]
    refine ⟨rfl, ?_, ?_, ?_⟩ <;> norm_num
  · simp only [oneSphereScene, oneFifth]
    norm_num
  · rw [roundDouble_eval _ (-3) 7205759403792793 (by norm_num) (by norm_num) (by norm_num)
      (by norm_num) (by norm_num)]
    norm_num [oneSphereScene, oneFifth]
  · rw [radianceRounded_oneSphereScene_double]
  · rw [radianceRounded_oneSphereScene_double]
    simp only [oneSphereScene, oneFifth]
    norm_num

/-- C17 (amended): energy bound over exact arithmetic. For every scene in
which every material has zero emission and diffuse colour components in
`[0, 1]`, and whose environment colour components are non-negative, and for
every ray, rng state, depth, sample counts `numUSamples, numVSamples ≥ 1` (the
sampler yields exactly `numUSamples * numVSamples` samples) and
`preview = false`, each colour channel of the value `radiance` returns when
its arithmetic is exact lies between `0` and the corresponding channel of
`scene.environment`. -/
theorem radiance_energy_bound (ext : Externals α G) (scene : Scene α)
    (hmat : ∀ p ∈ scene.primitives, p.material.emission = Vec3.zero ∧
      (0 ≤ p.material.diffuse.x ∧ p.material.diffuse.x ≤ 1) ∧
      (0 ≤ p.material.diffuse.y ∧ p.material.diffuse.y ≤ 1) ∧
      (0 ≤ p.material.diffuse.z ∧ p.material.diffuse.z ≤ 1))
    (henv : 0 ≤ scene.environment.x ∧ 0 ≤ scene.environment.y ∧ 0 ≤ scene.environment.z)
    (rng : G) (ray : Ray α) (depth numU numV : Int) (hU : 1 ≤ numU) (hV : 1 ≤ numV) :
    (0 ≤ (radiance ext scene rng ray depth numU numV false).colour.x ∧
      (radiance ext scene rng ray depth numU numV false).colour.x ≤ scene.environment.x) ∧
    (0 ≤ (radiance ext scene rng ray depth numU numV false).colour.y ∧
      (radiance ext scene rng ray depth numU numV false).colour.y ≤ scene.environment.y) ∧
    (0 ≤ (radiance ext scene rng ray depth numU numV false).colour.z ∧
      (radiance ext scene rng ray depth numU numV false).colour.z ≤ scene.environment.z) :=
  radiance_bounded_aux ext scene hmat henv (MaxDepth - depth).toNat depth (le_refl _) rng ray
    numU numV hU hV

theorem radiance_energy_bound_witness :
    (∀ p ∈ oneSphereScene.primitives, p.material.emission = Vec3.zero ∧
      (0 ≤ p.material.diffuse.x ∧ p.material.diffuse.x ≤ 1) ∧
      (0 ≤ p.material.diffuse.y ∧ p.material.diffuse.y ≤ 1) ∧
      (0 ≤ p.material.diffuse.z ∧ p.material.diffuse.z ≤ 1)) ∧
    (0 ≤ oneSphereScene.environment.x ∧ 0 ≤ oneSphereScene.environment.y ∧
      0 ≤ oneSphereScene.environment.z) ∧ (1 : Int) ≤ 6 ∧ (1 : Int) ≤ 3 ∧
    (radiance demoExternals oneSphereScene 0 demoRay 0 6 3 false).colour
      = ⟨oneFifth, oneFifth, oneFifth⟩ ∧
    (0 ≤ (radiance demoExternals oneSphereScene 0 demoRay 0 6 3 false).colour.x ∧
      (radiance demoExternals oneSphereScene 0 demoRay 0 6 3 false).colour.x
        ≤ oneSphereScene.environment.x) :=
  have hmat : ∀ p ∈ oneSphereScene.primitives, p.material.emission = Vec3.zero ∧
      (0 ≤ p.material.diffuse.x ∧ p.material.diffuse.x ≤ 1) ∧
      (0 ≤ p.material.diffuse.y ∧ p.material.diffuse.y ≤ 1) ∧
      (0 ≤ p.material.diffuse.z ∧ p.material.diffuse.z ≤ 1) := by
    intro p hp
    simp only [oneSphereScene, List.mem_singleton] at hp
    subst hp
    simp only [Primitive.material, whiteMaterial]
    refine ⟨rfl, ?_, ?_, ?_⟩ <;> norm_num
  have henv : 0 ≤ oneSphereScene.environment.x ∧ 0 ≤ oneSphereScene.environment.y ∧
      0 ≤ oneSphereScene.environment.z := by
    simp only [oneSphereScene, oneFifth]
    norm_num
  ⟨hmat, henv, by decide, by decide, radiance_oneSphereScene_exact 0,
    (radiance_energy_bound demoExternals oneSphereScene hmat henv 0 demoRay 0 6 3 (by decide)
      (by decide)).1⟩

/-- C14: the mutual recursion `radiance -> singleRay -> radiance` terminates
for every scene, ray, rng state, integer depth (negative depths included) and
sample counts, with `MaxDepth - depth` as a decreasing measure: `radiance` is
a total function, its calls are nested at most `MaxDepth - depth + 1` deep,
every call makes at most `numUSamples * numVSamples` calls, each of depth one
more and of strictly smaller measure. In an evaluation started at depth `0`
every call of `radiance` has a depth in `0..MaxDepth` and every call that
intersects the scene has depth at most `MaxDepth - 1`. -/
theorem radiance_recursion_is_bounded (ext : Externals α G) (scene : Scene α) (rng : G)
    (ray : Ray α) (depth numU numV : Int) (preview : Bool) :
    (radiance ext scene rng ray depth numU numV preview).calls.NestedAtMost
      ((MaxDepth - depth).toNat + 1) ∧
    (radiance ext scene rng ray depth numU numV preview).calls.Forall
      (fun call _ children =>
        depth ≤ call.depth ∧
        children.length ≤ samplerSize call.numUSamples call.numVSamples ∧
        ∀ c ∈ children, c.call.depth = call.depth + 1 ∧
          (MaxDepth - c.call.depth).toNat < (MaxDepth - call.depth).toNat) ∧
    (radiance ext scene rng ray 0 numU numV preview).calls.Forall
      (fun call intersected _ =>
        0 ≤ call.depth ∧ call.depth ≤ MaxDepth ∧
        (intersected = true → call.depth ≤ MaxDepth - 1)) := by
  refine ⟨radiance_nested_aux ext scene preview _ depth (le_refl _) rng ray numU numV, ?_, ?_⟩
  · have h := radiance_forall_aux ext scene preview depth (MaxDepth - depth).toNat depth
      (le_refl _) (le_refl _) (le_max_left _ _) rng ray numU numV
    generalize (radiance ext scene rng ray depth numU numV preview).calls = t at h
    induction h with
    | node call b children hp _ ih =>
      exact .node _ _ _ ⟨hp.1, hp.2.2.2.1, hp.2.2.2.2⟩ ih
  · have h := radiance_forall_aux ext scene preview 0 (MaxDepth - 0).toNat 0
      (le_refl _) (le_refl _) (le_max_left _ _) rng ray numU numV
    generalize (radiance ext scene rng ray 0 numU numV preview).calls = t at h
    induction h with
    | node call b children hp _ ih =>
      refine .node _ _ _ ⟨hp.1, ?_, hp.2.2.1⟩ ih
      have := hp.2.1
      simp only [MaxDepth] at this ⊢
      omega

/-- C15: for every `samplesPerPixel > 0` and `numThreads ≥ 1` the wave loop of
`render` terminates after exactly `ceil(samplesPerPixel / numThreads)` waves:
it finishes within that many waves, not within fewer, and the waves are those
that start at `sample = 0, numThreads, 2 * numThreads, ...`. Every wave
launches `min(numThreads, samplesPerPixel - sample)` tasks, which is at least
`1` and at most `numThreads`, and every wave except possibly the last
launches exactly `numThreads` tasks. This holds for every interleaving of the
tasks. -/
theorem render_runs_in_waves (ext : Externals α G) (camera : Camera α G) (scene : Scene α)
    (output : ArrayOutput α) (samplesPerPixel numThreads : Int) (preview : Bool)
    (schedule : Int → List SeedAccess) (hS : 0 < samplesPerPixel) (hT : 1 ≤ numThreads) :
    (samplesPerPixel ≤ (waveCount samplesPerPixel numThreads : Int) * numThreads ∧
      ((waveCount samplesPerPixel numThreads : Int) - 1) * numThreads < samplesPerPixel) ∧
    render ext camera scene output samplesPerPixel numThreads preview schedule
        (waveCount samplesPerPixel numThreads)
      = some (runWaves ext camera scene samplesPerPixel numThreads preview schedule
          ⟨output, 0, 0, []⟩ (waveStarts samplesPerPixel numThreads)) ∧
    (∀ fuel : Nat, fuel < waveCount samplesPerPixel numThreads →
      render ext camera scene output samplesPerPixel numThreads preview schedule fuel = none) ∧
    ∀ i : Nat, i < waveCount samplesPerPixel numThreads →
      (∀ st : RenderState α,
        (launchedSamples (renderWave ext camera scene samplesPerPixel numThreads preview
            (schedule ((i : Int) * numThreads)) st ((i : Int) * numThreads)).events).length
          = (launchedSamples st.events).length
            + (min numThreads (samplesPerPixel - (i : Int) * numThreads)).toNat) ∧
      1 ≤ min numThreads (samplesPerPixel - (i : Int) * numThreads) ∧
      min numThreads (samplesPerPixel - (i : Int) * numThreads) ≤ numThreads ∧
      (i + 1 < waveCount samplesPerPixel numThreads →
        min numThreads (samplesPerPixel - (i : Int) * numThreads) = numThreads) := by
  obtain ⟨hw1, hw2, hw3⟩ := waveCount_spec samplesPerPixel numThreads hS hT
  have hrun : ∀ i : Nat, i < waveCount samplesPerPixel numThreads →
      (i : Int) * numThreads < samplesPerPixel := by
    intro i hi
    have hi' : (i : Int) ≤ (waveCount samplesPerPixel numThreads : Int) - 1 := by omega
    have : (i : Int) * numThreads
        ≤ ((waveCount samplesPerPixel numThreads : Int) - 1) * numThreads :=
      mul_le_mul_of_nonneg_right hi' (by omega)
    omega
  have hloop := renderLoop_waves ext camera scene samplesPerPixel numThreads preview schedule
    (waveCount samplesPerPixel numThreads) (waveCount samplesPerPixel numThreads) 0
    ⟨output, 0, 0, []⟩ (by intro i hi; simpa using hrun i hi) (by simpa using not_lt.mpr hw2)
  have hstarts : (List.range (waveCount samplesPerPixel numThreads)).map
      (fun (i : Nat) => (0 : Int) + (i : Int) * numThreads)
      = waveStarts samplesPerPixel numThreads := by
    simp [waveStarts]
  refine ⟨⟨hw2, hw3⟩, ?_, ?_, ?_⟩
  · rw [render, hloop.1 (le_refl _), hstarts]
  · intro fuel hfuel
    rw [render]
    exact (renderLoop_waves ext camera scene samplesPerPixel numThreads preview schedule
      (waveCount samplesPerPixel numThreads) fuel 0 ⟨output, 0, 0, []⟩
      (by intro i hi; simpa using hrun i hi) (by simpa using not_lt.mpr hw2)).2 hfuel
  · intro i hi
    have hs := hrun i hi
    refine ⟨?_, by omega, min_le_left _ _, ?_⟩
    · intro st
      rw [(renderWave_spec ext camera scene samplesPerPixel numThreads preview
        (schedule ((i : Int) * numThreads)) st ((i : Int) * numThreads)).2.2]
      rw [launchedSamples_append, launchedSamples_append, launchedSamples_completions]
      have := launchedSamples_launches ((List.range
        (min samplesPerPixel ((i : Int) * numThreads + numThreads)
          - (i : Int) * numThreads).toNat).map (fun (task : Nat) =>
          ((i : Int) * numThreads + (task : Int), ((List.foldl SeedRace.step ⟨st.seed, []⟩
            (schedule ((i : Int) * numThreads))).loaded.lookup task).getD st.seed)))
      simp only [List.map_map, Function.comp_def] at this
      rw [this]
      simp only [List.append_nil, List.length_append, List.length_map, List.length_range]
      congr 1
      omega
    · intro hnext
      have := hrun (i + 1) hnext
      push_cast at this
      have h2 : numThreads ≤ samplesPerPixel - (i : Int) * numThreads := by linarith
      exact min_eq_left h2

theorem render_runs_in_waves_witness :
    (0 : Int) < 5 ∧ (1 : Int) ≤ 2 ∧ waveCount 5 2 = 3 ∧ waveStarts 5 2 = [0, 2, 4] ∧
    (∀ fuel : Nat, fuel < waveCount 5 2 →
      render demoExternals demoCamera greyScene (ArrayOutput.create 1 1) 5 2 false
        (sequentialSchedule 5 2) fuel = none) :=
  ⟨by decide, by decide, by decide, by decide,
    (render_runs_in_waves demoExternals demoCamera greyScene (ArrayOutput.create 1 1) 5 2 false
      (sequentialSchedule 5 2) (by decide) (by decide)).2.2.1⟩

/-- C11: for every `width ≥ 2` and `height ≥ 2`, `renderWholeScreen` adds
exactly one sample of count `1` to every pixel `(x, y)` with `0 ≤ x < width`
and `0 ≤ y < height`, and the colour added at `(x, y)` is the radiance
estimate (depth `0`, sample counts `6 x 3`) of the camera ray requested for
the normalised coordinates `2 * (x + offset + 0.5) / (width - 1) - 1` and
`2 * (y + offset + 0.5) / (height - 1) - 1` of that same pixel: the `k`-th
element of the zipped pixel range is `(k mod width, k div width)` and is read
back at index `x + y * width`. -/
theorem renderWholeScreen_samples_every_pixel_once (ext : Externals α G) (camera : Camera α G)
    (scene : Scene α) (seed : Nat) (width height : Int) (preview : Bool) (hw : 2 ≤ width)
    (hh : 2 ≤ height) :
    (renderWholeScreen ext camera scene seed width height preview).output.length
      = (width * height).toNat ∧
    (xyRange width height).length = (width * height).toNat ∧
    (∀ k : Nat, k < (width * height).toNat →
      (xyRange width height)[k]? = some ((k : Int) % width, (k : Int) / width)) ∧
    renderColours ext camera scene seed width height preview
      = pixelResults ext camera scene width height preview (xyRange width height)
          (ext.seedRng seed) ∧
    (∀ (rng : G) (x y : Int),
      primaryRay ext camera width height rng (x, y)
        = camera.ray
            (2 * ((x : α) + (ext.unit (ext.unit rng).2).1 + 1 / 2) / ((width - 1 : Int) : α) - 1)
            (2 * ((y : α) + (ext.unit rng).1 + 1 / 2) / ((height - 1 : Int) : α) - 1)
            (ext.unit (ext.unit rng).2).2) ∧
    ∀ x y : Int, 0 ≤ x → x < width → 0 ≤ y → y < height →
      (x + y * width).toNat < (width * height).toNat ∧
      (xyRange width height)[(x + y * width).toNat]? = some (x, y) ∧
      ∃ g : G,
        (renderWholeScreen ext camera scene seed width height preview).output[
            (x + y * width).toNat]?
          = some ⟨(radiance ext scene (primaryRay ext camera width height g (x, y)).2
              (primaryRay ext camera width height g (x, y)).1 0 FirstBounceNumUSamples
              FirstBounceNumVSamples preview).colour, 1⟩ := by
  have hw0 : 0 ≤ width := by omega
  have hh0 : 0 ≤ height := by omega
  have hW : 0 < width.toNat := by omega
  have h1 : ((width.toNat : Int)) = width := Int.toNat_of_nonneg hw0
  have h2 : ((height.toNat : Int)) = height := Int.toNat_of_nonneg hh0
  have hn : (width * height).toNat = height.toNat * width.toNat := by
    have : width * height = ((height.toNat * width.toNat : Nat) : Int) := by
      push_cast
      rw [h1, h2]
      ring
    rw [this, Int.toNat_natCast]
  have hxy := xyRange_eq width height (by omega) hh0
  obtain ⟨hlen, hout⟩ := renderWholeScreen_output ext camera scene seed width height preview
    hw0 hh0
  have hkth : ∀ k : Nat, k < (width * height).toNat →
      (xyRange width height)[k]? = some ((k : Int) % width, (k : Int) / width) := by
    intro k hk
    rw [hxy, List.getElem?_map, List.getElem?_range hk]
    simp only [Option.map_some', Option.some.injEq, Prod.mk.injEq]
    rw [Int.natCast_mod, Int.natCast_div, h1]
    exact ⟨rfl, rfl⟩
  refine ⟨hlen, by rw [hxy]; simp, hkth, renderColours_eq_pixelResults _ _ _ _ _ _ _, ?_, ?_⟩
  · intro rng x y
    rfl
  · intro x y hx0 hx1 hy0 hy1
    lift x to ℕ using hx0
    lift y to ℕ using hy0
    have hxW : x < width.toNat := by omega
    have hyH : y < height.toNat := by omega
    have hidx : ((x : Int) + (y : Int) * width).toNat = x + y * width.toNat := by
      have : (x : Int) + (y : Int) * width = ((x + y * width.toNat : Nat) : Int) := by
        push_cast
        rw [h1]
      rw [this, Int.toNat_natCast]
    have hbound : x + y * width.toNat < height.toNat * width.toNat := by
      have : (y + 1) * width.toNat ≤ height.toNat * width.toNat :=
        Nat.mul_le_mul_right _ (by omega)
      rw [Nat.succ_mul] at this
      omega
    have htuple : (xyRange width height)[x + y * width.toNat]? = some ((x : Int), (y : Int)) := by
      rw [hkth _ (by rw [hn]; exact hbound)]
      simp only [Option.some.injEq, Prod.mk.injEq]
      constructor
      · calc ((x + y * width.toNat : Nat) : Int) % width
            = ((x + y * width.toNat : Nat) : Int) % ((width.toNat : Nat) : Int) := by rw [h1]
          _ = (((x + y * width.toNat) % width.toNat : Nat) : Int) := (Int.natCast_mod _ _).symm
          _ = (x : Int) := by rw [Nat.add_mul_mod_self_right, Nat.mod_eq_of_lt hxW]
      · calc ((x + y * width.toNat : Nat) : Int) / width
            = ((x + y * width.toNat : Nat) : Int) / ((width.toNat : Nat) : Int) := by rw [h1]
          _ = (((x + y * width.toNat) / width.toNat : Nat) : Int) := (Int.natCast_div _ _).symm
          _ = (y : Int) := by
            rw [Nat.add_mul_div_right _ _ hW, Nat.div_eq_of_lt hxW, Nat.zero_add]
    rw [hidx]
    refine ⟨by rw [hn]; exact hbound, htuple, ?_⟩
    obtain ⟨g, hg⟩ := pixelResults_getElem? ext camera scene width height preview
      (xyRange width height) (ext.seedRng seed) _ _ htuple
    refine ⟨g, ?_⟩
    rw [hout _ (by rw [hn]; exact hbound), renderColours_eq_pixelResults,
      List.getD_eq_getElem?_getD, List.getElem?_map, hg]
    simp [Vec3.add, Vec3.zero]

theorem renderWholeScreen_samples_every_pixel_once_witness :
    (2 : Int) ≤ 2 ∧ (2 : Int) ≤ 3 ∧
    (renderWholeScreen demoExternals demoCamera greyScene 0 2 3 false).output.length = 6 ∧
    (xyRange 2 3)[5]? = some (1, 2) :=
  ⟨by decide, by decide,
    (renderWholeScreen_samples_every_pixel_once demoExternals demoCamera greyScene 0 2 3 false
      (by decide) (by decide)).1,
    ((renderWholeScreen_samples_every_pixel_once demoExternals demoCamera greyScene 0 2 3 false
      (by decide) (by decide)).2.2.2.2.2 1 2 (by decide) (by decide) (by decide)
      (by decide)).2.1⟩

end claims


end fp
